import Mathlib

/-!
Verification of the lexparse library (a generic lexer/parser engine).

The Go sources are shallowly embedded below:
* the Lexer position/accumulation machinery (`advance`, `Discard`, `Find`,
  `SkipTo`, `Ignore`, `ReadRune`) from the current lexer implementation;
* the parse-tree builders: the `Parser[V]` of parser.go (binary rotations,
  `Node`/`Push`/`Climb`/`Replace`) and the `Parser[V]` of the tree-based
  variant (parent-promotion `RotateLeft`, `AdoptSibling`);
* the `Parse` trampoline and the `LexParse` driver's error merging.

Pointer-linked nodes are modelled by a heap: a list of node records indexed
by position (a node's identity is its index).  Mutation through a pointer
becomes `List.set` at that index.  Channels become lists, contexts become a
step-indexed cancellation oracle, and goroutine scheduling is abstracted
where a claim only concerns sequential logic.
-/

set_option maxHeartbeats 1000000
set_option maxRecDepth 4000
set_option linter.unusedVariables false

namespace Lexparse

/-! ## Shared model types -/

/-- Error values observable in the embedded fragment of the library:
the end-of-input sentinel `io.EOF`, the `context.Canceled` error, and an
opaque family of other error values. -/
inductive GoErr where
  | eof
  | canceled
  | other (code : Nat)
  deriving DecidableEq, Repr

/-- Lexeme from lexer.go: a tokenized input emitted by a Lexer. -/
structure Lexeme where
  type : Nat
  value : List Char
  pos : Nat
  line : Nat
  column : Nat
  deriving DecidableEq, Repr

/-! ## Lexer state (lexer implementation with `advance(n, discard)`)

The lexer's guarded state `l.s` holds the underlying reader, the current
`strings.Builder` accumulating the pending lexeme, and the position
counters.  The underlying `BufferedRuneReader` is modelled by the list of
runes remaining in the input; its `Buffered()` report is an arbitrary
oracle `B` (any natural number answer), so theorems below hold for every
possible buffering behaviour of the reader.  `Peek n` returns the first
`min n remaining` runes together with `io.EOF` when fewer than `n` are
available, and `Discard k` for `k ≤ remaining` discards exactly `k` —
the contract of the reader interface. -/

structure LexState where
  input : List Char
  pos : Nat
  line : Nat
  column : Nat
  startPos : Nat
  startLine : Nat
  startColumn : Nat
  buf : List Char
  deriving DecidableEq, Repr

namespace Lexer

/-- Position bookkeeping of the loop inside `advance`:
for each discarded rune `rn[i]`, `if rn[i] == '\n' { line++; column = 0 } else { column++ }`. -/
def bumpLC : Nat × Nat → List Char → Nat × Nat
  | lc, [] => lc
  | (l, c), r :: rest => if r = '\n' then bumpLC (l + 1, 0) rest else bumpLC (l, c + 1) rest

/-- Reference line/column counter, modelled from the claim's words: line is
incremented and column reset to zero once per newline consumed, and column
is incremented once per other rune consumed. -/
def refLineCol (line column : Nat) : List Char → Nat × Nat
  | [] => (line, column)
  | r :: rest =>
    if r = '\n' then refLineCol (line + 1) 0 rest else refLineCol line (column + 1) rest

/-- The `Lexer.ignore` method: reset the lexeme start markers to the current
position and clear the accumulation builder. -/
def ignore (s : LexState) : LexState :=
  { s with startPos := s.pos, startLine := s.line, startColumn := s.column, buf := [] }

/-- The loop of `Lexer.advance(n, discard)`.  `B` is the `Buffered()` oracle
of the underlying reader.  Each iteration computes `toRead`, peeks that many
runes, discards exactly the runes peeked (the reader can always discard
runes it just returned from `Peek`, so the `dErr` branch of the source is
unreachable and omitted), updates `pos`/`line`/`column`, appends the runes
to the builder unless discarding, and returns the peeked `io.EOF` if the
peek was short. -/
def advanceCore (B : List Char → Nat) (discard : Bool) (n : Nat) (s : LexState) :
    Nat × Option GoErr × LexState :=
  if hn : n = 0 then (0, none, s)
  else
    -- toRead := l.s.r.Buffered(); if n < toRead { toRead = n }
    let buffered := B s.input
    let toRead0 := if n < buffered then n else buffered
    -- if toRead == 0 { if minSize < n { toRead = minSize } else { toRead = n } }
    let toRead := if toRead0 = 0 then (if 16 < n then 16 else n) else toRead0
    -- rn, err := l.s.r.Peek(toRead)
    let rn := s.input.take toRead
    -- d, _ := l.s.r.Discard(len(rn)); advanced += d; l.s.pos += d
    let d := rn.length
    let lc := bumpLC (s.line, s.column) rn
    let s' : LexState :=
      { s with input := s.input.drop d, pos := s.pos + d,
               line := lc.1, column := lc.2,
               buf := if discard then s.buf else s.buf ++ rn }
    if hshort : s.input.length < toRead then
      -- EOF from Peek
      (d, some .eof, s')
    else
      let r := advanceCore B discard (n - d) s'
      (d + r.1, r.2.1, r.2.2)
  termination_by n
  decreasing_by
    simp only [List.length_take]
    simp only [toRead, toRead0] at hshort ⊢
    split_ifs at hshort ⊢ <;> omega

/-- The `Lexer.advance(n, discard)` method.  When `discard` is set,
`defer l.ignore()` resets the lexeme start and clears the builder on every
exit path of the loop. -/
def advance (B : List Char → Nat) (n : Nat) (s : LexState) (discard : Bool) :
    Nat × Option GoErr × LexState :=
  let r := advanceCore B discard n s
  if discard then (r.1, r.2.1, ignore r.2.2) else r

/-- The exported `Lexer.Advance(n)` method. -/
def Advance (B : List Char → Nat) (n : Nat) (s : LexState) : Nat × Option GoErr × LexState :=
  advance B n s false

/-- The exported `Lexer.Discard(n)` method. -/
def Discard (B : List Char → Nat) (n : Nat) (s : LexState) : Nat × Option GoErr × LexState :=
  advance B n s true

theorem bumpLC_append (lc : Nat × Nat) (xs ys : List Char) :
    bumpLC lc (xs ++ ys) = bumpLC (bumpLC lc xs) ys := by
  induction xs generalizing lc with
  | nil => rfl
  | cons x xs ih =>
    obtain ⟨l, c⟩ := lc
    by_cases hx : x = '\n' <;> simp [bumpLC, hx, ih]

theorem bumpLC_eq_refLineCol (l c : Nat) (xs : List Char) :
    bumpLC (l, c) xs = refLineCol l c xs := by
  induction xs generalizing l c with
  | nil => rfl
  | cons x xs ih =>
    by_cases hx : x = '\n' <;> simp [bumpLC, refLineCol, hx, ih]

/-- Full characterization of the `advance` loop: it consumes exactly
`min n remaining` runes, reports `io.EOF` exactly when fewer than `n` were
available, advances `pos` by the consumed count, pushes `line`/`column`
over the consumed runes, leaves the start markers alone, and appends the
consumed runes to the builder unless discarding. -/
theorem advanceCore_spec (B : List Char → Nat) (disc : Bool) (n : Nat) (s : LexState) :
    advanceCore B disc n s =
      (min n s.input.length,
       (if s.input.length < n then some GoErr.eof else none),
       { s with input := s.input.drop (min n s.input.length),
                pos := s.pos + min n s.input.length,
                line := (bumpLC (s.line, s.column) (s.input.take (min n s.input.length))).1,
                column := (bumpLC (s.line, s.column) (s.input.take (min n s.input.length))).2,
                buf := if disc then s.buf
                       else s.buf ++ s.input.take (min n s.input.length) }) := by
  induction n using Nat.strong_induction_on generalizing s with
  | _ n ih =>
    rw [advanceCore]
    by_cases hn : n = 0
    · subst hn
      simp [bumpLC]
    · rw [dif_neg hn]
      set buffered := B s.input with hbuf
      set toRead0 := if n < buffered then n else buffered with htr0
      set toRead := if toRead0 = 0 then (if 16 < n then 16 else n) else toRead0 with htr
      have htr_le : toRead ≤ n := by
        rw [htr, htr0]; split_ifs <;> omega
      have htr_pos : 1 ≤ toRead := by
        rw [htr]; split_ifs with h1 h2
        · omega
        · omega
        · rw [htr0] at h1 ⊢; split_ifs at h1 ⊢ <;> omega
      by_cases hshort : s.input.length < toRead
      · rw [dif_pos hshort]
        have hd : (s.input.take toRead).length = s.input.length := by
          simp [List.length_take]; omega
        have hmin : min n s.input.length = s.input.length := by omega
        have htk : s.input.take toRead = s.input := List.take_of_length_le (by omega)
        have htk2 : s.input.take s.input.length = s.input := by simp
        have hlt : s.input.length < n := by omega
        simp only [hd, hmin, htk, htk2, if_pos hlt, List.drop_length]
      · rw [dif_neg hshort]
        have hlen : toRead ≤ s.input.length := by omega
        have hd : (s.input.take toRead).length = toRead := by
          simp [List.length_take]; omega
        simp only [hd]
        rw [ih (n - toRead) (by omega)]
        simp only [List.length_drop]
        have hmin : toRead + min (n - toRead) (s.input.length - toRead)
            = min n s.input.length := by omega
        have hcondi : (s.input.length - toRead < n - toRead) ↔ (s.input.length < n) := by
          omega
        have htake : s.input.take toRead ++ (s.input.drop toRead).take (min (n - toRead) (s.input.length - toRead))
            = s.input.take (min n s.input.length) := by
          rw [← hmin, List.take_add]
        have hdrop : (s.input.drop toRead).drop (min (n - toRead) (s.input.length - toRead))
            = s.input.drop (min n s.input.length) := by
          rw [List.drop_drop, ← hmin, Nat.add_comm]
        simp only [Prod.mk.injEq]
        refine ⟨by omega, by simp only [hcondi], ?_⟩
        simp only [LexState.mk.injEq]
        refine ⟨hdrop, by omega, ?_, ?_, trivial, trivial, trivial, ?_⟩
        · rw [← htake, bumpLC_append]
        · rw [← htake, bumpLC_append]
        · cases disc
          · simp only [Bool.false_eq_true, if_false, List.append_assoc, htake]
          · simp

theorem Advance_spec (B : List Char → Nat) (n : Nat) (s : LexState) :
    Advance B n s =
      (min n s.input.length,
       (if s.input.length < n then some GoErr.eof else none),
       { s with input := s.input.drop (min n s.input.length),
                pos := s.pos + min n s.input.length,
                line := (bumpLC (s.line, s.column) (s.input.take (min n s.input.length))).1,
                column := (bumpLC (s.line, s.column) (s.input.take (min n s.input.length))).2,
                buf := s.buf ++ s.input.take (min n s.input.length) }) := by
  simp [Advance, advance, advanceCore_spec]

theorem Discard_spec (B : List Char → Nat) (n : Nat) (s : LexState) :
    Discard B n s =
      (min n s.input.length,
       (if s.input.length < n then some GoErr.eof else none),
       { s with input := s.input.drop (min n s.input.length),
                pos := s.pos + min n s.input.length,
                line := (bumpLC (s.line, s.column) (s.input.take (min n s.input.length))).1,
                column := (bumpLC (s.line, s.column) (s.input.take (min n s.input.length))).2,
                startPos := s.pos + min n s.input.length,
                startLine := (bumpLC (s.line, s.column) (s.input.take (min n s.input.length))).1,
                startColumn := (bumpLC (s.line, s.column) (s.input.take (min n s.input.length))).2,
                buf := [] }) := by
  simp [Discard, advance, advanceCore_spec, ignore]

/-- The locked body of `Lexer.ReadRune`: read one rune, bump `pos`/`column`
(resetting `column` and bumping `line` on a newline), and append the rune to
the builder.  The end-of-input condition of the reader is propagated. -/
def readrune (s : LexState) : Option Char × LexState :=
  match s.input with
  | [] => (none, s)
  | r :: rest =>
    let lc : Nat × Nat := if r = '\n' then (s.line + 1, 0) else (s.line, s.column + 1)
    (some r, { s with input := rest, pos := s.pos + 1,
                      line := lc.1, column := lc.2, buf := s.buf ++ [r] })

/-- Byte length of a token, as Go's `len` on a string. -/
def byteLen (t : List Char) : Nat := t.foldl (fun a c => a + c.utf8Size) 0

/-- The `maxLen` computation shared by `Find` and `SkipTo`: the largest byte
length among the candidate tokens. -/
def maxByteLen (tokens : List (List Char)) : Nat :=
  tokens.foldl (fun a t => if a < byteLen t then byteLen t else a) 0

/-- The loop of `Lexer.Find`: peek `maxLen` runes ahead (a short peek at end
of input yields just the remaining runes, its `io.EOF` being ignored); if one
of the tokens is a prefix of the peeked text return it, otherwise consume one
rune via `readrune` (returning its `io.EOF` at end of input) and repeat.
Go compares `strings.HasPrefix(string(rns), tokens[j])` on UTF-8 bytes, which
for whole-rune sequences coincides with rune-list prefixing. -/
def findLoop (tokens : List (List Char)) (maxLen : Nat) (s : LexState) :
    Option (List Char) × Option GoErr × LexState :=
  let rns := s.input.take maxLen
  match tokens.find? (fun t => t.isPrefixOf rns) with
  | some t => (some t, none, s)
  | none =>
    if hi : s.input = [] then (none, some .eof, s)
    else findLoop tokens maxLen (readrune s).2
  termination_by s.input.length
  decreasing_by
    rcases hx : s.input with _ | ⟨r, rest⟩
    · exact absurd hx hi
    · simp [readrune, hx]

/-- The `Lexer.Find` method (multi-token form). -/
def Find (tokens : List (List Char)) (s : LexState) :
    Option (List Char) × Option GoErr × LexState :=
  findLoop tokens (maxByteLen tokens) s

/-- The window scan inside `SkipTo`:
`for i := 0; i < len(rns)-maxLen+1; i++ { for j := range tokens { if HasPrefix(rns[i:i+maxLen], tokens[j]) ... } }`.
The loop bound is computed in Go `int` arithmetic, so there are no
iterations when `len(rns) < maxLen`.  Returns the first matching window
offset together with the first matching token at it. -/
def scanWin (tokens : List (List Char)) (maxLen : Nat) (rns : List Char) :
    Option (Nat × List Char) :=
  (List.range (rns.length + 1 - maxLen)).findSome? fun i =>
    (tokens.find? fun t => t.isPrefixOf ((rns.drop i).take maxLen)).map fun t => (i, t)

/-- The loop of `Lexer.SkipTo`: peek `max(Buffered, maxLen)` runes, scan the
full-size windows for a token match; on a match discard the runes before the
match via `advance(i, true)` and return the token; otherwise discard the
window positions scanned (at least one rune) and repeat, propagating the
end-of-input error from the discarding advance. -/
def skipToLoop (B : List Char → Nat) (tokens : List (List Char)) (maxLen : Nat)
    (s : LexState) : Option (List Char) × Option GoErr × LexState :=
  let bufS := if B s.input < maxLen then maxLen else B s.input
  let rns := s.input.take bufS
  match scanWin tokens maxLen rns with
  | some it =>
    let r := advance B it.1 s true
    match r.2.1 with
    | some e => (none, some e, r.2.2)
    | none => (some it.2, none, r.2.2)
  | none =>
    -- toDiscard := len(rns) - maxLen + 1; if toDiscard <= 0 { toDiscard = 1 }
    let toDiscard := if rns.length + 1 ≤ maxLen then 1 else rns.length + 1 - maxLen
    let r := advance B toDiscard s true
    if hr : r.2.1 = none then skipToLoop B tokens maxLen r.2.2
    else (none, r.2.1, r.2.2)
  termination_by s.input.length
  decreasing_by
    have h1 : 1 ≤ toDiscard := by
      show 1 ≤ (if rns.length + 1 ≤ maxLen then 1 else rns.length + 1 - maxLen)
      split_ifs with h
      · omega
      · omega
    have hr2 : (advance B toDiscard s true).2.1
        = (if s.input.length < toDiscard then some GoErr.eof else none) := by
      simp [advance, advanceCore_spec, ignore]
    have hr3 : (advance B toDiscard s true).2.2.input
        = s.input.drop (min toDiscard s.input.length) := by
      simp [advance, advanceCore_spec, ignore]
    replace hr : (advance B toDiscard s true).2.1 = none := hr
    show (advance B toDiscard s true).2.2.input.length < s.input.length
    rw [hr3]
    rw [hr2] at hr
    split_ifs at hr with hlt
    simp only [List.length_drop]
    omega

/-- The `Lexer.SkipTo` method. -/
def SkipTo (B : List Char → Nat) (tokens : List (List Char)) (s : LexState) :
    Option (List Char) × Option GoErr × LexState :=
  skipToLoop B tokens (maxByteLen tokens) s

end Lexer

/-- C3: For every input and every n >= 0, Advance(n) and Discard(n) return
exactly the number of runes actually consumed (min of n and the available
runes), returning an end-of-input error exactly when fewer than n runes
were available — partial progress preserved — and they advance pos by
exactly the consumed count while updating line and column exactly as the
reference line/column counter run over the consumed runes. -/
theorem claim_C3 (B : List Char → Nat) (n : Nat) (s : LexState) :
    ((Lexer.Advance B n s).1 = min n s.input.length ∧
     ((Lexer.Advance B n s).2.1 = some GoErr.eof ↔ s.input.length < n) ∧
     (Lexer.Advance B n s).2.2.input = s.input.drop (min n s.input.length) ∧
     (Lexer.Advance B n s).2.2.pos = s.pos + min n s.input.length ∧
     ((Lexer.Advance B n s).2.2.line, (Lexer.Advance B n s).2.2.column)
        = Lexer.refLineCol s.line s.column (s.input.take (min n s.input.length))) ∧
    ((Lexer.Discard B n s).1 = min n s.input.length ∧
     ((Lexer.Discard B n s).2.1 = some GoErr.eof ↔ s.input.length < n) ∧
     (Lexer.Discard B n s).2.2.input = s.input.drop (min n s.input.length) ∧
     (Lexer.Discard B n s).2.2.pos = s.pos + min n s.input.length ∧
     ((Lexer.Discard B n s).2.2.line, (Lexer.Discard B n s).2.2.column)
        = Lexer.refLineCol s.line s.column (s.input.take (min n s.input.length))) := by
  rw [Lexer.Advance_spec, Lexer.Discard_spec]
  refine ⟨⟨rfl, ?_, rfl, rfl, ?_⟩, rfl, ?_, rfl, rfl, ?_⟩
  · split_ifs with h <;> simp [h]
  · exact Lexer.bumpLC_eq_refLineCol _ _ _
  · split_ifs with h <;> simp [h]
  · exact Lexer.bumpLC_eq_refLineCol _ _ _

/-- Token list for the C8 evaluation: `["ab", "c"]`. -/
def c8Tokens : List (List Char) := [['a', 'b'], ['c']]

/-- Lexer state for the C8 evaluation: a fresh lexer whose remaining input is
`"xc"`. -/
def c8State : LexState := ⟨['x', 'c'], 0, 0, 0, 0, 0, 0, []⟩

/-- A `Buffered()` oracle reporting an empty reader buffer. -/
def noBuffer : List Char → Nat := fun _ => 0

/-- C8: the claim states that SkipTo performs the same search as Find
(stopping as soon as the upcoming input starts with one of the tokens, with
the skipped text discarded).  Evaluating the code at tokens `["ab", "c"]`
and input `"xc"` refutes this: the upcoming input starts with `"c"` after one
rune, and Find duly consumes the single rune `'x'` and returns `"c"`, but
SkipTo only examines windows of the maximal token length (2), never sees the
match at the final rune, consumes the entire input and returns the
end-of-input error. -/
theorem char_beq_eq_decide (a b : Char) : (a == b) = decide (a = b) := rfl

theorem claim_C8 :
    Lexer.SkipTo noBuffer c8Tokens c8State
      = (none, some GoErr.eof, ⟨[], 2, 0, 2, 2, 0, 2, []⟩) ∧
    Lexer.Find c8Tokens c8State
      = (some ['c'], none, ⟨['c'], 1, 0, 1, 0, 0, 0, ['x']⟩) := by
  constructor
  · rw [Lexer.SkipTo]
    rw [show Lexer.maxByteLen c8Tokens = 2 from rfl]
    rw [Lexer.skipToLoop]
    simp +decide [Lexer.advance, Lexer.advanceCore_spec, Lexer.ignore, c8State,
      c8Tokens, noBuffer, Lexer.bumpLC,
      show Lexer.scanWin [['a', 'b'], ['c']] 2 ['x', 'c'] = none from rfl]
    rw [Lexer.skipToLoop]
    simp +decide [Lexer.advance, Lexer.advanceCore_spec, Lexer.ignore, c8State,
      c8Tokens, noBuffer, Lexer.bumpLC,
      show Lexer.scanWin [['a', 'b'], ['c']] 2 ['c'] = none from rfl]
    rw [Lexer.skipToLoop]
    simp +decide [Lexer.advance, Lexer.advanceCore_spec, Lexer.ignore, c8State,
      c8Tokens, noBuffer, Lexer.bumpLC,
      show Lexer.scanWin [['a', 'b'], ['c']] 2 ([] : List Char) = none from rfl]
  · rw [Lexer.Find]
    rw [show Lexer.maxByteLen c8Tokens = 2 from rfl]
    rw [Lexer.findLoop]
    simp +decide [Lexer.readrune, c8State, c8Tokens,
      show [['a', 'b'], ['c']].find?
          (fun t => t.isPrefixOf (List.take 2 ['x', 'c'])) = none from rfl]
    rw [Lexer.findLoop]
    simp +decide [Lexer.readrune, c8State, c8Tokens,
      show [['a', 'b'], ['c']].find?
          (fun t => t.isPrefixOf (List.take 2 ['c'])) = some ['c'] from rfl]

/-- C10: Advance(0) returns count 0 with no error and leaves the whole lexer
state unchanged, while Discard(0) also returns count 0 with no error but
additionally resets the lexeme-start markers to the current position and
clears the accumulation buffer, exactly like Ignore. -/
theorem claim_C10 (B : List Char → Nat) (s : LexState) :
    Lexer.Advance B 0 s = (0, none, s) ∧
    Lexer.Discard B 0 s = (0, none, Lexer.ignore s) ∧
    Lexer.ignore s = { s with startPos := s.pos, startLine := s.line,
                              startColumn := s.column, buf := [] } := by
  refine ⟨?_, ?_, rfl⟩ <;>
    simp [Lexer.Advance, Lexer.Discard, Lexer.advance, Lexer.advanceCore]

/-! ## Parse-tree heap model

Go's `Node[V]` values are linked by pointers (`Parent *Node[V]`,
`Children []*Node[V]`).  We model the heap as a list of node records; a
node's identity is its index, a pointer is an `Option Nat` (`none` = nil),
and a field assignment through a pointer is `List.set` at that index.
A nil-pointer dereference (a Go panic) is modelled by returning `none`
from the operation. -/

/-- One heap cell: the pointer fields shared by both parser variants plus a
variant-specific payload (the value, and for parser.go also Pos/Line/Column). -/
structure NodeData (α : Type) where
  parent : Option Nat
  children : List (Option Nat)
  payload : α
  deriving DecidableEq, Repr

/-- The tree-operation error `ErrMissingRequiredNode`. -/
inductive TreeErr where
  | missingRequiredNode
  deriving DecidableEq, Repr

/-- Payload of a parser.go node: `Value`, `Pos`, `Line`, `Column`. -/
structure P1Data (V : Type) where
  value : V
  pos : Nat
  line : Nat
  column : Nat
  deriving DecidableEq, Repr

/-- `Node.Left()`: `Children[0]` when present, nil otherwise. -/
def NodeData.left (d : NodeData α) : Option Nat := d.children.getD 0 none

/-- `Node.Right()`: `Children[1]` when present, nil otherwise. -/
def NodeData.right (d : NodeData α) : Option Nat := d.children.getD 1 none

/-- `Node.SetLeft(l)` on node `pid` with `l = lid`: pad the children to
length 1 with nil, set slot 0, and set `l.Parent = p`. -/
def setLeft (h : List (NodeData α)) (pid lid : Nat) : Option (List (NodeData α)) := do
  let dp ← h[pid]?
  let padded := dp.children ++ List.replicate (1 - dp.children.length) none
  let h1 := h.set pid { dp with children := padded.set 0 (some lid) }
  let dl ← h1[lid]?
  some (h1.set lid { dl with parent := some pid })

/-- `Node.SetRight(r)` on node `pid` with `r = rid`: pad the children to
length 2 with nil, set slot 1, and set `r.Parent = p`. -/
def setRight (h : List (NodeData α)) (pid rid : Nat) : Option (List (NodeData α)) := do
  let dp ← h[pid]?
  let padded := dp.children ++ List.replicate (2 - dp.children.length) none
  let h1 := h.set pid { dp with children := padded.set 1 (some rid) }
  let dr ← h1[rid]?
  some (h1.set rid { dr with parent := some pid })

/-- `Node.ReplaceChild(l, r)` on node `pid`: every child slot equal to
`oldId` is replaced by `newId`, and `newId.Parent` is set to `pid` when a
replacement happened (the removed child's parent is deliberately left
stale). -/
def replaceChild (h : List (NodeData α)) (pid oldId newId : Nat) :
    Option (List (NodeData α)) := do
  let dp ← h[pid]?
  let h1 := h.set pid
    { dp with children := dp.children.map fun c => if c = some oldId then some newId else c }
  if dp.children.contains (some oldId) then do
    let dn ← h1[newId]?
    some (h1.set newId { dn with parent := some pid })
  else
    some h1

/-! ## The parser of parser.go (binary-rotation variant) -/

/-- `Parser[V]` of parser.go: the heap of nodes, the `root` and current
`node` pointers, the pending peeked lexeme, and the lexeme channel
(modelled as the list of lexemes that will still be received; an empty
list is a closed channel). -/
structure Parser1 (V : Type) where
  heap : List (NodeData (P1Data V))
  root : Nat
  node : Nat
  lexeme : Option Lexeme
  stream : List Lexeme
  deriving DecidableEq, Repr

namespace Parser1

variable {V : Type}

/-- `NewParser`: a single root node holding the zero value of `V`
(`v0` stands for Go's zero value), cursor at the root. -/
def newParser (v0 : V) (stream : List Lexeme) : Parser1 V :=
  { heap := [⟨none, [], ⟨v0, 0, 0, 0⟩⟩], root := 0, node := 0,
    lexeme := none, stream := stream }

/-- `Parser.Peek`: return the pending lexeme, or receive one from the
channel and remember it; nil when the channel is closed. -/
def Peek (p : Parser1 V) : Option Lexeme × Parser1 V :=
  match p.lexeme with
  | some l => (some l, p)
  | none =>
    match p.stream with
    | [] => (none, p)
    | l :: rest => (some l, { p with lexeme := some l, stream := rest })

/-- `Parser.Next`: `Peek` and then clear the pending lexeme. -/
def Next (p : Parser1 V) : Option Lexeme × Parser1 V :=
  let r := p.Peek
  (r.1, { r.2 with lexeme := none })

/-- `Parser.newNode`: the new node's position fields are taken from
`p.lexeme` when one is pending, and are zero otherwise. -/
def newNodeData (p : Parser1 V) (v : V) : P1Data V :=
  match p.lexeme with
  | some lx => ⟨v, lx.pos, lx.line, lx.column⟩
  | none => ⟨v, 0, 0, 0⟩

/-- `Parser.Node(v)`: allocate a node at the current lexeme position, set
its parent to the current node, and append it to the current node's
children.  The cursor does not move. -/
def Node (p : Parser1 V) (v : V) : Option (Nat × Parser1 V) := do
  let d ← p.heap[p.node]?
  let m := p.heap.length
  let nd : NodeData (P1Data V) := ⟨some p.node, [], p.newNodeData v⟩
  some (m, { p with
    heap := (p.heap ++ [nd]).set p.node { d with children := d.children ++ [some m] } })

/-- `Parser.Push(v)`: `Node(v)` and move the cursor to the new node. -/
def Push (p : Parser1 V) (v : V) : Option (Nat × Parser1 V) := do
  let r ← p.Node v
  some (r.1, { r.2 with node := r.1 })

/-- `Parser.Climb`: return the current node; move the cursor to its parent
unless the current node has no parent. -/
def Climb (p : Parser1 V) : Option (Nat × Parser1 V) := do
  let d ← p.heap[p.node]?
  some (p.node, match d.parent with
                | some q => { p with node := q }
                | none => p)

/-- Replace the first child slot equal to `a` with `b` (the loop in
`Parser.Replace` breaks after the first match). -/
def replaceFirst (l : List (Option Nat)) (a b : Option Nat) : List (Option Nat) :=
  match l with
  | [] => []
  | x :: r => if x = a then b :: r else x :: replaceFirst r a b

/-- Re-parent every child in the list onto `newPar`
(`n.Children[i].Parent = n` in `Parser.Replace`); a nil child slot would be
a nil-pointer dereference. -/
def reParentAll (h : List (NodeData α)) (cs : List (Option Nat)) (newPar : Nat) :
    Option (List (NodeData α)) :=
  match cs with
  | [] => some h
  | none :: _ => none
  | some c :: rest => do
      let dc ← h[c]?
      reParentAll (h.set c { dc with parent := some newPar }) rest newPar

/-- `Parser.Replace(v)`: allocate a new node at the current lexeme
position, give it the old cursor's parent (replacing the first matching
child slot of that parent), move the old cursor's children onto it
(re-parenting each), update `root` if the cursor was the root, move the
cursor, and return the replaced value.  (Go also preserves the nil-ness of
the children slice, which a `List` cannot distinguish from emptiness.) -/
def Replace (p : Parser1 V) (v : V) : Option (V × Parser1 V) := do
  let dCur ← p.heap[p.node]?
  let m := p.heap.length
  let nd : NodeData (P1Data V) := ⟨dCur.parent, [], p.newNodeData v⟩
  let h0 := p.heap ++ [nd]
  let h1 ← match dCur.parent with
    | none => some h0
    | some par => do
        let dPar ← h0[par]?
        some (h0.set par
          { dPar with children := replaceFirst dPar.children (some p.node) (some m) })
  let h2 ← do
    let dm ← h1[m]?
    some (h1.set m { dm with children := dCur.children })
  let h3 ← reParentAll h2 dCur.children m
  some (dCur.payload.value,
    { p with heap := h3, node := m,
             root := if p.node = p.root then m else p.root })

/-- `Parser.RotateLeft` (binary form): if the current node has no right
child this is a no-op; otherwise `P.SetRight(Q.Left())`, `Q.SetLeft(P)`,
relink the sub-root's parent (or clear `Q.Parent`), move the cursor to
`Q` and update `root` when the sub-root was the root.  `SetRight(nil)`
(right child with no left child) dereferences a nil pointer in Go. -/
def RotateLeft (p : Parser1 V) : Option (Nat × Parser1 V) := do
  let dP ← p.heap[p.node]?
  let subRootParent := dP.parent
  match dP.right with
  | none => some (p.node, p)
  | some q => do
    let dQ ← p.heap[q]?
    let b ← dQ.left
    let h1 ← setRight p.heap p.node b
    let h2 ← setLeft h1 q p.node
    let h3 ← match subRootParent with
      | some par => replaceChild h2 par p.node q
      | none => do
          let dq ← h2[q]?
          some (h2.set q { dq with parent := none })
    some (q, { p with heap := h3, node := q,
                      root := if p.node = p.root then q else p.root })

/-- `Parser.RotateRight` (binary form): the mirror image of `RotateLeft`. -/
def RotateRight (p : Parser1 V) : Option (Nat × Parser1 V) := do
  let dP ← p.heap[p.node]?
  let subRootParent := dP.parent
  match dP.left with
  | none => some (p.node, p)
  | some q => do
    let dQ ← p.heap[q]?
    let b ← dQ.right
    let h1 ← setLeft p.heap p.node b
    let h2 ← setRight h1 q p.node
    let h3 ← match subRootParent with
      | some par => replaceChild h2 par p.node q
      | none => do
          let dq ← h2[q]?
          some (h2.set q { dq with parent := none })
    some (q, { p with heap := h3, node := q,
                      root := if p.node = p.root then q else p.root })

end Parser1

/-! ## The parser of the tree-based variant (parent promotion, adoption) -/

/-- `Parser[V]` of the tree-based variant: the tree is reached through
`p.tree.Root`. -/
structure Parser2 (V : Type) where
  heap : List (NodeData V)
  treeRoot : Nat
  node : Nat
  lexeme : Option Lexeme
  stream : List Lexeme
  deriving DecidableEq, Repr

namespace Parser2

variable {V : Type}

/-- `NewParser` of the tree-based variant. -/
def newParser (v0 : V) (stream : List Lexeme) : Parser2 V :=
  { heap := [⟨none, [], v0⟩], treeRoot := 0, node := 0,
    lexeme := none, stream := stream }

/-- The previous-sibling search of `AdoptSibling`:
`for _, x := range op.Children { if x == n { break }; s = x }`. -/
def prevSibGo : List (Option Nat) → Nat → Option Nat → Option Nat
  | [], _, s => s
  | x :: r, n, s => if x = some n then s else prevSibGo r n x

/-- `Parser.RotateLeft` (parent promotion): fails with
`ErrMissingRequiredNode` when the current node has no parent; otherwise
remove `n` from `op`'s children, append `op` to `n`'s children, set
`op.Parent = n`, `n.Parent = gp`, substitute `n` for `op` among `gp`'s
children, and update the tree root when `op` was the root.  Returns the
current node. -/
def RotateLeft (p : Parser2 V) : Option ((Option Nat × Option TreeErr) × Parser2 V) := do
  let dn ← p.heap[p.node]?
  match dn.parent with
  | none => some ((none, some .missingRequiredNode), p)
  | some op => do
    let dop ← p.heap[op]?
    let gp := dop.parent
    -- Remove n from op's Children
    let h1 := p.heap.set op
      { dop with children := dop.children.filter fun x => x ≠ some p.node }
    -- Add op to n's Children
    let dn1 ← h1[p.node]?
    let h2 := h1.set p.node { dn1 with children := dn1.children ++ [some op] }
    -- Update op's Parent
    let dop1 ← h2[op]?
    let h3 := h2.set op { dop1 with parent := some p.node }
    -- Update n's Parent
    let dn2 ← h3[p.node]?
    let h4 := h3.set p.node { dn2 with parent := gp }
    -- Replace op with n in gp's Children
    let h5 ← match gp with
      | none => some h4
      | some g => do
          let dg ← h4[g]?
          some (h4.set g
            { dg with children := dg.children.map fun x => if x ≠ some op then x else some p.node })
    -- Update the tree root if needed
    some ((some p.node, none),
      { p with heap := h5,
               treeRoot := if p.treeRoot = op then p.node else p.treeRoot })

/-- `Parser.AdoptSibling`: fails with `ErrMissingRequiredNode` when the
current node has no parent or the previous-sibling search comes back
empty; otherwise remove `s` from `op`'s children, append it to `n`'s
children and set `s.Parent = n`.  Returns the current node. -/
def AdoptSibling (p : Parser2 V) : Option ((Option Nat × Option TreeErr) × Parser2 V) := do
  let dn ← p.heap[p.node]?
  match dn.parent with
  | none => some ((none, some .missingRequiredNode), p)
  | some op => do
    let dop ← p.heap[op]?
    match prevSibGo dop.children p.node none with
    | none => some ((none, some .missingRequiredNode), p)
    | some s => do
      -- Remove s from op's Children
      let h1 := p.heap.set op
        { dop with children := dop.children.filter fun x => x ≠ some s }
      -- Add s to n's Children
      let dn1 ← h1[p.node]?
      let h2 := h1.set p.node { dn1 with children := dn1.children ++ [some s] }
      -- Update s's Parent
      let ds ← h2[s]?
      let h3 := h2.set s { ds with parent := some p.node }
      some ((some p.node, none), { p with heap := h3 })

end Parser2

/-! ## The Parse trampoline and the LexParse driver -/

/-- A parse function (`ParseFn[V]`): given the parser it may mutate it
arbitrarily and returns the successor function and an error.  The context
argument of the Go signature carries no data relevant to `Parse` itself
(cancellation is observed by `Parse` between calls). -/
inductive ParseFn (V : Type) where
  | mk (run : Parser1 V → Option (ParseFn V) × Option GoErr × Parser1 V)

/-- Apply a parse function. -/
def ParseFn.run : ParseFn V → Parser1 V → Option (ParseFn V) × Option GoErr × Parser1 V
  | .mk f => f

/-- The loop of `Parser.Parse`.  `done k` tells whether the context's
cancellation signal is set when the check before the `k`-th call runs
(the concurrent cancellation is an oracle over the step index).  `fuel`
bounds the number of iterations we unroll — `none` means the trampoline
did not finish within `fuel` steps.  Each iteration: exit when the
function is nil; return `(p.root, ctx.Err())` when cancelled; otherwise
call the function, breaking on `io.EOF` (returning the tree with no
error), returning any other error with the tree built so far, and looping
on the successor otherwise. -/
def parseLoop (done : Nat → Bool) :
    Nat → Nat → Option (ParseFn V) → Parser1 V → Option ((Nat × Option GoErr) × Parser1 V)
  | 0, _, _, _ => none
  | fuel + 1, k, parseFn, p =>
    match parseFn with
    | none => some ((p.root, none), p)
    | some f =>
      if done k then some ((p.root, some .canceled), p)
      else
        let r := f.run p
        match r.2.1 with
        | some e => if e = .eof then some ((r.2.2.root, none), r.2.2)
                    else some ((r.2.2.root, some e), r.2.2)
        | none => parseLoop done fuel (k + 1) r.1 r.2.2

/-- `Parser.Parse(ctx, parseFn)` unrolled for `fuel` iterations. -/
def Parse (done : Nat → Bool) (fuel : Nat) (parseFn : Option (ParseFn V)) (p : Parser1 V) :
    Option ((Nat × Option GoErr) × Parser1 V) :=
  parseLoop done fuel 0 parseFn p

/-- The error merging at the end of `LexParse` (lexparse.go lines 41-54):
a recorded lexer error that is not `context.Canceled` wins; otherwise the
parser's error is used; the parse-tree root is returned in either case.
`errors.Is(lErr, context.Canceled)` is equality with the sentinel in this
model. -/
def lexParseResult (parseRes : Nat × Option GoErr) (lexErr : Option GoErr) :
    Nat × Option GoErr :=
  let err : Option GoErr :=
    match lexErr with
    | some e => if e ≠ .canceled then some e else none
    | none => none
  let err : Option GoErr :=
    match err with
    | none => parseRes.2
    | some e => some e
  (parseRes.1, err)

/-- `LexParse`: run the parser against the lexeme stream and merge its
outcome with the lexer's recorded terminal error.  The concurrent
scheduling of the lexer task is abstracted: `lexErr` is the value of
`l.Err()` observed after `<-l.Done()`, and the lexemes the parser receives
are already inside `p.stream`. -/
def LexParse (done : Nat → Bool) (fuel : Nat) (initFn : Option (ParseFn V))
    (p : Parser1 V) (lexErr : Option GoErr) : Option (Nat × Option GoErr) :=
  (Parse done fuel initFn p).map fun r => lexParseResult r.1 lexErr

/-! ## Small heap toolbox -/

theorem getElem?_some_lt {α : Type _} {l : List α} {i : Nat} {a : α}
    (h : l[i]? = some a) : i < l.length := by
  by_contra hc
  push_neg at hc
  rw [List.getElem?_eq_none hc] at h
  exact Option.noConfusion h

theorem getElem?_set_self {α : Type _} {l : List α} {i : Nat} {a b : α}
    (h : l[i]? = some a) : (l.set i b)[i]? = some b :=
  List.getElem?_set_eq (getElem?_some_lt h)

/-! ## Claim C1: the Parse trampoline -/

/-- C1: Parse repeatedly invokes the current parse function, replacing it
with the returned successor, until a null successor is returned (tree root
returned with no error); an io.EOF from a parse function returns the tree
root with no error; any other error is returned immediately together with
the tree built so far; and the cancellation check before each call returns
the current tree root together with the cancellation error — the tree
under construction is returned on every exit path. -/
theorem claim_C1 {V : Type} (done : Nat → Bool) (fuel k : Nat) (p : Parser1 V) :
    (parseLoop done (fuel + 1) k (none : Option (ParseFn V)) p
        = some ((p.root, none), p)) ∧
    (∀ f : ParseFn V, done k = true →
        parseLoop done (fuel + 1) k (some f) p = some ((p.root, some .canceled), p)) ∧
    (∀ (f : ParseFn V) fn' p', done k = false → f.run p = (fn', some .eof, p') →
        parseLoop done (fuel + 1) k (some f) p = some ((p'.root, none), p')) ∧
    (∀ (f : ParseFn V) fn' e p', done k = false → e ≠ GoErr.eof →
        f.run p = (fn', some e, p') →
        parseLoop done (fuel + 1) k (some f) p = some ((p'.root, some e), p')) ∧
    (∀ (f : ParseFn V) fn' p', done k = false → f.run p = (fn', none, p') →
        parseLoop done (fuel + 1) k (some f) p = parseLoop done fuel (k + 1) fn' p') := by
  refine ⟨rfl, ?_, ?_, ?_, ?_⟩
  · intro f hdone
    simp [parseLoop, hdone]
  · intro f fn' p' hdone hrun
    simp [parseLoop, hdone, hrun]
  · intro f fn' e p' hdone hne hrun
    simp [parseLoop, hdone, hrun, hne]
  · intro f fn' p' hdone hrun
    simp [parseLoop, hdone, hrun]

/-- Parser used by the C1 and C2 witnesses. -/
def c1P : Parser1 Nat := Parser1.newParser 0 []

/-- A parse function that reports end of input. -/
def c1FnEof : ParseFn Nat := .mk fun p => (none, some .eof, p)

/-- A parse function that reports a structural error. -/
def c1FnErr : ParseFn Nat := .mk fun p => (none, some (.other 7), p)

/-- A parse function that hands off to a null successor. -/
def c1FnStep : ParseFn Nat := .mk fun p => (none, none, p)

/-- A cancellation oracle that fires at step index 5 only. -/
def c1Done : Nat → Bool := fun k => k == 5

theorem claim_C1_witness :
    (parseLoop c1Done 3 0 (none : Option (ParseFn Nat)) c1P
        = some ((c1P.root, none), c1P)) ∧
    (parseLoop c1Done 3 5 (some c1FnEof) c1P
        = some ((c1P.root, some .canceled), c1P)) ∧
    (parseLoop c1Done 3 0 (some c1FnEof) c1P = some ((c1P.root, none), c1P)) ∧
    (parseLoop c1Done 3 0 (some c1FnErr) c1P
        = some ((c1P.root, some (.other 7)), c1P)) ∧
    (parseLoop c1Done 3 0 (some c1FnStep) c1P = parseLoop c1Done 2 1 none c1P) :=
  ⟨(claim_C1 c1Done 2 0 c1P).1,
   (claim_C1 c1Done 2 5 c1P).2.1 c1FnEof (by decide),
   (claim_C1 c1Done 2 0 c1P).2.2.1 c1FnEof none c1P (by decide) rfl,
   (claim_C1 c1Done 2 0 c1P).2.2.2.1 c1FnErr none (.other 7) c1P (by decide)
     (by decide) rfl,
   (claim_C1 c1Done 2 0 c1P).2.2.2.2 c1FnStep none c1P (by decide) rfl⟩

/-! ## Claim C2: LexParse error precedence -/

/-- C2: for every run of LexParse, when the lexer's recorded terminal
error is set and is not the cancellation error of the derived context,
LexParse returns that lexer error; otherwise it returns the parser's
error; in both cases the parse-tree root produced by the parser is
returned alongside. -/
theorem claim_C2 {V : Type} (done : Nat → Bool) (fuel : Nat)
    (initFn : Option (ParseFn V)) (p : Parser1 V) (lexErr : Option GoErr)
    (n : Nat) (pErr : Option GoErr) (pFin : Parser1 V)
    (h : Parse done fuel initFn p = some ((n, pErr), pFin)) :
    (∀ e, lexErr = some e → e ≠ GoErr.canceled →
        LexParse done fuel initFn p lexErr = some (n, some e)) ∧
    (lexErr = none → LexParse done fuel initFn p lexErr = some (n, pErr)) ∧
    (lexErr = some GoErr.canceled →
        LexParse done fuel initFn p lexErr = some (n, pErr)) := by
  refine ⟨?_, ?_, ?_⟩
  · intro e he hne
    simp [LexParse, h, lexParseResult, he, hne]
  · intro he
    simp [LexParse, h, lexParseResult, he]
  · intro he
    simp [LexParse, h, lexParseResult, he]

theorem claim_C2_witness :
    (LexParse c1Done 1 (none : Option (ParseFn Nat)) c1P (some (.other 3))
        = some (c1P.root, some (.other 3))) ∧
    (LexParse c1Done 1 (none : Option (ParseFn Nat)) c1P none
        = some (c1P.root, none)) ∧
    (LexParse c1Done 1 (none : Option (ParseFn Nat)) c1P (some .canceled)
        = some (c1P.root, none)) :=
  ⟨(claim_C2 c1Done 1 none c1P (some (.other 3)) c1P.root none c1P rfl).1
      (.other 3) rfl (by decide),
   (claim_C2 c1Done 1 none c1P none c1P.root none c1P rfl).2.1 rfl,
   (claim_C2 c1Done 1 none c1P (some .canceled) c1P.root none c1P rfl).2.2 rfl⟩

/-! ## Claim C9: node creation and position stamping -/

/-- Lexeme used by the C9 counterexample, with a nonzero position. -/
def c9Lex : Lexeme := ⟨1, ['a'], 5, 6, 7⟩

/-- Parser over a stream holding just `c9Lex`. -/
def c9P : Parser1 Nat := Parser1.newParser 0 [c9Lex]

/-- C9 counterexample: after `Next` consumes the lexeme at position
(5, 6, 7) — the most recently peeked/consumed lexeme — a node created by
`Node` is stamped with the zero position, not with that lexeme's
position, because `newNode` only reads the pending (peeked but not yet
consumed) lexeme and `Next` clears it. -/
theorem claim_C9_counterexample :
    (Parser1.Next c9P).1 = some c9Lex ∧ c9Lex.pos = 5 ∧
    ((Parser1.Next c9P).2.Node 1
        = some (1, { heap := [⟨none, [some 1], ⟨0, 0, 0, 0⟩⟩, ⟨some 0, [], ⟨1, 0, 0, 0⟩⟩],
                     root := 0, node := 0, lexeme := none, stream := [] })) ∧
    (⟨1, 0, 0, 0⟩ : P1Data Nat) ≠ ⟨1, c9Lex.pos, c9Lex.line, c9Lex.column⟩ := by
  refine ⟨rfl, rfl, rfl, by decide⟩

/-- C9 (amended): Node(value) creates a new node holding the value,
appends it as the last child of the current cursor node, leaves the
cursor (and root) unmoved, and stamps the new node with the Pos/Line/Column
of the currently pending peeked-but-unconsumed lexeme, or with the zero
position when no lexeme is pending (in particular, after Next consumes a
lexeme, nodes are stamped with the zero position until the next Peek). -/
theorem claim_C9 {V : Type} (v : V) (p : Parser1 V) (d : NodeData (P1Data V))
    (h : p.heap[p.node]? = some d) :
    ∃ m p', p.Node v = some (m, p') ∧
      m = p.heap.length ∧
      p'.node = p.node ∧ p'.root = p.root ∧
      p'.heap[p.node]? = some { d with children := d.children ++ [some m] } ∧
      (∀ lx, p.lexeme = some lx →
        p'.heap[m]? = some ⟨some p.node, [], ⟨v, lx.pos, lx.line, lx.column⟩⟩) ∧
      (p.lexeme = none → p'.heap[m]? = some ⟨some p.node, [], ⟨v, 0, 0, 0⟩⟩) := by
  have hlt : p.node < p.heap.length := getElem?_some_lt h
  refine ⟨p.heap.length,
    { p with heap := (p.heap ++ [NodeData.mk (some p.node) [] (p.newNodeData v)]).set p.node ⟨d.parent, d.children ++ [some p.heap.length], d.payload⟩ },
    ?_, rfl, rfl, rfl, ?_, ?_, ?_⟩
  · simp [Parser1.Node, h]
  · simp only
    rw [List.getElem?_set_eq (by simp; omega)]
  · intro lx hlx
    simp only
    rw [List.getElem?_set_ne (by omega), List.getElem?_concat_length]
    simp [Parser1.newNodeData, hlx]
  · intro hlx
    simp only
    rw [List.getElem?_set_ne (by omega), List.getElem?_concat_length]
    simp [Parser1.newNodeData, hlx]

theorem claim_C9_witness :
    ∃ m p', (Parser1.newParser (0 : Nat) []).Node 2 = some (m, p') ∧
      m = (Parser1.newParser (0 : Nat) []).heap.length ∧
      p'.node = 0 ∧ p'.root = 0 ∧
      p'.heap[(0 : Nat)]? = some ⟨none, [some 1], ⟨0, 0, 0, 0⟩⟩ ∧
      p'.heap[(1 : Nat)]? = some ⟨some 0, [], ⟨2, 0, 0, 0⟩⟩ := by
  obtain ⟨m, p', h1, h2, h3, h4, h5, _, h7⟩ :=
    claim_C9 2 (Parser1.newParser (0 : Nat) []) ⟨none, [], ⟨0, 0, 0, 0⟩⟩ rfl
  have hm : m = 1 := h2
  subst hm
  exact ⟨1, p', h1, h2, h3, h4, h5, h7 rfl⟩

/-! ## Claim C7: binary rotation round trip -/

/-- Build a two-level binary chain via `Push`/`Node` from a fresh parser:
root → P with children (A, Q), Q with children (B, C), cursor left at P via
`Climb`. -/
def c7Build {V : Type} (v0 vP vA vQ vB vC : V) : Option (Parser1 V) := do
  let p0 := Parser1.newParser v0 []
  let r1 ← p0.Push vP
  let r2 ← r1.2.Node vA
  let r3 ← r2.2.Push vQ
  let r4 ← r3.2.Node vB
  let r5 ← r4.2.Node vC
  let r6 ← r5.2.Climb
  some r6.2

/-- C7: for every two-level binary chain built via push/node (cursor node P
with two children A and Q, the second of which has two children B and C),
binary RotateLeft followed by RotateRight reproduces the original parser
state exactly: the same value-labelled tree, the same root reference, and
the cursor back at the original node. -/
theorem claim_C7 {V : Type} (v0 vP vA vQ vB vC : V) :
    ∃ s0 : Parser1 V,
      c7Build v0 vP vA vQ vB vC = some s0 ∧
      s0.heap = [⟨none, [some 1], ⟨v0, 0, 0, 0⟩⟩,
                 ⟨some 0, [some 2, some 3], ⟨vP, 0, 0, 0⟩⟩,
                 ⟨some 1, [], ⟨vA, 0, 0, 0⟩⟩,
                 ⟨some 1, [some 4, some 5], ⟨vQ, 0, 0, 0⟩⟩,
                 ⟨some 3, [], ⟨vB, 0, 0, 0⟩⟩,
                 ⟨some 3, [], ⟨vC, 0, 0, 0⟩⟩] ∧
      s0.root = 0 ∧ s0.node = 1 ∧
      ∃ s1, s0.RotateLeft = some (3, s1) ∧ s1.RotateRight = some (1, s0) := by
  refine ⟨⟨[⟨none, [some 1], ⟨v0, 0, 0, 0⟩⟩,
            ⟨some 0, [some 2, some 3], ⟨vP, 0, 0, 0⟩⟩,
            ⟨some 1, [], ⟨vA, 0, 0, 0⟩⟩,
            ⟨some 1, [some 4, some 5], ⟨vQ, 0, 0, 0⟩⟩,
            ⟨some 3, [], ⟨vB, 0, 0, 0⟩⟩,
            ⟨some 3, [], ⟨vC, 0, 0, 0⟩⟩], 0, 1, none, []⟩, ?_, rfl, rfl, rfl,
         ⟨[⟨none, [some 3], ⟨v0, 0, 0, 0⟩⟩,
           ⟨some 3, [some 2, some 4], ⟨vP, 0, 0, 0⟩⟩,
           ⟨some 1, [], ⟨vA, 0, 0, 0⟩⟩,
           ⟨some 0, [some 1, some 5], ⟨vQ, 0, 0, 0⟩⟩,
           ⟨some 1, [], ⟨vB, 0, 0, 0⟩⟩,
           ⟨some 3, [], ⟨vC, 0, 0, 0⟩⟩], 0, 3, none, []⟩, ?_, ?_⟩
  · simp [c7Build, Parser1.Push, Parser1.Node, Parser1.Climb, Parser1.newParser,
      Parser1.newNodeData]
  · simp [Parser1.RotateLeft, setLeft, setRight, replaceChild,
      NodeData.left, NodeData.right, List.getD]
  · simp [Parser1.RotateRight, setLeft, setRight, replaceChild,
      NodeData.left, NodeData.right, List.getD]

/-! ## Structural view of the heap: decode trees

`STree` is the shape of a (sub)tree as laid out in the heap: `nilSlot`
stands for a nil child slot, `mk id children` for the node at heap index
`id` together with the shapes of its children.  `rep h par t` checks that
the heap `h` really lays out the finite tree `t` starting at its root,
with the root's parent pointer equal to `par`: every node of `t` exists in
`h`, its parent field points at its tree parent, and its children field
lists exactly the ids of its tree children.  The structural invariant of
the specification — consistent parent pointers, null root parent, single
ownership, no cycles — is `Inv`: some decode tree with duplicate-free ids
exists for the root, and the cursor is one of its nodes. -/

inductive STree : Type where
  | nilSlot : STree
  | mk (id : Nat) (children : List STree) : STree
  deriving Repr

namespace STree

/-- The id a child slot contributes to its parent's children list. -/
def slotId : STree → Option Nat
  | .nilSlot => none
  | .mk i _ => some i

mutual

/-- All node ids of a decode tree, root first. -/
def ids : STree → List Nat
  | .nilSlot => []
  | .mk i cs => i :: idsL cs

/-- All node ids of a list of decode trees. -/
def idsL : List STree → List Nat
  | [] => []
  | c :: cr => ids c ++ idsL cr

end

mutual

/-- The heap lays out the decode tree `t`, whose root's parent field is
`par`. -/
def rep (h : List (NodeData α)) (par : Option Nat) : STree → Bool
  | .nilSlot => true
  | .mk i cs =>
    match h[i]? with
    | none => false
    | some d => (d.parent == par) && (d.children == cs.map slotId) && repL h i cs

/-- The heap lays out every decode tree of `cs` as a child of node `i`. -/
def repL (h : List (NodeData α)) (i : Nat) : List STree → Bool
  | [] => true
  | c :: cr => rep h (some i) c && repL h i cr

end

mutual

/-- Locate the subtree rooted at id `x`, returning it together with the
parent pointer its root carries (`par` threads the parent pointer of the
tree currently examined). -/
def findSub (par : Option Nat) (x : Nat) : STree → Option (Option Nat × STree)
  | .nilSlot => none
  | .mk i cs => if i = x then some (par, .mk i cs) else findSubL (some i) x cs

/-- List version of `findSub`. -/
def findSubL (par : Option Nat) (x : Nat) : List STree → Option (Option Nat × STree)
  | [] => none
  | c :: cr =>
    match findSub par x c with
    | some r => some r
    | none => findSubL par x cr

end

mutual

/-- Replace the subtree rooted at id `x` by `new`. -/
def replaceAt (x : Nat) (new : STree) : STree → STree
  | .nilSlot => .nilSlot
  | .mk i cs => if i = x then new else .mk i (replaceAtL x new cs)

/-- List version of `replaceAt`. -/
def replaceAtL (x : Nat) (new : STree) : List STree → List STree
  | [] => []
  | c :: cr => replaceAt x new c :: replaceAtL x new cr

end

@[simp] theorem ids_nilSlot : ids .nilSlot = [] := rfl

@[simp] theorem ids_mk : ids (.mk i cs) = i :: idsL cs := rfl

@[simp] theorem idsL_nil : idsL [] = [] := rfl

@[simp] theorem idsL_cons : idsL (c :: cr) = ids c ++ idsL cr := rfl

theorem mem_idsL {x : Nat} {cs : List STree} :
    x ∈ idsL cs ↔ ∃ c ∈ cs, x ∈ ids c := by
  induction cs with
  | nil => simp
  | cons c cr ih => simp [ih]

@[simp] theorem rep_nilSlot (h : List (NodeData α)) (par : Option Nat) :
    rep h par .nilSlot = true := rfl

theorem rep_mk_iff {h : List (NodeData α)} {par : Option Nat} {i : Nat}
    {cs : List STree} :
    rep h par (.mk i cs) = true ↔
      ∃ d, h[i]? = some d ∧ d.parent = par ∧ d.children = cs.map slotId ∧
        repL h i cs = true := by
  rw [rep]
  rcases hg : h[i]? with _ | d
  · simp
  · simp [Bool.and_eq_true, beq_iff_eq]
    tauto

theorem repL_iff {h : List (NodeData α)} {i : Nat} {cs : List STree} :
    repL h i cs = true ↔ ∀ c ∈ cs, rep h (some i) c = true := by
  induction cs with
  | nil => simp [repL]
  | cons c cr ih => simp [repL, ih]

/-- Paired induction over a decode tree and lists of decode trees. -/
theorem mutual_ind {P : STree → Prop} {Q : List STree → Prop}
    (h0 : P .nilSlot)
    (h1 : ∀ i cs, Q cs → P (.mk i cs))
    (h2 : Q [])
    (h3 : ∀ c cr, P c → Q cr → Q (c :: cr)) :
    (∀ t, P t) ∧ (∀ cs, Q cs) := by
  have pt : ∀ t, P t := fun t => STree.rec h0 h1 h2 h3 t
  refine ⟨pt, fun cs => ?_⟩
  induction cs with
  | nil => exact h2
  | cons c cr ih => exact h3 c cr (pt c) ih

theorem findSub_none_pair (x : Nat) :
    (∀ t : STree, ∀ par : Option Nat, findSub par x t = none ↔ x ∉ ids t) ∧
    (∀ cs : List STree, ∀ par : Option Nat,
        findSubL par x cs = none ↔ x ∉ idsL cs) := by
  refine mutual_ind ?_ ?_ ?_ ?_
  · intro par
    simp [findSub]
  · intro i cs ih par
    by_cases hix : i = x
    · subst hix
      simp [findSub]
    · simp [findSub, hix, ih, Ne.symm hix]
  · intro par
    simp [findSubL]
  · intro c cr ihc ihr par
    rw [findSubL]
    rcases hc : findSub par x c with _ | r
    · have hxc : x ∉ ids c := (ihc par).mp hc
      simp [ihr, hxc]
    · have hxc : ¬ (x ∉ ids c) := by
        intro hn
        rw [(ihc par).mpr hn] at hc
        exact Option.noConfusion hc
      simp [hxc]

theorem findSub_eq_none {x : Nat} {t : STree} {par : Option Nat} :
    findSub par x t = none ↔ x ∉ ids t :=
  (findSub_none_pair x).1 t par

theorem findSubL_eq_none {x : Nat} {cs : List STree} {par : Option Nat} :
    findSubL par x cs = none ↔ x ∉ idsL cs :=
  (findSub_none_pair x).2 cs par

theorem findSub_mem {x : Nat} {t : STree} {par : Option Nat} {r}
    (h : findSub par x t = some r) : x ∈ ids t := by
  by_contra hx
  rw [findSub_eq_none.mpr hx] at h
  exact Option.noConfusion h

theorem findSubL_mem {x : Nat} {cs : List STree} {par : Option Nat} {r}
    (h : findSubL par x cs = some r) : x ∈ idsL cs := by
  by_contra hx
  rw [findSubL_eq_none.mpr hx] at h
  exact Option.noConfusion h

theorem findSub_shape_pair (x : Nat) :
    (∀ t : STree, ∀ par pp tx, findSub par x t = some (pp, tx) →
        (∃ cs0, tx = .mk x cs0) ∧ (∀ j ∈ ids tx, j ∈ ids t) ∧
        (pp = par ∨ ∃ pid, pp = some pid ∧ pid ∈ ids t)) ∧
    (∀ cs : List STree, ∀ par pp tx, findSubL par x cs = some (pp, tx) →
        (∃ cs0, tx = .mk x cs0) ∧ (∀ j ∈ ids tx, j ∈ idsL cs) ∧
        (pp = par ∨ ∃ pid, pp = some pid ∧ pid ∈ idsL cs)) := by
  refine mutual_ind ?_ ?_ ?_ ?_
  · intro par pp tx h
    exact Option.noConfusion h
  · intro i cs ih par pp tx h
    rw [findSub] at h
    by_cases hix : i = x
    · subst hix
      rw [if_pos rfl] at h
      injection h with h1
      injection h1 with hpp htx
      subst hpp
      subst htx
      exact ⟨⟨cs, rfl⟩, fun j hj => hj, Or.inl rfl⟩
    · simp only [if_neg hix] at h
      obtain ⟨hshape, hsub, hpp⟩ := ih (some i) pp tx h
      refine ⟨hshape, fun j hj => ?_, ?_⟩
      · simp only [ids_mk, List.mem_cons]
        exact Or.inr (hsub j hj)
      · rcases hpp with hpp | ⟨pid, hpid, hmem⟩
        · exact Or.inr ⟨i, hpp, by simp⟩
        · exact Or.inr ⟨pid, hpid, by simp [hmem]⟩
  · intro par pp tx h
    exact Option.noConfusion h
  · intro c cr ihc ihr par pp tx h
    rw [findSubL] at h
    rcases hc : findSub par x c with _ | r
    · rw [hc] at h
      obtain ⟨hshape, hsub, hpp⟩ := ihr par pp tx h
      refine ⟨hshape, fun j hj => by simp [hsub j hj], ?_⟩
      rcases hpp with hpp | ⟨pid, hpid, hmem⟩
      · exact Or.inl hpp
      · exact Or.inr ⟨pid, hpid, by simp [hmem]⟩
    · rw [hc] at h
      simp only [Option.some.injEq] at h
      subst h
      obtain ⟨hshape, hsub, hpp⟩ := ihc par pp tx hc
      refine ⟨hshape, fun j hj => by simp [hsub j hj], ?_⟩
      rcases hpp with hpp | ⟨pid, hpid, hmem⟩
      · exact Or.inl hpp
      · exact Or.inr ⟨pid, hpid, by simp [hmem]⟩

theorem findSub_shape {x : Nat} {t : STree} {par pp : Option Nat} {tx : STree}
    (h : findSub par x t = some (pp, tx)) :
    (∃ cs0, tx = .mk x cs0) ∧ (∀ j ∈ ids tx, j ∈ ids t) ∧
    (pp = par ∨ ∃ pid, pp = some pid ∧ pid ∈ ids t) :=
  (findSub_shape_pair x).1 t par pp tx h

theorem replaceAt_not_mem_pair (x : Nat) (new : STree) :
    (∀ t : STree, x ∉ ids t → replaceAt x new t = t) ∧
    (∀ cs : List STree, x ∉ idsL cs → replaceAtL x new cs = cs) := by
  refine mutual_ind ?_ ?_ ?_ ?_
  · intro h
    rfl
  · intro i cs ih h
    simp only [ids_mk, List.mem_cons, not_or] at h
    rw [replaceAt, if_neg (Ne.symm h.1), ih h.2]
  · intro h
    rfl
  · intro c cr ihc ihr h
    simp only [idsL_cons, List.mem_append, not_or] at h
    rw [replaceAtL, ihc h.1, ihr h.2]

theorem replaceAt_not_mem {x : Nat} {new t : STree} (h : x ∉ ids t) :
    replaceAt x new t = t := (replaceAt_not_mem_pair x new).1 t h

theorem replaceAtL_not_mem {x : Nat} {new : STree} {cs : List STree}
    (h : x ∉ idsL cs) : replaceAtL x new cs = cs :=
  (replaceAt_not_mem_pair x new).2 cs h

theorem rep_agree_pair (h h' : List (NodeData α)) :
    (∀ t : STree, ∀ par : Option Nat, rep h par t = true →
        (∀ j ∈ ids t, h'[j]? = h[j]?) → rep h' par t = true) ∧
    (∀ cs : List STree, ∀ i : Nat, repL h i cs = true →
        (∀ j ∈ idsL cs, h'[j]? = h[j]?) → repL h' i cs = true) := by
  refine mutual_ind ?_ ?_ ?_ ?_
  · intro par hr ha
    rfl
  · intro i cs ih par hr ha
    rw [rep_mk_iff] at hr ⊢
    obtain ⟨d, hd, hpar, hch, hrl⟩ := hr
    refine ⟨d, ?_, hpar, hch, ?_⟩
    · rw [ha i (by simp), hd]
    · exact ih i hrl fun j hj => ha j (by simp [hj])
  · intro i hr ha
    rfl
  · intro c cr ihc ihr i hr ha
    rw [repL, Bool.and_eq_true] at hr ⊢
    exact ⟨ihc (some i) hr.1 fun j hj => ha j (by simp [hj]),
           ihr i hr.2 fun j hj => ha j (by simp [hj])⟩

theorem rep_agree {h h' : List (NodeData α)} {t : STree} {par : Option Nat}
    (hr : rep h par t = true) (ha : ∀ j ∈ ids t, h'[j]? = h[j]?) :
    rep h' par t = true := (rep_agree_pair h h').1 t par hr ha

theorem repL_agree {h h' : List (NodeData α)} {cs : List STree} {i : Nat}
    (hr : repL h i cs = true) (ha : ∀ j ∈ idsL cs, h'[j]? = h[j]?) :
    repL h' i cs = true := (rep_agree_pair h h').2 cs i hr ha

theorem rep_valid_pair (h : List (NodeData α)) :
    (∀ t : STree, ∀ par : Option Nat, rep h par t = true →
        ∀ j ∈ ids t, ∃ d, h[j]? = some d) ∧
    (∀ cs : List STree, ∀ i : Nat, repL h i cs = true →
        ∀ j ∈ idsL cs, ∃ d, h[j]? = some d) := by
  refine mutual_ind ?_ ?_ ?_ ?_
  · intro par hr j hj
    simp at hj
  · intro i cs ih par hr j hj
    rw [rep_mk_iff] at hr
    obtain ⟨d, hd, _, _, hrl⟩ := hr
    rcases List.mem_cons.mp hj with rfl | hj
    · exact ⟨d, hd⟩
    · exact ih i hrl j hj
  · intro i hr j hj
    simp at hj
  · intro c cr ihc ihr i hr j hj
    rw [repL, Bool.and_eq_true] at hr
    rcases List.mem_append.mp hj with hj | hj
    · exact ihc (some i) hr.1 j hj
    · exact ihr i hr.2 j hj

theorem rep_valid {h : List (NodeData α)} {t : STree} {par : Option Nat}
    (hr : rep h par t = true) : ∀ j ∈ ids t, ∃ d, h[j]? = some d :=
  (rep_valid_pair h).1 t par hr

theorem findSub_rep_pair (h : List (NodeData α)) (x : Nat) :
    (∀ t : STree, ∀ par pp tx, rep h par t = true →
        findSub par x t = some (pp, tx) → rep h pp tx = true) ∧
    (∀ cs : List STree, ∀ i pp tx, repL h i cs = true →
        findSubL (some i) x cs = some (pp, tx) → rep h pp tx = true) := by
  refine mutual_ind ?_ ?_ ?_ ?_
  · intro par pp tx hr hf
    exact Option.noConfusion hf
  · intro i cs ih par pp tx hr hf
    rw [findSub] at hf
    by_cases hix : i = x
    · subst hix
      rw [if_pos rfl] at hf
      injection hf with h1
      injection h1 with hpp htx
      subst hpp
      subst htx
      exact hr
    · rw [if_neg hix] at hf
      rw [rep_mk_iff] at hr
      obtain ⟨d, _, _, _, hrl⟩ := hr
      exact ih i pp tx hrl hf
  · intro i pp tx hr hf
    exact Option.noConfusion hf
  · intro c cr ihc ihr i pp tx hr hf
    rw [repL, Bool.and_eq_true] at hr
    rw [findSubL] at hf
    rcases hc : findSub (some i) x c with _ | r
    · rw [hc] at hf
      exact ihr i pp tx hr.2 hf
    · rw [hc] at hf
      injection hf with h1
      subst h1
      exact ihc (some i) pp tx hr.1 hc

theorem findSub_rep {h : List (NodeData α)} {t : STree} {par pp : Option Nat}
    {x : Nat} {tx : STree} (hr : rep h par t = true)
    (hf : findSub par x t = some (pp, tx)) : rep h pp tx = true :=
  (findSub_rep_pair h x).1 t par pp tx hr hf

theorem slotId_replaceAt {x : Nat} {new : STree} (c : STree) :
    slotId (replaceAt x new c)
      = if slotId c = some x then slotId new else slotId c := by
  cases c with
  | nilSlot => simp [replaceAt, slotId]
  | mk j cs =>
    by_cases hjx : j = x
    · subst hjx
      simp [replaceAt, slotId]
    · simp [replaceAt, slotId, hjx]

/-- When the direct x-rooted child exists among `cs`, the search stops on
it: the returned parent pointer is the list's own parent argument. -/
theorem findSubL_direct {x : Nat} {cs : List STree} {par pp : Option Nat}
    {tx : STree} (hnd : (idsL cs).Nodup)
    (hf : findSubL par x cs = some (pp, tx)) :
    ∀ c ∈ cs, slotId c = some x → pp = par ∧ tx = c := by
  induction cs with
  | nil => simp
  | cons c0 cr ih =>
    intro c hc hcx
    rw [findSubL] at hf
    rw [idsL_cons, List.nodup_append] at hnd
    obtain ⟨hnd1, hnd2, hdisj⟩ := hnd
    have hcx_mem : x ∈ ids c := by
      rcases c with _ | ⟨j, cs'⟩
      · exact Option.noConfusion hcx
      · have : j = x := by
          simp [slotId] at hcx
          exact hcx
        subst this
        simp
    rcases List.mem_cons.mp hc with rfl | hc
    · rcases hfc : findSub par x c with _ | r
      · exact absurd hcx_mem (findSub_eq_none.mp hfc)
      · rw [hfc] at hf
        injection hf with h1
        subst h1
        rcases c with _ | ⟨j, cs'⟩
        · exact Option.noConfusion hcx
        · have hjx : j = x := by
            simp [slotId] at hcx
            exact hcx
          subst hjx
          rw [findSub, if_pos rfl] at hfc
          injection hfc with h2
          injection h2 with hpp htx
          exact ⟨hpp.symm, htx.symm⟩
    · rcases hfc : findSub par x c0 with _ | r
      · rw [hfc] at hf
        exact ih hnd2 hf c hc hcx
      · rw [hfc] at hf
        have hx0 : x ∈ ids c0 := findSub_mem hfc
        have : x ∈ idsL cr := STree.mem_idsL.mpr ⟨c, hc, hcx_mem⟩
        exact absurd this (hdisj hx0)

/-- Splitting the preorder id list at the located subtree: the found
subtree occupies one contiguous block, replacing it swaps exactly that
block, and a non-inherited parent pointer names a node before the block. -/
theorem findSub_split_pair (x : Nat) :
    (∀ t : STree, ∀ par pp tx, (ids t).Nodup → findSub par x t = some (pp, tx) →
      ∃ pre post, ids t = pre ++ ids tx ++ post ∧
        (∀ new, ids (replaceAt x new t) = pre ++ ids new ++ post) ∧
        (pp = par ∨ ∃ pid, pp = some pid ∧ pid ∈ pre)) ∧
    (∀ cs : List STree, ∀ par pp tx, (idsL cs).Nodup →
        findSubL par x cs = some (pp, tx) →
      ∃ pre post, idsL cs = pre ++ ids tx ++ post ∧
        (∀ new, idsL (replaceAtL x new cs) = pre ++ ids new ++ post) ∧
        (pp = par ∨ ∃ pid, pp = some pid ∧ pid ∈ pre)) := by
  refine mutual_ind ?_ ?_ ?_ ?_
  · intro par pp tx hnd hf
    exact Option.noConfusion hf
  · intro i cs ih par pp tx hnd hf
    rw [findSub] at hf
    by_cases hix : i = x
    · subst hix
      rw [if_pos rfl] at hf
      injection hf with h1
      injection h1 with hpp htx
      subst hpp
      subst htx
      exact ⟨[], [], by simp, fun new => by simp [replaceAt], Or.inl rfl⟩
    · rw [if_neg hix] at hf
      rw [ids_mk, List.nodup_cons] at hnd
      obtain ⟨pre, post, heq, hrepl, hpp⟩ := ih (some i) pp tx hnd.2 hf
      refine ⟨i :: pre, post, by simp [heq], fun new => ?_, ?_⟩
      · rw [replaceAt, if_neg hix]
        simp [hrepl new]
      · rcases hpp with hpp | ⟨pid, hpid, hmem⟩
        · exact Or.inr ⟨i, hpp, by simp⟩
        · exact Or.inr ⟨pid, hpid, by simp [hmem]⟩
  · intro par pp tx hnd hf
    exact Option.noConfusion hf
  · intro c cr ihc ihr par pp tx hnd hf
    rw [findSubL] at hf
    rw [idsL_cons, List.nodup_append] at hnd
    obtain ⟨hnd1, hnd2, hdisj⟩ := hnd
    rcases hfc : findSub par x c with _ | r
    · rw [hfc] at hf
      have hxc : x ∉ ids c := findSub_eq_none.mp hfc
      obtain ⟨pre, post, heq, hrepl, hpp⟩ := ihr par pp tx hnd2 hf
      refine ⟨ids c ++ pre, post, by simp [heq], fun new => ?_, ?_⟩
      · rw [replaceAtL, replaceAt_not_mem hxc]
        simp [hrepl new]
      · rcases hpp with hpp | ⟨pid, hpid, hmem⟩
        · exact Or.inl hpp
        · exact Or.inr ⟨pid, hpid, by simp [hmem]⟩
    · rw [hfc] at hf
      injection hf with h1
      subst h1
      have hxc : x ∈ ids c := findSub_mem hfc
      have hxcr : x ∉ idsL cr := hdisj hxc
      obtain ⟨pre, post, heq, hrepl, hpp⟩ := ihc par pp tx hnd1 hfc
      refine ⟨pre, post ++ idsL cr, by simp [heq], fun new => ?_, hpp⟩
      rw [replaceAtL, replaceAtL_not_mem hxcr]
      simp [hrepl new]

theorem findSub_split {x : Nat} {t : STree} {par pp : Option Nat} {tx : STree}
    (hnd : (ids t).Nodup) (hf : findSub par x t = some (pp, tx)) :
    ∃ pre post, ids t = pre ++ ids tx ++ post ∧
      (∀ new, ids (replaceAt x new t) = pre ++ ids new ++ post) ∧
      (pp = par ∨ ∃ pid, pp = some pid ∧ pid ∈ pre) :=
  (findSub_split_pair x).1 t par pp tx hnd hf

theorem findSubL_shape {x : Nat} {cs : List STree} {par pp : Option Nat}
    {tx : STree} (h : findSubL par x cs = some (pp, tx)) :
    (∃ cs0, tx = .mk x cs0) ∧ (∀ j ∈ ids tx, j ∈ idsL cs) ∧
    (pp = par ∨ ∃ pid, pp = some pid ∧ pid ∈ idsL cs) :=
  (findSub_shape_pair x).2 cs par pp tx h

theorem replaceAtL_map_slotId {x y : Nat} {new : STree}
    (hynew : slotId new = some y) (cs : List STree) :
    (replaceAtL x new cs).map slotId
      = cs.map fun c => if slotId c = some x then some y else slotId c := by
  induction cs with
  | nil => rfl
  | cons c cr ih =>
    rw [replaceAtL]
    simp only [List.map_cons, ih, slotId_replaceAt c, hynew]

theorem replaceAtL_map_slotId_same {x : Nat} {new : STree} {cs : List STree}
    (hno : ∀ c ∈ cs, slotId c ≠ some x) :
    (replaceAtL x new cs).map slotId = cs.map slotId := by
  induction cs with
  | nil => rfl
  | cons c cr ih =>
    rw [replaceAtL]
    simp only [List.map_cons, slotId_replaceAt c,
      if_neg (hno c (by simp)), ih fun c hc => hno c (by simp [hc])]

/-- The surgery lemma: replacing the located subtree `tx` (rooted at `x`,
with tree parent `pId`) by a new well-laid-out subtree `new` (rooted at
`y`, parent pointer `some pId`), in a heap that is unchanged outside
`tx`'s nodes except that `pId`'s child slot `x` was renamed to `y`,
preserves the layout relation. -/
theorem rep_surgery_pair (h h' : List (NodeData α)) (x y : Nat) (new : STree)
    (hynew : slotId new = some y) :
    (∀ t : STree, ∀ par : Option Nat, ∀ pId tx,
      rep h par t = true → (ids t).Nodup →
      findSub par x t = some (some pId, tx) →
      rep h' (some pId) new = true →
      (∀ j ∈ ids t, j ∉ ids tx → j ≠ pId → h'[j]? = h[j]?) →
      (∀ dp : NodeData α, h[pId]? = some dp →
          h'[pId]? = some ⟨dp.parent,
            dp.children.map (fun c => if c = some x then some y else c),
            dp.payload⟩) →
      rep h' par (replaceAt x new t) = true) ∧
    (∀ cs : List STree, ∀ i pId tx,
      repL h i cs = true → (idsL cs).Nodup → i ∉ idsL cs →
      findSubL (some i) x cs = some (some pId, tx) →
      rep h' (some pId) new = true →
      (∀ j ∈ idsL cs, j ∉ ids tx → j ≠ pId → h'[j]? = h[j]?) →
      (∀ dp : NodeData α, h[pId]? = some dp →
          h'[pId]? = some ⟨dp.parent,
            dp.children.map (fun c => if c = some x then some y else c),
            dp.payload⟩) →
      repL h' i (replaceAtL x new cs) = true) := by
  refine mutual_ind ?_ ?_ ?_ ?_
  · intro par pId tx hrep hnd hfind hnew hagree hpar
    exact Option.noConfusion hfind
  · intro i cs ihQ par pId tx hrep hnd hfind hnew hagree hpar
    rw [findSub] at hfind
    by_cases hix : i = x
    · -- the whole tree is the replaced subtree; its parent pointer is par
      subst hix
      rw [if_pos rfl] at hfind
      injection hfind with h1
      injection h1 with hpp htx
      rw [replaceAt, if_pos rfl]
      rw [← hpp] at hnew
      exact hnew
    · rw [if_neg hix] at hfind
      rw [ids_mk, List.nodup_cons] at hnd
      rw [rep_mk_iff] at hrep
      obtain ⟨d, hd, hdpar, hdch, hrl⟩ := hrep
      have htx_sub : ∀ j ∈ ids tx, j ∈ idsL cs := (findSubL_shape hfind).2.1
      have hi_ntx : i ∉ ids tx := fun hc => hnd.1 (htx_sub i hc)
      have hrl' : repL h' i (replaceAtL x new cs) = true :=
        ihQ i pId tx hrl hnd.2 hnd.1 hfind hnew
          (fun j hj hjtx hjp => hagree j (by simp [hj]) hjtx hjp) hpar
      rw [replaceAt, if_neg hix, rep_mk_iff]
      by_cases hip : i = pId
      · subst hip
        refine ⟨_, hpar d hd, hdpar, ?_, hrl'⟩
        rw [replaceAtL_map_slotId hynew cs, hdch, List.map_map]
        rfl
      · have hd' : h'[i]? = h[i]? := hagree i (by simp) hi_ntx hip
        refine ⟨d, by rw [hd', hd], hdpar, ?_, hrl'⟩
        have hno : ∀ c ∈ cs, slotId c ≠ some x := by
          intro c hc hcx
          obtain ⟨hpp, _⟩ := findSubL_direct hnd.2 hfind c hc hcx
          exact hip (Option.some.injEq .. ▸ hpp ▸ rfl)
        rw [replaceAtL_map_slotId_same hno, hdch]
  · intro i pId tx hrl hnd hi hfind hnew hagree hpar
    exact Option.noConfusion hfind
  · intro c cr ihP ihQ i pId tx hrl hnd hi hfind hnew hagree hpar
    rw [repL, Bool.and_eq_true] at hrl
    rw [idsL_cons, List.nodup_append] at hnd
    obtain ⟨hnd1, hnd2, hdisj⟩ := hnd
    simp only [idsL_cons, List.mem_append, not_or] at hi
    rw [findSubL] at hfind
    rw [replaceAtL, repL, Bool.and_eq_true]
    rcases hfc : findSub (some i) x c with _ | r
    · -- x lies further right; c is untouched
      rw [hfc] at hfind
      have hxc : x ∉ ids c := findSub_eq_none.mp hfc
      have htx_sub : ∀ j ∈ ids tx, j ∈ idsL cr := (findSubL_shape hfind).2.1
      have hpid_cr : pId = i ∨ pId ∈ idsL cr := by
        rcases (findSubL_shape hfind).2.2 with hpp | ⟨pid, hpid, hmem⟩
        · exact Or.inl (Option.some.inj hpp)
        · injection hpid with h2
          exact Or.inr (by rw [h2]; exact hmem)
      rw [replaceAt_not_mem hxc]
      constructor
      · refine rep_agree hrl.1 fun j hj => ?_
        refine hagree j (by simp [hj]) (fun hjtx => ?_) (fun hjp => ?_)
        · exact (hdisj hj) (htx_sub j hjtx)
        · subst hjp
          rcases hpid_cr with rfl | hmem
          · exact hi.1 hj
          · exact (hdisj hj) hmem
      · exact ihQ i pId tx hrl.2 hnd2 hi.2 hfind hnew
          (fun j hj hjtx hjp => hagree j (by simp [hj]) hjtx hjp) hpar
    · -- x lies inside c
      rw [hfc] at hfind
      injection hfind with h1
      subst h1
      have hxc : x ∈ ids c := findSub_mem hfc
      have hxcr : x ∉ idsL cr := hdisj hxc
      have htx_sub : ∀ j ∈ ids tx, j ∈ ids c := (findSub_shape hfc).2.1
      have hpid_c : pId = i ∨ pId ∈ ids c := by
        rcases (findSub_shape hfc).2.2 with hpp | ⟨pid, hpid, hmem⟩
        · exact Or.inl (Option.some.inj hpp)
        · injection hpid with h2
          exact Or.inr (by rw [h2]; exact hmem)
      constructor
      · exact ihP (some i) pId tx hrl.1 hnd1 hfc hnew
          (fun j hj hjtx hjp => hagree j (by simp [hj]) hjtx hjp) hpar
      · rw [replaceAtL_not_mem hxcr]
        refine repL_agree hrl.2 fun j hj => ?_
        refine hagree j (by simp [hj]) (fun hjtx => ?_) (fun hjp => ?_)
        · exact (hdisj (htx_sub j hjtx)) hj
        · subst hjp
          rcases hpid_c with rfl | hmem
          · exact hi.2 hj
          · exact (hdisj hmem) hj

theorem rep_surgery {h h' : List (NodeData α)} {t : STree}
    {par : Option Nat} {x y pId : Nat} {tx new : STree}
    (hynew : slotId new = some y)
    (hrep : rep h par t = true) (hnd : (ids t).Nodup)
    (hfind : findSub par x t = some (some pId, tx))
    (hnew : rep h' (some pId) new = true)
    (hagree : ∀ j ∈ ids t, j ∉ ids tx → j ≠ pId → h'[j]? = h[j]?)
    (hpar : ∀ dp : NodeData α, h[pId]? = some dp →
        h'[pId]? = some ⟨dp.parent,
          dp.children.map (fun c => if c = some x then some y else c),
          dp.payload⟩) :
    rep h' par (replaceAt x new t) = true :=
  (rep_surgery_pair h h' x y new hynew).1 t par pId tx
    hrep hnd hfind hnew hagree hpar

end STree

/-- The structural invariant of §3, relative to a decode tree `t`: `t` is
rooted at the tree's root pointer, the heap lays `t` out with a null root
parent (consistent parent pointers), no node id occurs twice (single
ownership, no cycles — `t` being a finite tree), and the cursor denotes a
live node of the tree. -/
def InvT (h : List (NodeData α)) (root cur : Nat) (t : STree) : Prop :=
  STree.slotId t = some root ∧ STree.rep h none t = true ∧
  (STree.ids t).Nodup ∧ cur ∈ STree.ids t

/-- The structural invariant of §3. -/
def Inv (h : List (NodeData α)) (root cur : Nat) : Prop :=
  ∃ t, InvT h root cur t

theorem findSub_isSome {x : Nat} {t : STree} {par : Option Nat}
    (h : x ∈ STree.ids t) : ∃ r, STree.findSub par x t = some r := by
  rcases hf : STree.findSub par x t with _ | r
  · exact absurd (STree.findSub_eq_none.mp hf) (by simp [h])
  · exact ⟨r, rfl⟩

/-- Locate a live node: its subtree, the data stored for it, and the
agreement of its parent field with the located parent pointer. -/
theorem locate {h : List (NodeData α)} {root cur x : Nat} {t : STree}
    (hI : InvT h root cur t) (hx : x ∈ STree.ids t) :
    ∃ pp cs0 d, STree.findSub none x t = some (pp, .mk x cs0) ∧
      STree.rep h pp (.mk x cs0) = true ∧
      h[x]? = some d ∧ d.parent = pp ∧ d.children = cs0.map STree.slotId ∧
      STree.repL h x cs0 = true := by
  obtain ⟨⟨pp, tx⟩, hf⟩ :=
    (findSub_isSome hx : ∃ r, STree.findSub none x t = some r)
  obtain ⟨⟨cs0, rfl⟩, _, _⟩ := STree.findSub_shape hf
  have hrep := STree.findSub_rep hI.2.1 hf
  obtain ⟨d, hd, hdp, hdc, hrl⟩ := STree.rep_mk_iff.mp hrep
  exact ⟨pp, cs0, d, hf, hrep, hd, hdp, hdc, hrl⟩

/-- A located parent pointer of the form `some pid` names a node of the
tree distinct from every node of the located subtree. -/
theorem locate_parent_mem {x pid : Nat} {t : STree} {cs0 : List STree}
    (hnd : (STree.ids t).Nodup)
    (hf : STree.findSub none x t = some (some pid, .mk x cs0)) :
    pid ∈ STree.ids t ∧ pid ∉ STree.ids (STree.mk x cs0) := by
  obtain ⟨pre, post, heq, _, hpp⟩ := STree.findSub_split hnd hf
  rcases hpp with hpp | ⟨pid', hpid', hmem⟩
  · exact Option.noConfusion hpp
  · injection hpid' with h2
    subst h2
    rw [heq] at hnd ⊢
    refine ⟨by simp [hmem], fun hc => ?_⟩
    have h4 : (pre ++ STree.ids (STree.mk x cs0)).Nodup := hnd.of_append_left
    exact (List.disjoint_of_nodup_append h4) hmem hc

/-- If the located parent pointer is `none`, the located node is the root
of the decode tree. -/
theorem locate_root {x : Nat} {t : STree} {cs0 : List STree}
    (hf : STree.findSub none x t = some (none, .mk x cs0)) :
    t = .mk x cs0 := by
  cases t with
  | nilSlot => exact Option.noConfusion hf
  | mk i cs =>
    rw [STree.findSub] at hf
    by_cases hix : i = x
    · subst hix
      rw [if_pos rfl] at hf
      injection hf with h1
      injection h1 with hpp htx
    · rw [if_neg hix] at hf
      rcases (STree.findSubL_shape hf).2.2 with hpp | ⟨pid, hpid, _⟩
      · exact Option.noConfusion hpp
      · exact Option.noConfusion hpid

/-- A located parent pointer of the form `some pid` is backed by the heap:
`pid`'s children field holds a slot for the located id. -/
theorem findSub_parent_slot_pair {h : List (NodeData α)} (x : Nat) :
    (∀ t : STree, ∀ par pp tx, STree.rep h par t = true →
        STree.findSub par x t = some (pp, tx) →
        (pp = par ∧ STree.slotId t = some x) ∨
        ∃ pid dpid, pp = some pid ∧ h[pid]? = some dpid ∧
          some x ∈ dpid.children) ∧
    (∀ cs : List STree, ∀ i dI pp tx, h[i]? = some dI →
        (∀ c ∈ cs, STree.slotId c ∈ dI.children) →
        STree.repL h i cs = true →
        STree.findSubL (some i) x cs = some (pp, tx) →
        ∃ pid dpid, pp = some pid ∧ h[pid]? = some dpid ∧
          some x ∈ dpid.children) := by
  refine STree.mutual_ind ?_ ?_ ?_ ?_
  · intro par pp tx hr hf
    exact Option.noConfusion hf
  · intro i cs ih par pp tx hr hf
    rw [STree.findSub] at hf
    by_cases hix : i = x
    · subst hix
      rw [if_pos rfl] at hf
      injection hf with h1
      injection h1 with hpp htx
      exact Or.inl ⟨hpp.symm, rfl⟩
    · rw [if_neg hix] at hf
      obtain ⟨d, hd, _, hdc, hrl⟩ := STree.rep_mk_iff.mp hr
      refine Or.inr (ih i d pp tx hd ?_ hrl hf)
      intro c hc
      rw [hdc]
      exact List.mem_map_of_mem _ hc
  · intro i dI pp tx hd hsub hrl hf
    exact Option.noConfusion hf
  · intro c cr ihc ihr i dI pp tx hd hsub hrl hf
    rw [STree.repL, Bool.and_eq_true] at hrl
    rw [STree.findSubL] at hf
    rcases hfc : STree.findSub (some i) x c with _ | r
    · rw [hfc] at hf
      exact ihr i dI pp tx hd (fun c' hc' => hsub c' (by simp [hc'])) hrl.2 hf
    · rw [hfc] at hf
      injection hf with h1
      subst h1
      rcases ihc (some i) pp tx hrl.1 hfc with ⟨hpp, hslot⟩ | hfound
      · subst hpp
        refine ⟨i, dI, rfl, hd, ?_⟩
        have := hsub c (by simp)
        rwa [hslot] at this
      · exact hfound

theorem findSub_parent_slot {h : List (NodeData α)} {x : Nat} {t : STree}
    {par pp : Option Nat} {tx : STree} (hr : STree.rep h par t = true)
    (hf : STree.findSub par x t = some (pp, tx)) :
    (pp = par ∧ STree.slotId t = some x) ∨
    ∃ pid dpid, pp = some pid ∧ h[pid]? = some dpid ∧
      some x ∈ dpid.children :=
  (findSub_parent_slot_pair x).1 t par pp tx hr hf

theorem idsL_append (a b : List STree) :
    STree.idsL (a ++ b) = STree.idsL a ++ STree.idsL b := by
  induction a with
  | nil => rfl
  | cons c cr ih => simp [ih]

/-- A `some`-slot among the mapped slot ids comes from a `mk`-shaped child. -/
theorem slot_child_mem {j : Nat} {cs : List STree}
    (h : some j ∈ cs.map STree.slotId) :
    ∃ csj, STree.mk j csj ∈ cs := by
  obtain ⟨c, hc, hcj⟩ := List.mem_map.mp h
  cases c with
  | nilSlot => exact Option.noConfusion hcj
  | mk i l =>
    injection hcj with h2
    exact ⟨l, h2 ▸ hc⟩

/-- Every live node id is a valid heap index. -/
theorem InvT_lt {h : List (NodeData α)} {root cur : Nat} {t : STree}
    (hI : InvT h root cur t) : ∀ j ∈ STree.ids t, j < h.length := by
  intro j hj
  obtain ⟨d, hd⟩ := STree.rep_valid hI.2.1 j hj
  exact getElem?_some_lt hd

/-- A located node's parent pointer is null exactly when it is the root. -/
theorem located_root_iff {root x : Nat} {t : STree}
    {pp : Option Nat} {cs0 : List STree} (hslot : STree.slotId t = some root)
    (hf : STree.findSub none x t = some (pp, STree.mk x cs0)) :
    pp = none ↔ x = root := by
  constructor
  · intro hpp
    subst hpp
    have ht := locate_root hf
    rw [ht] at hslot
    exact Option.some.inj hslot
  · intro hcr
    rcases t with _ | ⟨i, cs⟩
    · exact Option.noConfusion hf
    · have hi : i = x := by
        have h2 : some i = some root := hslot
        rw [Option.some.inj h2, hcr]
      subst hi
      rw [STree.findSub, if_pos rfl] at hf
      injection hf with h1
      injection h1 with hpp _
      exact hpp.symm

/-- Replacing one duplicate-free contiguous block by another, whose entries
are either old block entries or entirely fresh, keeps the list
duplicate-free. -/
theorem nodup_block_replace {pre mid post mid' : List Nat}
    (hnd : (pre ++ mid ++ post).Nodup) (hnd' : mid'.Nodup)
    (hmem : ∀ j ∈ mid', j ∈ mid ∨ j ∉ pre ++ mid ++ post) :
    (pre ++ mid' ++ post).Nodup := by
  rw [List.nodup_append, List.nodup_append] at hnd ⊢
  obtain ⟨⟨hp, hm, hpm⟩, hpo, hdisj⟩ := hnd
  refine ⟨⟨hp, hnd', fun a ha ha' => ?_⟩, hpo, fun a ha => ?_⟩
  · rcases hmem a ha' with hold | hfresh
    · exact hpm ha hold
    · exact hfresh (by simp [ha])
  · rcases List.mem_append.mp ha with ha | ha
    · exact hdisj (by simp [ha])
    · intro hpost
      rcases hmem a ha with hold | hfresh
      · exact hdisj (by simp [hold]) hpost
      · exact hfresh (by simp [hpost])

/-- Surgery at a non-root subtree, packaged at the invariant level: the
new subtree is laid out in the new heap and introduces only old-subtree
or fresh ids; then the whole invariant carries over, with the preorder id
list changed only inside the replaced block. -/
theorem InvT_replace_nonroot {h h' : List (NodeData α)}
    {root cur cur' x y g : Nat} {t new : STree} {cs0 : List STree}
    (hI : InvT h root cur t)
    (hf : STree.findSub none x t = some (some g, STree.mk x cs0))
    (hynew : STree.slotId new = some y)
    (hnew : STree.rep h' (some g) new = true)
    (hndnew : (STree.ids new).Nodup)
    (hmemnew : ∀ j ∈ STree.ids new,
        j ∈ STree.ids (STree.mk x cs0) ∨ j ∉ STree.ids t)
    (hcur' : cur' ∈ STree.ids new)
    (hagree : ∀ j ∈ STree.ids t, j ∉ STree.ids (STree.mk x cs0) → j ≠ g →
        h'[j]? = h[j]?)
    (hpar : ∀ dp : NodeData α, h[g]? = some dp →
        h'[g]? = some ⟨dp.parent,
          dp.children.map (fun c => if c = some x then some y else c),
          dp.payload⟩) :
    InvT h' root cur' (STree.replaceAt x new t) ∧
    ∃ pre post, STree.ids t = pre ++ STree.ids (STree.mk x cs0) ++ post ∧
      STree.ids (STree.replaceAt x new t) = pre ++ STree.ids new ++ post := by
  obtain ⟨hslot, hrep, hnd, _⟩ := hI
  obtain ⟨pre, post, heq, hrepl, _⟩ := STree.findSub_split hnd hf
  have hrep' : STree.rep h' none (STree.replaceAt x new t) = true :=
    STree.rep_surgery hynew hrep hnd hf hnew hagree hpar
  have hxroot : STree.slotId t ≠ some x := by
    intro hcon
    rcases t with _ | ⟨i, cs⟩
    · exact Option.noConfusion hcon
    · injection hcon with h2
      subst h2
      rw [STree.findSub, if_pos rfl] at hf
      injection hf with h1
      injection h1 with hpp _
      exact Option.noConfusion hpp
  have hslot' : STree.slotId (STree.replaceAt x new t) = some root := by
    rw [STree.slotId_replaceAt, if_neg hxroot, hslot]
  have hnd' : (STree.ids (STree.replaceAt x new t)).Nodup := by
    rw [hrepl new]
    rw [heq] at hnd
    refine nodup_block_replace hnd hndnew fun j hj => ?_
    rcases hmemnew j hj with hold | hfresh
    · exact Or.inl hold
    · exact Or.inr (by rw [← heq]; exact hfresh)
  exact ⟨⟨hslot', hrep', hnd', by rw [hrepl new]; simp [hcur']⟩,
    pre, post, heq, hrepl new⟩

/-- `slotId c = some n` puts `n` among `c`'s ids. -/
theorem slot_mem_ids {c : STree} {n : Nat} (h : STree.slotId c = some n) :
    n ∈ STree.ids c := by
  cases c with
  | nilSlot => exact Option.noConfusion h
  | mk i l =>
    injection h with h2
    simp [h2]

/-- In a duplicate-free sibling list, an id of one sibling's subtree occurs
in no other sibling. -/
theorem sib_not_mem {l1 l2 : List STree} {cN : STree} {n : Nat}
    (hnd : (STree.idsL (l1 ++ cN :: l2)).Nodup) (hn : n ∈ STree.ids cN) :
    n ∉ STree.idsL (l1 ++ l2) := by
  intro hcon
  rw [idsL_append, STree.idsL_cons] at hnd
  rw [idsL_append] at hcon
  have hle := List.nodup_iff_count_le_one.mp hnd n
  rw [List.count_append, List.count_append] at hle
  have h1 : 0 < List.count n (STree.ids cN) := List.count_pos_iff.mpr hn
  rcases List.mem_append.mp hcon with hc | hc
  · have h2 : 0 < List.count n (STree.idsL l1) := List.count_pos_iff.mpr hc
    omega
  · have h2 : 0 < List.count n (STree.idsL l2) := List.count_pos_iff.mpr hc
    omega

/-! ## The parent-promotion RotateLeft, step by step -/

/-- Running `Parser2.RotateLeft` when the parent exists and has itself a
parent `g`: the explicit write sequence on the heap. -/
theorem RotateLeft2_run_gp {V : Type} {p : Parser2 V} {dn dop dg : NodeData V}
    {op g : Nat}
    (hdn : p.heap[p.node]? = some dn) (hop : dn.parent = some op)
    (hdop : p.heap[op]? = some dop) (hgp : dop.parent = some g)
    (hdg : p.heap[g]? = some dg)
    (hne : p.node ≠ op) (hgne : g ≠ op) (hgnn : g ≠ p.node) :
    p.RotateLeft = some ((some p.node, none),
      { p with
        heap := (((((p.heap.set op
            ⟨some g, dop.children.filter (fun x => x ≠ some p.node), dop.payload⟩).set p.node
            ⟨some op, dn.children ++ [some op], dn.payload⟩).set op
            ⟨some p.node, dop.children.filter (fun x => x ≠ some p.node), dop.payload⟩).set p.node
            ⟨some g, dn.children ++ [some op], dn.payload⟩).set g
            ⟨dg.parent, dg.children.map (fun x => if x ≠ some op then x else some p.node), dg.payload⟩),
        treeRoot := if p.treeRoot = op then p.node else p.treeRoot }) := by
  have hlN : p.node < p.heap.length := getElem?_some_lt hdn
  have hlOp : op < p.heap.length := getElem?_some_lt hdop
  have e1 : (p.heap.set op
      ⟨some g, dop.children.filter (fun x => x ≠ some p.node), dop.payload⟩)[p.node]?
      = some dn := by
    rw [List.getElem?_set_ne (Ne.symm hne)]
    exact hdn
  have e2 : ((p.heap.set op
      ⟨some g, dop.children.filter (fun x => x ≠ some p.node), dop.payload⟩).set p.node
      ⟨some op, dn.children ++ [some op], dn.payload⟩)[op]?
      = some ⟨some g, dop.children.filter (fun x => x ≠ some p.node), dop.payload⟩ := by
    rw [List.getElem?_set_ne hne, List.getElem?_set_eq (by simpa using hlOp)]
  have e3 : (((p.heap.set op
      ⟨some g, dop.children.filter (fun x => x ≠ some p.node), dop.payload⟩).set p.node
      ⟨some op, dn.children ++ [some op], dn.payload⟩).set op
      ⟨some p.node, dop.children.filter (fun x => x ≠ some p.node), dop.payload⟩)[p.node]?
      = some ⟨some op, dn.children ++ [some op], dn.payload⟩ := by
    rw [List.getElem?_set_ne (Ne.symm hne), List.getElem?_set_eq (by simpa using hlN)]
  have e4 : ((((p.heap.set op
      ⟨some g, dop.children.filter (fun x => x ≠ some p.node), dop.payload⟩).set p.node
      ⟨some op, dn.children ++ [some op], dn.payload⟩).set op
      ⟨some p.node, dop.children.filter (fun x => x ≠ some p.node), dop.payload⟩).set p.node
      ⟨some g, dn.children ++ [some op], dn.payload⟩)[g]?
      = some dg := by
    rw [List.getElem?_set_ne hgnn.symm, List.getElem?_set_ne hgne.symm,
      List.getElem?_set_ne hgnn.symm, List.getElem?_set_ne hgne.symm]
    exact hdg
  simp only [Parser2.RotateLeft, hdn, hop, hdop, hgp, e1, e2, e3, e4,
    Option.bind_eq_bind, Option.some_bind]

/-- Running `Parser2.RotateLeft` when the parent exists and is the tree
root (no grandparent). -/
theorem RotateLeft2_run_root {V : Type} {p : Parser2 V} {dn dop : NodeData V}
    {op : Nat}
    (hdn : p.heap[p.node]? = some dn) (hop : dn.parent = some op)
    (hdop : p.heap[op]? = some dop) (hgp : dop.parent = none)
    (hne : p.node ≠ op) :
    p.RotateLeft = some ((some p.node, none),
      { p with
        heap := ((((p.heap.set op
            ⟨none, dop.children.filter (fun x => x ≠ some p.node), dop.payload⟩).set p.node
            ⟨some op, dn.children ++ [some op], dn.payload⟩).set op
            ⟨some p.node, dop.children.filter (fun x => x ≠ some p.node), dop.payload⟩).set p.node
            ⟨none, dn.children ++ [some op], dn.payload⟩),
        treeRoot := if p.treeRoot = op then p.node else p.treeRoot }) := by
  have hlN : p.node < p.heap.length := getElem?_some_lt hdn
  have hlOp : op < p.heap.length := getElem?_some_lt hdop
  have e1 : (p.heap.set op
      ⟨none, dop.children.filter (fun x => x ≠ some p.node), dop.payload⟩)[p.node]?
      = some dn := by
    rw [List.getElem?_set_ne (Ne.symm hne)]
    exact hdn
  have e2 : ((p.heap.set op
      ⟨none, dop.children.filter (fun x => x ≠ some p.node), dop.payload⟩).set p.node
      ⟨some op, dn.children ++ [some op], dn.payload⟩)[op]?
      = some ⟨none, dop.children.filter (fun x => x ≠ some p.node), dop.payload⟩ := by
    rw [List.getElem?_set_ne hne, List.getElem?_set_eq (by simpa using hlOp)]
  have e3 : (((p.heap.set op
      ⟨none, dop.children.filter (fun x => x ≠ some p.node), dop.payload⟩).set p.node
      ⟨some op, dn.children ++ [some op], dn.payload⟩).set op
      ⟨some p.node, dop.children.filter (fun x => x ≠ some p.node), dop.payload⟩)[p.node]?
      = some ⟨some op, dn.children ++ [some op], dn.payload⟩ := by
    rw [List.getElem?_set_ne (Ne.symm hne), List.getElem?_set_eq (by simpa using hlN)]
  simp only [Parser2.RotateLeft, hdn, hop, hdop, hgp, e1, e2, e3,
    Option.bind_eq_bind, Option.some_bind]

/-- The full specification of the parent-promotion `RotateLeft` on an
invariant-satisfying tree whose cursor has a parent `op`: success with the
cursor returned, invariant preserved, node count unchanged, cursor
unmoved, `op` demoted to last child of the cursor, `op`'s other children
kept in order, the grandparent's child slot renamed in place (or the tree
root updated exactly when `op` was the root), and every other node
untouched. -/
theorem RotateLeft2_spec {V : Type} {p : Parser2 V} {t : STree}
    {dn dop : NodeData V} {op : Nat}
    (hI : InvT p.heap p.treeRoot p.node t)
    (hdn : p.heap[p.node]? = some dn)
    (hop : dn.parent = some op)
    (hdop : p.heap[op]? = some dop) :
    ∃ p' t', p.RotateLeft = some ((some p.node, none), p') ∧
      InvT p'.heap p'.treeRoot p'.node t' ∧
      (STree.ids t').length = (STree.ids t).length ∧
      p'.node = p.node ∧ p'.lexeme = p.lexeme ∧ p'.stream = p.stream ∧
      p'.treeRoot = (if p.treeRoot = op then p.node else p.treeRoot) ∧
      (dop.parent = none ↔ p.treeRoot = op) ∧
      p'.heap[p.node]? = some ⟨dop.parent, dn.children ++ [some op], dn.payload⟩ ∧
      p'.heap[op]? = some ⟨some p.node,
        dop.children.filter (fun x => x ≠ some p.node), dop.payload⟩ ∧
      (∀ g dg, dop.parent = some g → p.heap[g]? = some dg →
        p'.heap[g]? = some ⟨dg.parent,
          dg.children.map (fun x => if x ≠ some op then x else some p.node),
          dg.payload⟩) ∧
      (∀ j, j ≠ p.node → j ≠ op → dop.parent ≠ some j →
        p'.heap[j]? = p.heap[j]?) := by
  obtain ⟨ppn, csn, dn', hfN, _, hdn', hdnp, hdnc, hrlN⟩ := locate hI hI.2.2.2
  rw [hdn] at hdn'
  injection hdn' with he
  subst he
  have hppn : ppn = some op := by rw [← hdnp, hop]
  subst hppn
  have hopmem := locate_parent_mem hI.2.2.1 hfN
  have hne : p.node ≠ op := by
    intro hc
    exact hopmem.2 (by rw [← hc]; simp)
  have hcurslot : some p.node ∈ dop.children := by
    rcases findSub_parent_slot hI.2.1 hfN with ⟨hpp, _⟩ |
      ⟨pid, dpid, hpid, hdpid, hsl⟩
    · exact Option.noConfusion hpp
    · have hpid2 : pid = op := by
        injection hpid with h2
        exact h2.symm
      subst hpid2
      rw [hdop] at hdpid
      injection hdpid with he2
      rw [he2]
      exact hsl
  obtain ⟨ppo, csP, dop', hfP, _, hdop', hdopp, hdopc, hrlP⟩ :=
    locate hI hopmem.1
  rw [hdop] at hdop'
  injection hdop' with he3
  subst he3
  rw [hdopc] at hcurslot
  obtain ⟨csn2, hcsn2⟩ := slot_child_mem hcurslot
  have hrepN2 : STree.rep p.heap (some op) (STree.mk p.node csn2) = true :=
    STree.repL_iff.mp hrlP _ hcsn2
  obtain ⟨d2, hd2, hd2p, hd2c, hrlN2⟩ := STree.rep_mk_iff.mp hrepN2
  rw [hdn] at hd2
  injection hd2 with he4
  subst he4
  obtain ⟨l1, l2, hdec⟩ := List.append_of_mem hcsn2
  obtain ⟨preP, postP, heqP, hreplP, _⟩ := STree.findSub_split hI.2.2.1 hfP
  have hndtx : (STree.ids (STree.mk op csP)).Nodup := by
    have h5 := hI.2.2.1
    rw [heqP] at h5
    exact h5.of_append_left.of_append_right
  have hopnot : op ∉ STree.idsL csP := by
    have h5 := hndtx
    rw [STree.ids_mk, List.nodup_cons] at h5
    exact h5.1
  have hndcs : (STree.idsL csP).Nodup := by
    have h5 := hndtx
    rw [STree.ids_mk, List.nodup_cons] at h5
    exact h5.2
  have hndcs2 : (STree.idsL (l1 ++ STree.mk p.node csn2 :: l2)).Nodup := by
    rw [← hdec]
    exact hndcs
  have hcurin : p.node ∈ STree.idsL csP :=
    STree.mem_idsL.mpr ⟨_, hcsn2, by simp⟩
  have hndcN : (STree.ids (STree.mk p.node csn2)).Nodup := by
    have h5 := hndcs2
    rw [idsL_append, STree.idsL_cons] at h5
    exact h5.of_append_right.of_append_left
  have hcnot : p.node ∉ STree.idsL csn2 := by
    have h5 := hndcN
    rw [STree.ids_mk, List.nodup_cons] at h5
    exact h5.1
  have hsibs : p.node ∉ STree.idsL (l1 ++ l2) :=
    sib_not_mem hndcs2 (by simp)
  have hslots : ∀ c ∈ l1 ++ l2, STree.slotId c ≠ some p.node := by
    intro c hc hcx
    exact hsibs (STree.mem_idsL.mpr ⟨c, hc, slot_mem_ids hcx⟩)
  have hl1f : (l1.map STree.slotId).filter (fun x => x ≠ some p.node)
      = l1.map STree.slotId := by
    refine List.filter_eq_self.mpr ?_
    intro a ha
    obtain ⟨c, hc, rfl⟩ := List.mem_map.mp ha
    simpa using hslots c (by simp [hc])
  have hl2f : (l2.map STree.slotId).filter (fun x => x ≠ some p.node)
      = l2.map STree.slotId := by
    refine List.filter_eq_self.mpr ?_
    intro a ha
    obtain ⟨c, hc, rfl⟩ := List.mem_map.mp ha
    simpa using hslots c (by simp [hc])
  have hfilter : dop.children.filter (fun x => x ≠ some p.node)
      = (l1 ++ l2).map STree.slotId := by
    rw [hdopc, hdec, List.map_append, List.map_cons, List.filter_append,
      List.filter_cons, List.map_append]
    simp only [STree.slotId, hl1f, hl2f]
    simp
  have hperm : (STree.ids (STree.mk p.node
      (csn2 ++ [STree.mk op (l1 ++ l2)]))).Perm
      (STree.ids (STree.mk op csP)) := by
    rw [hdec]
    simp only [STree.ids_mk, idsL_append, STree.idsL_cons, STree.idsL_nil,
      List.append_nil]
    rw [List.perm_iff_count]
    intro a
    simp only [List.count_append, List.count_cons]
    omega
  have hndnew : (STree.ids (STree.mk p.node
      (csn2 ++ [STree.mk op (l1 ++ l2)]))).Nodup :=
    (hperm.nodup_iff).mpr hndtx
  have hchnew : dn.children ++ [some op]
      = (csn2 ++ [STree.mk op (l1 ++ l2)]).map STree.slotId := by
    rw [List.map_append, ← hd2c]
    simp [STree.slotId]
  have hrootiff : (ppo = none ↔ op = p.treeRoot) := located_root_iff hI.1 hfP
  rcases ppo with _ | g
  · -- op is the tree root
    have ht := locate_root hfP
    have hroot : p.treeRoot = op := by
      have h5 := hI.1
      rw [ht] at h5
      exact (Option.some.inj h5).symm
    have hrun := RotateLeft2_run_root hdn hop hdop hdopp hne
    refine ⟨_, STree.mk p.node (csn2 ++ [STree.mk op (l1 ++ l2)]), hrun, ?_⟩
    have hlN : p.node < p.heap.length := getElem?_some_lt hdn
    have hlOp : op < p.heap.length := getElem?_some_lt hdop
    have k1 : ((((p.heap.set op
        ⟨none, dop.children.filter (fun x => x ≠ some p.node), dop.payload⟩).set p.node
        ⟨some op, dn.children ++ [some op], dn.payload⟩).set op
        ⟨some p.node, dop.children.filter (fun x => x ≠ some p.node), dop.payload⟩).set p.node
        ⟨none, dn.children ++ [some op], dn.payload⟩)[p.node]?
        = some ⟨none, dn.children ++ [some op], dn.payload⟩ := by
      rw [List.getElem?_set_eq (by simpa using hlN)]
    have k2 : ((((p.heap.set op
        ⟨none, dop.children.filter (fun x => x ≠ some p.node), dop.payload⟩).set p.node
        ⟨some op, dn.children ++ [some op], dn.payload⟩).set op
        ⟨some p.node, dop.children.filter (fun x => x ≠ some p.node), dop.payload⟩).set p.node
        ⟨none, dn.children ++ [some op], dn.payload⟩)[op]?
        = some ⟨some p.node, dop.children.filter (fun x => x ≠ some p.node),
            dop.payload⟩ := by
      rw [List.getElem?_set_ne hne, List.getElem?_set_eq (by simpa using hlOp)]
    have k3 : ∀ j, j ≠ p.node → j ≠ op →
        ((((p.heap.set op
        ⟨none, dop.children.filter (fun x => x ≠ some p.node), dop.payload⟩).set p.node
        ⟨some op, dn.children ++ [some op], dn.payload⟩).set op
        ⟨some p.node, dop.children.filter (fun x => x ≠ some p.node), dop.payload⟩).set p.node
        ⟨none, dn.children ++ [some op], dn.payload⟩)[j]?
        = p.heap[j]? := by
      intro j hj1 hj2
      rw [List.getElem?_set_ne (Ne.symm hj1), List.getElem?_set_ne (Ne.symm hj2),
        List.getElem?_set_ne (Ne.symm hj1), List.getElem?_set_ne (Ne.symm hj2)]
    have hrep' : STree.rep ((((p.heap.set op
        ⟨none, dop.children.filter (fun x => x ≠ some p.node), dop.payload⟩).set p.node
        ⟨some op, dn.children ++ [some op], dn.payload⟩).set op
        ⟨some p.node, dop.children.filter (fun x => x ≠ some p.node), dop.payload⟩).set p.node
        ⟨none, dn.children ++ [some op], dn.payload⟩) none
        (STree.mk p.node (csn2 ++ [STree.mk op (l1 ++ l2)])) = true := by
      refine STree.rep_mk_iff.mpr ⟨_, k1, rfl, hchnew, ?_⟩
      rw [STree.repL_iff]
      intro c hc
      rcases List.mem_append.mp hc with hc | hc
      · refine STree.rep_agree (STree.repL_iff.mp hrlN2 c hc) ?_
        intro j hj
        have hj1 : j ∈ STree.idsL csn2 := STree.mem_idsL.mpr ⟨c, hc, hj⟩
        refine k3 j (fun hcon => hcnot (hcon ▸ hj1)) (fun hcon => ?_)
        exact hopnot (STree.mem_idsL.mpr ⟨_, hcsn2, by simp [← hcon, hj1]⟩)
      · have hc2 : c = STree.mk op (l1 ++ l2) := by simpa using hc
        subst hc2
        refine STree.rep_mk_iff.mpr ⟨_, k2, rfl, hfilter, ?_⟩
        rw [STree.repL_iff]
        intro c' hc'
        have hc'P : c' ∈ csP := by
          rw [hdec]
          rcases List.mem_append.mp hc' with h6 | h6
          · exact List.mem_append.mpr (Or.inl h6)
          · exact List.mem_append.mpr (Or.inr (by simp [h6]))
        refine STree.rep_agree (STree.repL_iff.mp hrlP c' hc'P) ?_
        intro j hj
        have hj2 : j ∈ STree.idsL (l1 ++ l2) := STree.mem_idsL.mpr ⟨c', hc', hj⟩
        refine k3 j (fun hcon => hsibs (hcon ▸ hj2)) (fun hcon => ?_)
        exact hopnot (STree.mem_idsL.mpr ⟨c', hc'P, hcon ▸ hj⟩)
    refine ⟨⟨?_, hrep', hndnew, by simp⟩, ?_, rfl, rfl, rfl, ?_, ?_, ?_, ?_, ?_, ?_⟩
    · simp [hroot, STree.slotId]
    · rw [ht]
      exact hperm.length_eq
    · simp [hroot]
    · simp [hdopp, hroot]
    · rw [hdopp]
      exact k1
    · exact k2
    · intro g dg hg
      rw [hdopp] at hg
      exact absurd hg (by simp)
    · intro j hj1 hj2 _
      exact k3 j hj1 hj2
  · -- op has a grandparent g
    have hgmem := locate_parent_mem hI.2.2.1 hfP
    have hgne : g ≠ op := by
      intro hc
      exact hgmem.2 (by rw [hc]; simp)
    have hgnn : g ≠ p.node := by
      intro hc
      exact hgmem.2 (by rw [STree.ids_mk]; exact List.mem_cons_of_mem _ (hc ▸ hcurin))
    obtain ⟨dg, hdg⟩ := STree.rep_valid hI.2.1 g hgmem.1
    have hnr : p.treeRoot ≠ op := by
      intro hc
      have h5 : (some g : Option Nat) = none := hrootiff.mpr hc.symm
      exact Option.noConfusion h5
    have hrun := RotateLeft2_run_gp hdn hop hdop hdopp hdg hne hgne hgnn
    refine ⟨_, STree.replaceAt op (STree.mk p.node
      (csn2 ++ [STree.mk op (l1 ++ l2)])) t, hrun, ?_⟩
    have hlN : p.node < p.heap.length := getElem?_some_lt hdn
    have hlOp : op < p.heap.length := getElem?_some_lt hdop
    have hlG : g < p.heap.length := getElem?_some_lt hdg
    have k1 : (((((p.heap.set op
        ⟨some g, dop.children.filter (fun x => x ≠ some p.node), dop.payload⟩).set p.node
        ⟨some op, dn.children ++ [some op], dn.payload⟩).set op
        ⟨some p.node, dop.children.filter (fun x => x ≠ some p.node), dop.payload⟩).set p.node
        ⟨some g, dn.children ++ [some op], dn.payload⟩).set g
        ⟨dg.parent, dg.children.map (fun x => if x ≠ some op then x else some p.node), dg.payload⟩)[p.node]?
        = some ⟨some g, dn.children ++ [some op], dn.payload⟩ := by
      rw [List.getElem?_set_ne hgnn, List.getElem?_set_eq (by simpa using hlN)]
    have k2 : (((((p.heap.set op
        ⟨some g, dop.children.filter (fun x => x ≠ some p.node), dop.payload⟩).set p.node
        ⟨some op, dn.children ++ [some op], dn.payload⟩).set op
        ⟨some p.node, dop.children.filter (fun x => x ≠ some p.node), dop.payload⟩).set p.node
        ⟨some g, dn.children ++ [some op], dn.payload⟩).set g
        ⟨dg.parent, dg.children.map (fun x => if x ≠ some op then x else some p.node), dg.payload⟩)[op]?
        = some ⟨some p.node, dop.children.filter (fun x => x ≠ some p.node),
            dop.payload⟩ := by
      rw [List.getElem?_set_ne hgne, List.getElem?_set_ne hne,
        List.getElem?_set_eq (by simpa using hlOp)]
    have k3 : (((((p.heap.set op
        ⟨some g, dop.children.filter (fun x => x ≠ some p.node), dop.payload⟩).set p.node
        ⟨some op, dn.children ++ [some op], dn.payload⟩).set op
        ⟨some p.node, dop.children.filter (fun x => x ≠ some p.node), dop.payload⟩).set p.node
        ⟨some g, dn.children ++ [some op], dn.payload⟩).set g
        ⟨dg.parent, dg.children.map (fun x => if x ≠ some op then x else some p.node), dg.payload⟩)[g]?
        = some ⟨dg.parent, dg.children.map (fun x => if x ≠ some op then x else some p.node), dg.payload⟩ := by
      rw [List.getElem?_set_eq (by simpa using hlG)]
    have k4 : ∀ j, j ≠ p.node → j ≠ op → j ≠ g →
        (((((p.heap.set op
        ⟨some g, dop.children.filter (fun x => x ≠ some p.node), dop.payload⟩).set p.node
        ⟨some op, dn.children ++ [some op], dn.payload⟩).set op
        ⟨some p.node, dop.children.filter (fun x => x ≠ some p.node), dop.payload⟩).set p.node
        ⟨some g, dn.children ++ [some op], dn.payload⟩).set g
        ⟨dg.parent, dg.children.map (fun x => if x ≠ some op then x else some p.node), dg.payload⟩)[j]?
        = p.heap[j]? := by
      intro j hj1 hj2 hj3
      rw [List.getElem?_set_ne (Ne.symm hj3), List.getElem?_set_ne (Ne.symm hj1),
        List.getElem?_set_ne (Ne.symm hj2), List.getElem?_set_ne (Ne.symm hj1),
        List.getElem?_set_ne (Ne.symm hj2)]
    have hrep' : STree.rep (((((p.heap.set op
        ⟨some g, dop.children.filter (fun x => x ≠ some p.node), dop.payload⟩).set p.node
        ⟨some op, dn.children ++ [some op], dn.payload⟩).set op
        ⟨some p.node, dop.children.filter (fun x => x ≠ some p.node), dop.payload⟩).set p.node
        ⟨some g, dn.children ++ [some op], dn.payload⟩).set g
        ⟨dg.parent, dg.children.map (fun x => if x ≠ some op then x else some p.node), dg.payload⟩) (some g)
        (STree.mk p.node (csn2 ++ [STree.mk op (l1 ++ l2)])) = true := by
      refine STree.rep_mk_iff.mpr ⟨_, k1, rfl, hchnew, ?_⟩
      rw [STree.repL_iff]
      intro c hc
      rcases List.mem_append.mp hc with hc | hc
      · refine STree.rep_agree (STree.repL_iff.mp hrlN2 c hc) ?_
        intro j hj
        have hj1 : j ∈ STree.idsL csn2 := STree.mem_idsL.mpr ⟨c, hc, hj⟩
        have hjtx : j ∈ STree.ids (STree.mk op csP) := by
          rw [STree.ids_mk]
          exact List.mem_cons_of_mem _ (STree.mem_idsL.mpr ⟨_, hcsn2, by simp [hj1]⟩)
        refine k4 j (fun hcon => hcnot (hcon ▸ hj1)) (fun hcon => ?_)
          (fun hcon => hgmem.2 (hcon ▸ hjtx))
        exact hopnot (STree.mem_idsL.mpr ⟨_, hcsn2, by simp [← hcon, hj1]⟩)
      · have hc2 : c = STree.mk op (l1 ++ l2) := by simpa using hc
        subst hc2
        refine STree.rep_mk_iff.mpr ⟨_, k2, rfl, hfilter, ?_⟩
        rw [STree.repL_iff]
        intro c' hc'
        have hc'P : c' ∈ csP := by
          rw [hdec]
          rcases List.mem_append.mp hc' with h6 | h6
          · exact List.mem_append.mpr (Or.inl h6)
          · exact List.mem_append.mpr (Or.inr (by simp [h6]))
        refine STree.rep_agree (STree.repL_iff.mp hrlP c' hc'P) ?_
        intro j hj
        have hj2 : j ∈ STree.idsL (l1 ++ l2) := STree.mem_idsL.mpr ⟨c', hc', hj⟩
        have hjtx : j ∈ STree.ids (STree.mk op csP) := by
          rw [STree.ids_mk]
          exact List.mem_cons_of_mem _ (STree.mem_idsL.mpr ⟨c', hc'P, hj⟩)
        refine k4 j (fun hcon => hsibs (hcon ▸ hj2)) (fun hcon => ?_)
          (fun hcon => hgmem.2 (hcon ▸ hjtx))
        exact hopnot (STree.mem_idsL.mpr ⟨c', hc'P, hcon ▸ hj⟩)
    have hpairs := InvT_replace_nonroot hI hfP
      (rfl : STree.slotId (STree.mk p.node
        (csn2 ++ [STree.mk op (l1 ++ l2)])) = some p.node) hrep' hndnew
      (fun j hj => Or.inl (hperm.subset hj))
      (show p.node ∈ STree.ids (STree.mk p.node
        (csn2 ++ [STree.mk op (l1 ++ l2)])) by simp)
      (fun j hj hjtx hjg => k4 j
        (fun hcon => hjtx (by rw [STree.ids_mk]; exact List.mem_cons_of_mem _ (hcon ▸ hcurin)))
        (fun hcon => hjtx (by rw [hcon]; simp)) hjg)
      (fun dp hdp => by
        rw [hdg] at hdp
        injection hdp with he5
        subst he5
        rw [k3]
        refine congrArg some ?_
        refine congrArg (fun z => NodeData.mk dg.parent z dg.payload) ?_
        refine List.map_congr_left ?_
        intro a _
        by_cases hcase : a = some op <;> simp [hcase])
    obtain ⟨hInv', pre2, post2, heq2, hrepl2⟩ := hpairs
    refine ⟨?_, ?_, rfl, rfl, rfl, ?_, ?_, ?_, ?_, ?_, ?_⟩
    · have hrt : (if p.treeRoot = op then p.node else p.treeRoot) = p.treeRoot :=
        if_neg hnr
      simpa [hrt] using hInv'
    · rw [heq2, hrepl2]
      have hlen := hperm.length_eq
      simp only [STree.ids_mk, List.length_cons] at hlen
      simp only [STree.ids_mk, List.length_append, List.length_cons]
      omega
    · rfl
    · constructor
      · intro hc
        rw [hdopp] at hc
        exact absurd hc (by simp)
      · intro hc
        exact absurd hc hnr
    · rw [hdopp]
      exact k1
    · exact k2
    · intro g' dg' hg' hdg'
      have hg2 : g' = g := by
        rw [hdopp] at hg'
        exact (Option.some.inj hg').symm
      subst hg2
      rw [hdg] at hdg'
      injection hdg' with he6
      subst he6
      exact k3
    · intro j hj1 hj2 hj3
      refine k4 j hj1 hj2 (fun hcon => hj3 ?_)
      rw [hdopp, hcon]

/-! ## AdoptSibling, step by step -/

/-- The sibling search, generalised over the accumulator: on success the
list splits right before the first slot equal to `some n`. -/
theorem prevSibGo_acc {l : List (Option Nat)} {n s : Nat} {acc : Option Nat}
    (hmem : some n ∈ l) (hrun : Parser2.prevSibGo l n acc = some s) :
    (∃ tl, l = some n :: tl ∧ acc = some s) ∨
    ∃ a1 a2, l = a1 ++ some s :: some n :: a2 ∧ some n ∉ a1 := by
  induction l generalizing acc with
  | nil => simp at hmem
  | cons x r ih =>
    rw [Parser2.prevSibGo] at hrun
    by_cases hx : x = some n
    · rw [if_pos hx] at hrun
      exact Or.inl ⟨r, by rw [hx], hrun⟩
    · rw [if_neg hx] at hrun
      have hmem' : some n ∈ r := by
        rcases List.mem_cons.mp hmem with h | h
        · exact absurd h.symm hx
        · exact h
      rcases ih hmem' hrun with ⟨tl, htl, hacc⟩ | ⟨a1, a2, hdec, hnot⟩
      · refine Or.inr ⟨[], tl, ?_, by simp⟩
        rw [htl, hacc]
        simp
      · refine Or.inr ⟨x :: a1, a2, by rw [hdec]; simp, ?_⟩
        intro hc
        rcases List.mem_cons.mp hc with h | h
        · exact hx h.symm
        · exact hnot h

/-- The sibling search from the initial nil accumulator: success splits
the children right before the current node's slot. -/
theorem prevSibGo_decomp {l : List (Option Nat)} {n s : Nat}
    (hmem : some n ∈ l) (hrun : Parser2.prevSibGo l n none = some s) :
    ∃ a1 a2, l = a1 ++ some s :: some n :: a2 := by
  rcases prevSibGo_acc hmem hrun with ⟨_, _, hacc⟩ | ⟨a1, a2, hdec, _⟩
  · exact Option.noConfusion hacc
  · exact ⟨a1, a2, hdec⟩

/-- Pull a two-slot split of the mapped slot ids back to the child list. -/
theorem map_slot_decomp {cs : List STree} {A B : List (Option Nat)} {a b : Nat}
    (h : cs.map STree.slotId = A ++ some a :: some b :: B) :
    ∃ A' cA cB B', cs = A' ++ cA :: cB :: B' ∧ A'.map STree.slotId = A ∧
      STree.slotId cA = some a ∧ STree.slotId cB = some b ∧
      B'.map STree.slotId = B := by
  rw [List.map_eq_append_iff] at h
  obtain ⟨A', rest, hcs, hA, hrest⟩ := h
  rw [List.map_eq_cons_iff] at hrest
  obtain ⟨cA, rest2, hrest2, hcA, hrest3⟩ := hrest
  rw [List.map_eq_cons_iff] at hrest3
  obtain ⟨cB, B', hB', hcB, hBmap⟩ := hrest3
  exact ⟨A', cA, cB, B', by rw [hcs, hrest2, hB'], hA, hcA, hcB, hBmap⟩

/-- Running `Parser2.AdoptSibling` when the cursor has a parent and the
sibling search succeeds: the explicit write sequence on the heap. -/
theorem AdoptSibling2_run {V : Type} {p : Parser2 V} {dn dop ds : NodeData V}
    {op s : Nat}
    (hdn : p.heap[p.node]? = some dn) (hop : dn.parent = some op)
    (hdop : p.heap[op]? = some dop)
    (hsib : Parser2.prevSibGo dop.children p.node none = some s)
    (hds : p.heap[s]? = some ds)
    (hne : p.node ≠ op) (hsne : s ≠ op) (hsnn : s ≠ p.node) :
    p.AdoptSibling = some ((some p.node, none),
      { p with heap := (((p.heap.set op
          ⟨dop.parent, dop.children.filter (fun x => x ≠ some s), dop.payload⟩).set p.node
          ⟨some op, dn.children ++ [some s], dn.payload⟩).set s
          ⟨some p.node, ds.children, ds.payload⟩) }) := by
  have hlN : p.node < p.heap.length := getElem?_some_lt hdn
  have e1 : (p.heap.set op
      ⟨dop.parent, dop.children.filter (fun x => x ≠ some s), dop.payload⟩)[p.node]?
      = some dn := by
    rw [List.getElem?_set_ne (Ne.symm hne)]
    exact hdn
  have e2 : ((p.heap.set op
      ⟨dop.parent, dop.children.filter (fun x => x ≠ some s), dop.payload⟩).set p.node
      ⟨some op, dn.children ++ [some s], dn.payload⟩)[s]?
      = some ds := by
    rw [List.getElem?_set_ne (Ne.symm hsnn), List.getElem?_set_ne (Ne.symm hsne)]
    exact hds
  simp only [Parser2.AdoptSibling, hdn, hop, hdop, hsib, e1, e2,
    Option.bind_eq_bind, Option.some_bind]

/-- The parent-promotion `AdoptSibling` on an invariant-satisfying tree
whose cursor has a parent and a preceding sibling slot: success with the
cursor returned, invariant preserved, node count unchanged, and the
bookkeeping fields untouched. -/
theorem AdoptSibling2_spec {V : Type} {p : Parser2 V} {t : STree}
    {dn dop : NodeData V} {op s : Nat}
    (hI : InvT p.heap p.treeRoot p.node t)
    (hdn : p.heap[p.node]? = some dn)
    (hop : dn.parent = some op)
    (hdop : p.heap[op]? = some dop)
    (hsib : Parser2.prevSibGo dop.children p.node none = some s) :
    ∃ p' t', p.AdoptSibling = some ((some p.node, none), p') ∧
      InvT p'.heap p'.treeRoot p'.node t' ∧
      (STree.ids t').length = (STree.ids t).length ∧
      p'.node = p.node ∧ p'.treeRoot = p.treeRoot ∧
      p'.lexeme = p.lexeme ∧ p'.stream = p.stream := by
  obtain ⟨ppn, csn, dn', hfN, _, hdn', hdnp, hdnc, hrlN⟩ := locate hI hI.2.2.2
  rw [hdn] at hdn'
  injection hdn' with he
  subst he
  have hppn : ppn = some op := by rw [← hdnp, hop]
  subst hppn
  have hopmem := locate_parent_mem hI.2.2.1 hfN
  have hne : p.node ≠ op := by
    intro hc
    exact hopmem.2 (by rw [← hc]; simp)
  have hcurslot : some p.node ∈ dop.children := by
    rcases findSub_parent_slot hI.2.1 hfN with ⟨hpp, _⟩ |
      ⟨pid, dpid, hpid, hdpid, hsl⟩
    · exact Option.noConfusion hpp
    · have hpid2 : pid = op := by
        injection hpid with h2
        exact h2.symm
      subst hpid2
      rw [hdop] at hdpid
      injection hdpid with he2
      rw [he2]
      exact hsl
  obtain ⟨ppo, csP, dop', hfP, _, hdop', hdopp, hdopc, hrlP⟩ :=
    locate hI hopmem.1
  rw [hdop] at hdop'
  injection hdop' with he3
  subst he3
  obtain ⟨A, B, hABdec⟩ := prevSibGo_decomp hcurslot hsib
  have hmapdec : csP.map STree.slotId = A ++ some s :: some p.node :: B := by
    rw [← hdopc, hABdec]
  obtain ⟨A', cS, cN, B', hdecP, hAmap, hcSslot, hcNslot, hBmap⟩ :=
    map_slot_decomp hmapdec
  obtain ⟨csb, rfl⟩ : ∃ csb, cN = STree.mk p.node csb := by
    rcases cN with _ | ⟨i, l⟩
    · exact Option.noConfusion hcNslot
    · exact ⟨l, by rw [Option.some.inj hcNslot]⟩
  obtain ⟨csS, rfl⟩ : ∃ csS, cS = STree.mk s csS := by
    rcases cS with _ | ⟨i, l⟩
    · exact Option.noConfusion hcSslot
    · exact ⟨l, by rw [Option.some.inj hcSslot]⟩
  obtain ⟨preP, postP, heqP, hreplP, _⟩ := STree.findSub_split hI.2.2.1 hfP
  have hndtx : (STree.ids (STree.mk op csP)).Nodup := by
    have h5 := hI.2.2.1
    rw [heqP] at h5
    exact h5.of_append_left.of_append_right
  have hopnot : op ∉ STree.idsL csP := by
    have h5 := hndtx
    rw [STree.ids_mk, List.nodup_cons] at h5
    exact h5.1
  have hndcs : (STree.idsL csP).Nodup := by
    have h5 := hndtx
    rw [STree.ids_mk, List.nodup_cons] at h5
    exact h5.2
  -- the cursor and sibling entries in the heap
  have hrepN : STree.rep p.heap (some op) (STree.mk p.node csb) = true :=
    STree.repL_iff.mp hrlP _ (by rw [hdecP]; simp)
  obtain ⟨d2, hd2, hd2p, hd2c, hrlb⟩ := STree.rep_mk_iff.mp hrepN
  rw [hdn] at hd2
  injection hd2 with he4
  subst he4
  have hrepS : STree.rep p.heap (some op) (STree.mk s csS) = true :=
    STree.repL_iff.mp hrlP _ (by rw [hdecP]; simp)
  obtain ⟨ds, hds, hdsp, hdsc, hrls⟩ := STree.rep_mk_iff.mp hrepS
  -- sibling disjointness
  have hshape1 : csP = (A' ++ [STree.mk s csS]) ++ STree.mk p.node csb :: B' := by
    rw [hdecP]
    simp
  have hnnot : p.node ∉ STree.idsL ((A' ++ [STree.mk s csS]) ++ B') := by
    refine sib_not_mem ?_ (by simp : p.node ∈ STree.ids (STree.mk p.node csb))
    rw [← hshape1]
    exact hndcs
  have hsnot : s ∉ STree.idsL (A' ++ (STree.mk p.node csb :: B')) := by
    refine sib_not_mem ?_ (by simp : s ∈ STree.ids (STree.mk s csS))
    rw [← hdecP]
    exact hndcs
  have hsmem : s ∈ STree.idsL csP := by
    rw [hdecP]
    rw [idsL_append, STree.idsL_cons, STree.idsL_cons]
    simp
  have hnmem : p.node ∈ STree.idsL csP := by
    rw [hdecP]
    rw [idsL_append, STree.idsL_cons, STree.idsL_cons]
    simp
  have hsne : s ≠ op := fun hc => hopnot (hc ▸ hsmem)
  have hsnn : s ≠ p.node := by
    intro hc
    refine hnnot ?_
    rw [idsL_append, idsL_append]
    simp only [STree.idsL_cons, STree.idsL_nil, List.mem_append]
    exact Or.inl (Or.inr (by rw [← hc]; simp))
  -- the filtered children list of op
  have hsl1 : ∀ c ∈ A' ++ B', STree.slotId c ≠ some s := by
    intro c hc hcx
    refine hsnot ?_
    have hcs : s ∈ STree.ids c := slot_mem_ids hcx
    rw [idsL_append]
    rcases List.mem_append.mp hc with h6 | h6
    · exact List.mem_append.mpr (Or.inl (STree.mem_idsL.mpr ⟨c, h6, hcs⟩))
    · exact List.mem_append.mpr (Or.inr (by
        rw [STree.idsL_cons]
        exact List.mem_append.mpr (Or.inr (STree.mem_idsL.mpr ⟨c, h6, hcs⟩))))
  have hfilter : dop.children.filter (fun x => x ≠ some s)
      = (A' ++ STree.mk p.node csb :: B').map STree.slotId := by
    rw [hdopc, hdecP, List.map_append, List.map_cons, List.map_cons,
      List.filter_append, List.filter_cons, List.filter_cons]
    have hA'f : (A'.map STree.slotId).filter (fun x => x ≠ some s)
        = A'.map STree.slotId := by
      refine List.filter_eq_self.mpr ?_
      intro a ha
      obtain ⟨c, hc, rfl⟩ := List.mem_map.mp ha
      simpa using hsl1 c (by simp [hc])
    have hB'f : (B'.map STree.slotId).filter (fun x => x ≠ some s)
        = B'.map STree.slotId := by
      refine List.filter_eq_self.mpr ?_
      intro a ha
      obtain ⟨c, hc, rfl⟩ := List.mem_map.mp ha
      simpa using hsl1 c (by simp [hc])
    simp only [STree.slotId, hA'f, hB'f, List.map_append, List.map_cons]
    simp [hsnn, Ne.symm hsnn]
  -- the new subtree at op
  have hperm : (STree.ids (STree.mk op
      (A' ++ STree.mk p.node (csb ++ [STree.mk s csS]) :: B'))).Perm
      (STree.ids (STree.mk op csP)) := by
    rw [hdecP]
    simp only [STree.ids_mk, idsL_append, STree.idsL_cons, STree.idsL_nil,
      List.append_nil]
    rw [List.perm_iff_count]
    intro a
    simp only [List.count_append, List.count_cons]
    omega
  have hndnew : (STree.ids (STree.mk op
      (A' ++ STree.mk p.node (csb ++ [STree.mk s csS]) :: B'))).Nodup :=
    (hperm.nodup_iff).mpr hndtx
  have hrun := AdoptSibling2_run hdn hop hdop hsib hds hne hsne hsnn
  have hlN : p.node < p.heap.length := getElem?_some_lt hdn
  have hlS : s < p.heap.length := getElem?_some_lt hds
  have k1 : (((p.heap.set op
      ⟨dop.parent, dop.children.filter (fun x => x ≠ some s), dop.payload⟩).set p.node
      ⟨some op, dn.children ++ [some s], dn.payload⟩).set s
      ⟨some p.node, ds.children, ds.payload⟩)[op]?
      = some ⟨dop.parent, dop.children.filter (fun x => x ≠ some s),
          dop.payload⟩ := by
    rw [List.getElem?_set_ne hsne, List.getElem?_set_ne hne,
      List.getElem?_set_eq (by simpa using getElem?_some_lt hdop)]
  have k2 : (((p.heap.set op
      ⟨dop.parent, dop.children.filter (fun x => x ≠ some s), dop.payload⟩).set p.node
      ⟨some op, dn.children ++ [some s], dn.payload⟩).set s
      ⟨some p.node, ds.children, ds.payload⟩)[p.node]?
      = some ⟨some op, dn.children ++ [some s], dn.payload⟩ := by
    rw [List.getElem?_set_ne hsnn, List.getElem?_set_eq (by simpa using hlN)]
  have k3 : (((p.heap.set op
      ⟨dop.parent, dop.children.filter (fun x => x ≠ some s), dop.payload⟩).set p.node
      ⟨some op, dn.children ++ [some s], dn.payload⟩).set s
      ⟨some p.node, ds.children, ds.payload⟩)[s]?
      = some ⟨some p.node, ds.children, ds.payload⟩ := by
    rw [List.getElem?_set_eq (by simpa using hlS)]
  have k4 : ∀ j, j ≠ p.node → j ≠ op → j ≠ s →
      (((p.heap.set op
      ⟨dop.parent, dop.children.filter (fun x => x ≠ some s), dop.payload⟩).set p.node
      ⟨some op, dn.children ++ [some s], dn.payload⟩).set s
      ⟨some p.node, ds.children, ds.payload⟩)[j]?
      = p.heap[j]? := by
    intro j hj1 hj2 hj3
    rw [List.getElem?_set_ne (Ne.symm hj3), List.getElem?_set_ne (Ne.symm hj1),
      List.getElem?_set_ne (Ne.symm hj2)]
  -- id membership helpers for the agreement arguments
  have hmemA'B' : ∀ c, c ∈ A' ++ B' → ∀ j ∈ STree.ids c,
      j ≠ p.node ∧ j ≠ op ∧ j ≠ s ∧ j ∈ STree.idsL csP := by
    intro c hc j hj
    have hjin : j ∈ STree.idsL ((A' ++ [STree.mk s csS]) ++ B') := by
      rw [idsL_append, idsL_append]
      rcases List.mem_append.mp hc with h6 | h6
      · exact List.mem_append.mpr (Or.inl (List.mem_append.mpr
          (Or.inl (STree.mem_idsL.mpr ⟨c, h6, hj⟩))))
      · exact List.mem_append.mpr (Or.inr (STree.mem_idsL.mpr ⟨c, h6, hj⟩))
    have hjin2 : j ∈ STree.idsL (A' ++ (STree.mk p.node csb :: B')) := by
      rw [idsL_append]
      rcases List.mem_append.mp hc with h6 | h6
      · exact List.mem_append.mpr (Or.inl (STree.mem_idsL.mpr ⟨c, h6, hj⟩))
      · exact List.mem_append.mpr (Or.inr (by
          rw [STree.idsL_cons]
          exact List.mem_append.mpr (Or.inr (STree.mem_idsL.mpr ⟨c, h6, hj⟩))))
    have hjcsP : j ∈ STree.idsL csP := by
      rw [hdecP, idsL_append, STree.idsL_cons, STree.idsL_cons]
      rcases List.mem_append.mp hc with h6 | h6
      · exact List.mem_append.mpr (Or.inl (STree.mem_idsL.mpr ⟨c, h6, hj⟩))
      · refine List.mem_append.mpr (Or.inr ?_)
        refine List.mem_append.mpr (Or.inr ?_)
        exact List.mem_append.mpr (Or.inr (STree.mem_idsL.mpr ⟨c, h6, hj⟩))
    exact ⟨fun hcon => hnnot (hcon ▸ hjin), fun hcon => hopnot (hcon ▸ hjcsP),
      fun hcon => hsnot (hcon ▸ hjin2), hjcsP⟩
  have hndcN : (STree.ids (STree.mk p.node csb)).Nodup := by
    have h5 : (STree.idsL ((A' ++ [STree.mk s csS]) ++ STree.mk p.node csb :: B')).Nodup := by
      rw [← hshape1]
      exact hndcs
    rw [idsL_append, STree.idsL_cons] at h5
    exact h5.of_append_right.of_append_left
  have hnnotb : p.node ∉ STree.idsL csb := by
    have h5 := hndcN
    rw [STree.ids_mk, List.nodup_cons] at h5
    exact h5.1
  have hndcS : (STree.ids (STree.mk s csS)).Nodup := by
    have h5 : (STree.idsL (A' ++ STree.mk s csS :: (STree.mk p.node csb :: B'))).Nodup := by
      rw [← hdecP]
      exact hndcs
    rw [idsL_append, STree.idsL_cons] at h5
    exact h5.of_append_right.of_append_left
  have hsnotS : s ∉ STree.idsL csS := by
    have h5 := hndcS
    rw [STree.ids_mk, List.nodup_cons] at h5
    exact h5.1
  have hcSsub : ∀ j ∈ STree.ids (STree.mk s csS), j ∈ STree.idsL csP := by
    intro j hj
    rw [hdecP, idsL_append, STree.idsL_cons]
    exact List.mem_append.mpr (Or.inr (List.mem_append.mpr (Or.inl hj)))
  have hcNsub : ∀ j ∈ STree.ids (STree.mk p.node csb), j ∈ STree.idsL csP := by
    intro j hj
    rw [hdecP, idsL_append, STree.idsL_cons, STree.idsL_cons]
    refine List.mem_append.mpr (Or.inr ?_)
    exact List.mem_append.mpr (Or.inr (List.mem_append.mpr (Or.inl hj)))
  have hcSdisj : ∀ j ∈ STree.ids (STree.mk s csS), j ∉ STree.ids (STree.mk p.node csb) := by
    intro j hj hj2
    have h5 : j ∉ STree.idsL (A' ++ (STree.mk p.node csb :: B')) := by
      refine sib_not_mem ?_ hj
      rw [← hdecP]
      exact hndcs
    refine h5 ?_
    rw [idsL_append, STree.idsL_cons]
    exact List.mem_append.mpr (Or.inr (List.mem_append.mpr (Or.inl hj2)))
  -- the new heap lays out the new op subtree
  have hrep' : STree.rep (((p.heap.set op
      ⟨dop.parent, dop.children.filter (fun x => x ≠ some s), dop.payload⟩).set p.node
      ⟨some op, dn.children ++ [some s], dn.payload⟩).set s
      ⟨some p.node, ds.children, ds.payload⟩) ppo
      (STree.mk op (A' ++ STree.mk p.node (csb ++ [STree.mk s csS]) :: B')) = true := by
    refine STree.rep_mk_iff.mpr ⟨_, k1, hdopp, hfilter.trans ?_, ?_⟩
    · simp [STree.slotId]
    · rw [STree.repL_iff]
      intro c hc
      rcases List.mem_append.mp hc with hc | hc
      · refine STree.rep_agree (STree.repL_iff.mp hrlP c (by rw [hdecP]; simp [hc])) ?_
        intro j hj
        obtain ⟨hjn, hjo, hjs, _⟩ := hmemA'B' c (List.mem_append.mpr (Or.inl hc)) j hj
        exact k4 j hjn hjo hjs
      · rcases List.mem_cons.mp hc with hc2 | hc2
        · subst hc2
          refine STree.rep_mk_iff.mpr ⟨_, k2, rfl, ?_, ?_⟩
          · rw [List.map_append, ← hd2c]
            simp [STree.slotId]
          · rw [STree.repL_iff]
            intro c' hc'
            rcases List.mem_append.mp hc' with hc3 | hc3
            · refine STree.rep_agree (STree.repL_iff.mp hrlb c' hc3) ?_
              intro j hj
              have hjb : j ∈ STree.ids (STree.mk p.node csb) := by
                rw [STree.ids_mk]
                exact List.mem_cons_of_mem _ (STree.mem_idsL.mpr ⟨c', hc3, hj⟩)
              refine k4 j (fun hcon => hnnotb (hcon ▸ STree.mem_idsL.mpr ⟨c', hc3, hj⟩))
                (fun hcon => hopnot (hcon ▸ hcNsub j hjb))
                (fun hcon => (hcSdisj s (by simp)) (hcon ▸ hjb))
            · have hc4 : c' = STree.mk s csS := by simpa using hc3
              subst hc4
              refine STree.rep_mk_iff.mpr ⟨_, k3, rfl, hdsc, ?_⟩
              rw [STree.repL_iff]
              intro c'' hc''
              refine STree.rep_agree (STree.repL_iff.mp hrls c'' hc'') ?_
              intro j hj
              have hjS : j ∈ STree.ids (STree.mk s csS) := by
                rw [STree.ids_mk]
                exact List.mem_cons_of_mem _ (STree.mem_idsL.mpr ⟨c'', hc'', hj⟩)
              refine k4 j (fun hcon => (hcSdisj j hjS) (by rw [hcon]; simp))
                (fun hcon => hopnot (hcon ▸ hcSsub j hjS))
                (fun hcon => hsnotS (hcon ▸ STree.mem_idsL.mpr ⟨c'', hc'', hj⟩))
        · have hc3 : c ∈ A' ++ B' := List.mem_append.mpr (Or.inr hc2)
          refine STree.rep_agree (STree.repL_iff.mp hrlP c (by rw [hdecP]; simp [hc2])) ?_
          intro j hj
          obtain ⟨hjn, hjo, hjs, _⟩ := hmemA'B' c hc3 j hj
          exact k4 j hjn hjo hjs
  rcases ppo with _ | g
  · -- op is the tree root: the new subtree replaces the whole tree
    have ht := locate_root hfP
    have hroot : p.treeRoot = op := by
      have h5 := hI.1
      rw [ht] at h5
      exact (Option.some.inj h5).symm
    refine ⟨_, STree.mk op (A' ++ STree.mk p.node (csb ++ [STree.mk s csS]) :: B'),
      hrun, ⟨by simp [hroot, STree.slotId], hrep', hndnew, by simp [idsL_append]⟩,
      ?_, rfl, rfl, rfl, rfl⟩
    rw [ht]
    exact hperm.length_eq
  · -- op has a parent g: replace op's subtree in place
    have hgmem := locate_parent_mem hI.2.2.1 hfP
    have hpairs := InvT_replace_nonroot hI hfP
      (rfl : STree.slotId (STree.mk op
        (A' ++ STree.mk p.node (csb ++ [STree.mk s csS]) :: B')) = some op)
      hrep' hndnew
      (fun j hj => Or.inl (hperm.subset hj))
      (show p.node ∈ STree.ids (STree.mk op
        (A' ++ STree.mk p.node (csb ++ [STree.mk s csS]) :: B')) by
        rw [STree.ids_mk, idsL_append, STree.idsL_cons]
        refine List.mem_cons_of_mem _ ?_
        refine List.mem_append.mpr (Or.inr (List.mem_append.mpr (Or.inl ?_)))
        simp)
      (fun j hj hjtx hjg => k4 j
        (fun hcon => hjtx (by
          rw [STree.ids_mk]
          exact List.mem_cons_of_mem _ (hcon ▸ hnmem)))
        (fun hcon => hjtx (by rw [hcon]; simp))
        (fun hcon => hjtx (by
          rw [STree.ids_mk]
          exact List.mem_cons_of_mem _ (hcon ▸ hsmem))))
      (fun dp hdp => by
        have hgno : g ≠ op := by
          intro hc
          exact hgmem.2 (by rw [hc]; simp)
        have hgnn2 : g ≠ p.node := by
          intro hc
          exact hgmem.2 (by
            rw [STree.ids_mk]
            exact List.mem_cons_of_mem _ (hc ▸ hnmem))
        have hgns : g ≠ s := by
          intro hc
          exact hgmem.2 (by
            rw [STree.ids_mk]
            exact List.mem_cons_of_mem _ (hc ▸ hsmem))
        rw [k4 g hgnn2 hgno hgns, hdp]
        refine congrArg some ?_
        refine congrArg (fun z => NodeData.mk dp.parent z dp.payload) ?_
        refine ((List.map_congr_left ?_).trans (List.map_id _)).symm
        intro a _
        by_cases hcase : a = some op <;> simp [hcase])
    obtain ⟨hInv', pre2, post2, heq2, hrepl2⟩ := hpairs
    refine ⟨_, STree.replaceAt op (STree.mk op
      (A' ++ STree.mk p.node (csb ++ [STree.mk s csS]) :: B')) t,
      hrun, hInv', ?_, rfl, rfl, rfl, rfl⟩
    rw [heq2, hrepl2]
    have hlen := hperm.length_eq
    simp only [STree.ids_mk, List.length_cons] at hlen
    simp only [STree.ids_mk, List.length_append, List.length_cons]
    omega

/-- `Parser2.RotateLeft` on a parentless cursor: the missing-node error,
parser returned unchanged. -/
theorem RotateLeft2_err {V : Type} {p : Parser2 V} {dn : NodeData V}
    (hdn : p.heap[p.node]? = some dn) (hop : dn.parent = none) :
    p.RotateLeft = some ((none, some .missingRequiredNode), p) := by
  simp only [Parser2.RotateLeft, hdn, hop, Option.bind_eq_bind, Option.some_bind]

/-- `Parser2.AdoptSibling` on a parentless cursor: the missing-node error,
parser returned unchanged. -/
theorem AdoptSibling2_err1 {V : Type} {p : Parser2 V} {dn : NodeData V}
    (hdn : p.heap[p.node]? = some dn) (hop : dn.parent = none) :
    p.AdoptSibling = some ((none, some .missingRequiredNode), p) := by
  simp only [Parser2.AdoptSibling, hdn, hop, Option.bind_eq_bind, Option.some_bind]

/-- `Parser2.AdoptSibling` when the sibling search comes back empty: the
missing-node error, parser returned unchanged. -/
theorem AdoptSibling2_err2 {V : Type} {p : Parser2 V} {dn dop : NodeData V}
    {op : Nat}
    (hdn : p.heap[p.node]? = some dn) (hop : dn.parent = some op)
    (hdop : p.heap[op]? = some dop)
    (hsib : Parser2.prevSibGo dop.children p.node none = none) :
    p.AdoptSibling = some ((none, some .missingRequiredNode), p) := by
  simp only [Parser2.AdoptSibling, hdn, hop, hdop, hsib,
    Option.bind_eq_bind, Option.some_bind]

/-- Under the invariant, the cursor's parent pointer names a live node. -/
theorem parent_live {V : Type} {p : Parser2 V} {t : STree} {dn : NodeData V}
    {op : Nat}
    (hI : InvT p.heap p.treeRoot p.node t) (hdn : p.heap[p.node]? = some dn)
    (hop : dn.parent = some op) : ∃ dop, p.heap[op]? = some dop := by
  obtain ⟨ppn, csn, dn', hfN, _, hdn', hdnp, _, _⟩ := locate hI hI.2.2.2
  rw [hdn] at hdn'
  injection hdn' with he
  subst he
  have hppn : ppn = some op := by rw [← hdnp, hop]
  subst hppn
  have hopmem := locate_parent_mem hI.2.2.1 hfN
  exact STree.rep_valid hI.2.1 op hopmem.1

/-! ## Claim C5: the semantics of the parent-promotion RotateLeft -/

/-- C5: on an invariant tree whose cursor node `n` has a parent `op`,
the parent-promotion `RotateLeft` succeeds returning `n`; the cursor still
denotes `n`; `n` takes `op`'s former position among the grandparent's
children (the slot is renamed in place, all other slots and their order
kept), or `n` becomes the new tree root exactly when `op` was the root;
`op` becomes the last child of `n`, after all of `n`'s pre-existing
children; `op` keeps all its other former children in their original
order; and every other node of the heap is untouched. -/
theorem claim_C5 {V : Type} (p : Parser2 V) (t : STree) (dn dop : NodeData V)
    (op : Nat)
    (hI : InvT p.heap p.treeRoot p.node t)
    (hdn : p.heap[p.node]? = some dn)
    (hop : dn.parent = some op)
    (hdop : p.heap[op]? = some dop) :
    ∃ p', p.RotateLeft = some ((some p.node, none), p') ∧
      p'.node = p.node ∧
      (∀ g dg, dop.parent = some g → p.heap[g]? = some dg →
        p'.heap[g]? = some ⟨dg.parent,
          dg.children.map (fun x => if x = some op then some p.node else x),
          dg.payload⟩) ∧
      (dop.parent = none ↔ p.treeRoot = op) ∧
      p'.treeRoot = (if p.treeRoot = op then p.node else p.treeRoot) ∧
      p'.heap[p.node]? = some ⟨dop.parent, dn.children ++ [some op], dn.payload⟩ ∧
      p'.heap[op]? = some ⟨some p.node,
        dop.children.filter (fun x => x ≠ some p.node), dop.payload⟩ ∧
      (∀ j, j ≠ p.node → j ≠ op → dop.parent ≠ some j →
        p'.heap[j]? = p.heap[j]?) := by
  obtain ⟨p', t', hrun, _, _, hnode, _, _, hroot, hiff, hk1, hk2, hkg, hkj⟩ :=
    RotateLeft2_spec hI hdn hop hdop
  refine ⟨p', hrun, hnode, ?_, hiff, hroot, hk1, hk2, hkj⟩
  intro g dg hg hdg
  rw [hkg g dg hg hdg]
  refine congrArg some ?_
  refine congrArg (fun z => NodeData.mk dg.parent z dg.payload) ?_
  refine List.map_congr_left ?_
  intro a _
  by_cases hcase : a = some op <;> simp [hcase]

/-- The concrete two-node parser for the C5 witness: root `0` with the
single child `1`, cursor at `1`. -/
def c5P : Parser2 Nat :=
  ⟨[⟨none, [some 1], 10⟩, ⟨some 0, [], 20⟩], 0, 1, none, []⟩

/-- Its decode tree. -/
def c5T : STree := .mk 0 [.mk 1 []]

theorem claim_C5_witness :
    (InvT c5P.heap c5P.treeRoot c5P.node c5T ∧
      c5P.heap[c5P.node]? = some ⟨some 0, [], 20⟩ ∧
      (⟨some 0, [], 20⟩ : NodeData Nat).parent = some 0 ∧
      c5P.heap[0]? = some ⟨none, [some 1], 10⟩) ∧
    ∃ p', c5P.RotateLeft = some ((some c5P.node, none), p') ∧
      p'.node = c5P.node ∧
      (∀ g dg, (⟨none, [some 1], 10⟩ : NodeData Nat).parent = some g →
        c5P.heap[g]? = some dg →
        p'.heap[g]? = some ⟨dg.parent,
          dg.children.map (fun x => if x = some 0 then some c5P.node else x),
          dg.payload⟩) ∧
      ((⟨none, [some 1], 10⟩ : NodeData Nat).parent = none ↔ c5P.treeRoot = 0) ∧
      p'.treeRoot = (if c5P.treeRoot = 0 then c5P.node else c5P.treeRoot) ∧
      p'.heap[c5P.node]? = some ⟨(⟨none, [some 1], 10⟩ : NodeData Nat).parent,
        ([] : List (Option Nat)) ++ [some 0], 20⟩ ∧
      p'.heap[0]? = some ⟨some c5P.node,
        ([some 1] : List (Option Nat)).filter (fun x => x ≠ some c5P.node), 10⟩ ∧
      (∀ j, j ≠ c5P.node → j ≠ 0 →
        (⟨none, [some 1], 10⟩ : NodeData Nat).parent ≠ some j →
        p'.heap[j]? = c5P.heap[j]?) :=
  ⟨⟨⟨rfl, rfl, by decide, by decide⟩, by decide, rfl, by decide⟩,
    claim_C5 c5P c5T ⟨some 0, [], 20⟩ ⟨none, [some 1], 10⟩ 0
      ⟨rfl, rfl, by decide, by decide⟩ (by decide) rfl (by decide)⟩

/-! ## Claim C6: the error cases of RotateLeft and AdoptSibling -/

/-- C6: on an invariant tree, `RotateLeft` with a parentless current node,
and `AdoptSibling` with a parentless current node or an empty
previous-sibling search, return the missing-required-node error and the
parser — heap, tree and cursor — byte-for-byte unchanged; and the error is
raised if and only if the required relative is absent. -/
theorem claim_C6 {V : Type} (p : Parser2 V) (t : STree) (dn : NodeData V)
    (hI : InvT p.heap p.treeRoot p.node t)
    (hdn : p.heap[p.node]? = some dn) :
    (dn.parent = none →
      p.RotateLeft = some ((none, some .missingRequiredNode), p)) ∧
    (dn.parent = none →
      p.AdoptSibling = some ((none, some .missingRequiredNode), p)) ∧
    (∀ op dop, dn.parent = some op → p.heap[op]? = some dop →
      Parser2.prevSibGo dop.children p.node none = none →
      p.AdoptSibling = some ((none, some .missingRequiredNode), p)) ∧
    ((∃ r p', p.RotateLeft = some ((r, some .missingRequiredNode), p')) ↔
      dn.parent = none) ∧
    ((∃ r p', p.AdoptSibling = some ((r, some .missingRequiredNode), p')) ↔
      (dn.parent = none ∨ ∃ op dop, dn.parent = some op ∧
        p.heap[op]? = some dop ∧
        Parser2.prevSibGo dop.children p.node none = none)) := by
  refine ⟨fun hop => RotateLeft2_err hdn hop,
    fun hop => AdoptSibling2_err1 hdn hop,
    fun op dop hop hdop hsib => AdoptSibling2_err2 hdn hop hdop hsib, ?_, ?_⟩
  · constructor
    · rintro ⟨r, p', herr⟩
      rcases hpar : dn.parent with _ | op
      · rfl
      · obtain ⟨dop, hdop⟩ := parent_live hI hdn hpar
        obtain ⟨p2, t2, hrun, _⟩ := RotateLeft2_spec hI hdn hpar hdop
        rw [hrun] at herr
        injection herr with h1
        injection h1 with h2 h2b
        injection h2 with h3 h4
        exact Option.noConfusion h4
    · intro hop
      exact ⟨none, p, RotateLeft2_err hdn hop⟩
  · constructor
    · rintro ⟨r, p', herr⟩
      rcases hpar : dn.parent with _ | op
      · exact Or.inl rfl
      · obtain ⟨dop, hdop⟩ := parent_live hI hdn hpar
        rcases hsib : Parser2.prevSibGo dop.children p.node none with _ | sId
        · exact Or.inr ⟨op, dop, rfl, hdop, hsib⟩
        · obtain ⟨p2, t2, hrun, _⟩ := AdoptSibling2_spec hI hdn hpar hdop hsib
          rw [hrun] at herr
          injection herr with h1
          injection h1 with h2 h2b
          injection h2 with h3 h4
          exact Option.noConfusion h4
    · rintro (hop | ⟨op, dop, hop, hdop, hsib⟩)
      · exact ⟨none, p, AdoptSibling2_err1 hdn hop⟩
      · exact ⟨none, p, AdoptSibling2_err2 hdn hop hdop hsib⟩

/-- The concrete parser for the C6 witness: the cursor is the root, so
both operations must fail without mutating anything. -/
def c6P : Parser2 Nat := ⟨[⟨none, [], 7⟩], 0, 0, none, []⟩

/-- Its decode tree. -/
def c6T : STree := .mk 0 []

theorem claim_C6_witness :
    (InvT c6P.heap c6P.treeRoot c6P.node c6T ∧
      c6P.heap[c6P.node]? = some ⟨none, [], 7⟩) ∧
    (((⟨none, [], 7⟩ : NodeData Nat).parent = none →
      c6P.RotateLeft = some ((none, some .missingRequiredNode), c6P)) ∧
    ((⟨none, [], 7⟩ : NodeData Nat).parent = none →
      c6P.AdoptSibling = some ((none, some .missingRequiredNode), c6P)) ∧
    (∀ op dop, (⟨none, [], 7⟩ : NodeData Nat).parent = some op →
      c6P.heap[op]? = some dop →
      Parser2.prevSibGo dop.children c6P.node none = none →
      c6P.AdoptSibling = some ((none, some .missingRequiredNode), c6P)) ∧
    ((∃ r p', c6P.RotateLeft = some ((r, some .missingRequiredNode), p')) ↔
      (⟨none, [], 7⟩ : NodeData Nat).parent = none) ∧
    ((∃ r p', c6P.AdoptSibling = some ((r, some .missingRequiredNode), p')) ↔
      ((⟨none, [], 7⟩ : NodeData Nat).parent = none ∨
        ∃ op dop, (⟨none, [], 7⟩ : NodeData Nat).parent = some op ∧
          c6P.heap[op]? = some dop ∧
          Parser2.prevSibGo dop.children c6P.node none = none))) :=
  ⟨⟨⟨rfl, rfl, by decide, by decide⟩, by decide⟩,
    claim_C6 c6P c6T ⟨none, [], 7⟩ ⟨rfl, rfl, by decide, by decide⟩ (by decide)⟩

/-! ## Parser1 operations under the invariant -/

/-- `Parser.Node` run and invariant preservation: the fresh node is
appended to the heap, becomes the last child of the cursor, and the
cursor and root stay; the decode tree gains exactly the fresh leaf. -/
theorem Node1_spec {V : Type} {p : Parser1 V} {t : STree}
    {d : NodeData (P1Data V)}
    (hI : InvT p.heap p.root p.node t)
    (hd : p.heap[p.node]? = some d) (v : V) :
    p.Node v = some (p.heap.length,
      { p with heap := ((p.heap ++ [(⟨some p.node, [], p.newNodeData v⟩ : NodeData (P1Data V))]).set p.node
          ⟨d.parent, d.children ++ [some p.heap.length], d.payload⟩) }) ∧
    ∃ t', InvT ((p.heap ++ [(⟨some p.node, [], p.newNodeData v⟩ : NodeData (P1Data V))]).set p.node
          ⟨d.parent, d.children ++ [some p.heap.length], d.payload⟩)
        p.root p.node t' ∧
      p.heap.length ∈ STree.ids t' := by
  have hlN : p.node < p.heap.length := getElem?_some_lt hd
  have hrun : p.Node v = some (p.heap.length,
      { p with heap := ((p.heap ++ [(⟨some p.node, [], p.newNodeData v⟩ : NodeData (P1Data V))]).set p.node
          ⟨d.parent, d.children ++ [some p.heap.length], d.payload⟩) }) := by
    simp only [Parser1.Node, hd, Option.bind_eq_bind, Option.some_bind]
  refine ⟨hrun, ?_⟩
  obtain ⟨pp, csn, d', hfN, hrepN, hd', hdp, hdc, hrlN⟩ := locate hI hI.2.2.2
  rw [hd] at hd'
  injection hd' with he
  subst he
  have hfresh : ∀ j ∈ STree.ids t, j < p.heap.length := InvT_lt hI
  have hmnot : p.heap.length ∉ STree.ids t :=
    fun hc => lt_irrefl _ (hfresh _ hc)
  have hsub : ∀ j ∈ STree.ids (STree.mk p.node csn), j ∈ STree.ids t :=
    (STree.findSub_shape hfN).2.1
  obtain ⟨preN, postN, heqN, hreplN, _⟩ := STree.findSub_split hI.2.2.1 hfN
  have hndN : (STree.ids (STree.mk p.node csn)).Nodup := by
    have h5 := hI.2.2.1
    rw [heqN] at h5
    exact h5.of_append_left.of_append_right
  have hcnot : p.node ∉ STree.idsL csn := by
    have h5 := hndN
    rw [STree.ids_mk, List.nodup_cons] at h5
    exact h5.1
  have k1 : ((p.heap ++ [(⟨some p.node, [], p.newNodeData v⟩ : NodeData (P1Data V))]).set p.node
      ⟨d.parent, d.children ++ [some p.heap.length], d.payload⟩)[p.node]?
      = some ⟨d.parent, d.children ++ [some p.heap.length], d.payload⟩ := by
    rw [List.getElem?_set_eq (by simp; omega)]
  have k2 : ((p.heap ++ [(⟨some p.node, [], p.newNodeData v⟩ : NodeData (P1Data V))]).set p.node
      ⟨d.parent, d.children ++ [some p.heap.length], d.payload⟩)[p.heap.length]?
      = some (⟨some p.node, [], p.newNodeData v⟩ : NodeData (P1Data V)) := by
    rw [List.getElem?_set_ne (by omega), List.getElem?_concat_length]
  have k3 : ∀ j, j ≠ p.node → j < p.heap.length →
      ((p.heap ++ [(⟨some p.node, [], p.newNodeData v⟩ : NodeData (P1Data V))]).set p.node
        ⟨d.parent, d.children ++ [some p.heap.length], d.payload⟩)[j]?
      = p.heap[j]? := by
    intro j hj1 hj2
    rw [List.getElem?_set_ne (Ne.symm hj1), List.getElem?_append_left hj2]
  have hids : STree.ids (STree.mk p.node
      (csn ++ [STree.mk p.heap.length []]))
      = STree.ids (STree.mk p.node csn) ++ [p.heap.length] := by
    rw [STree.ids_mk, STree.ids_mk, idsL_append]
    simp
  have hrep' : STree.rep ((p.heap ++ [(⟨some p.node, [], p.newNodeData v⟩ : NodeData (P1Data V))]).set p.node
      ⟨d.parent, d.children ++ [some p.heap.length], d.payload⟩) pp
      (STree.mk p.node (csn ++ [STree.mk p.heap.length []])) = true := by
    refine STree.rep_mk_iff.mpr ⟨_, k1, hdp, ?_, ?_⟩
    · rw [List.map_append, ← hdc]
      simp [STree.slotId]
    · rw [STree.repL_iff]
      intro c hc
      rcases List.mem_append.mp hc with hc | hc
      · refine STree.rep_agree (STree.repL_iff.mp hrlN c hc) ?_
        intro j hj
        have hjc : j ∈ STree.idsL csn := STree.mem_idsL.mpr ⟨c, hc, hj⟩
        refine k3 j (fun hcon => hcnot (hcon ▸ hjc)) ?_
        exact hfresh j (hsub j (by rw [STree.ids_mk]; exact List.mem_cons_of_mem _ hjc))
      · have hc2 : c = STree.mk p.heap.length [] := by simpa using hc
        subst hc2
        exact STree.rep_mk_iff.mpr ⟨_, k2, rfl, rfl, rfl⟩
  have hndnew : (STree.ids (STree.mk p.node
      (csn ++ [STree.mk p.heap.length []]))).Nodup := by
    rw [hids]
    refine List.Nodup.append hndN (by simp) ?_
    intro a ha hb
    have ha2 : a = p.heap.length := by simpa using hb
    subst ha2
    exact hmnot (hsub _ ha)
  have hmemnew : ∀ j ∈ STree.ids (STree.mk p.node
      (csn ++ [STree.mk p.heap.length []])),
      j ∈ STree.ids (STree.mk p.node csn) ∨ j ∉ STree.ids t := by
    intro j hj
    rw [hids] at hj
    rcases List.mem_append.mp hj with hj | hj
    · exact Or.inl hj
    · have hj2 : j = p.heap.length := by simpa using hj
      subst hj2
      exact Or.inr hmnot
  rcases pp with _ | g
  · -- the cursor is the root
    have ht := locate_root hfN
    have hroot : p.root = p.node := by
      have h5 := hI.1
      rw [ht] at h5
      exact (Option.some.inj h5).symm
    refine ⟨STree.mk p.node (csn ++ [STree.mk p.heap.length []]),
      ⟨by simp [hroot, STree.slotId], hrep', hndnew, by simp⟩, ?_⟩
    rw [hids]
    simp
  · -- the cursor has a parent g
    have hgmem := locate_parent_mem hI.2.2.1 hfN
    have hpairs := InvT_replace_nonroot hI hfN
      (rfl : STree.slotId (STree.mk p.node
        (csn ++ [STree.mk p.heap.length []])) = some p.node)
      hrep' hndnew hmemnew
      (show p.node ∈ STree.ids (STree.mk p.node
        (csn ++ [STree.mk p.heap.length []])) by simp)
      (fun j hj hjtx hjg => k3 j
        (fun hcon => hjtx (by rw [hcon]; simp)) (hfresh j hj))
      (fun dp hdp => by
        have hgnn : g ≠ p.node := by
          intro hc
          exact hgmem.2 (by rw [hc]; simp)
        rw [k3 g hgnn (hfresh g hgmem.1), hdp]
        refine congrArg some ?_
        refine congrArg (fun z => NodeData.mk dp.parent z dp.payload) ?_
        refine ((List.map_congr_left ?_).trans (List.map_id _)).symm
        intro a _
        by_cases hcase : a = some p.node <;> simp [hcase])
    obtain ⟨hInv', pre2, post2, heq2, hrepl2⟩ := hpairs
    refine ⟨_, hInv', ?_⟩
    rw [hrepl2, hids]
    simp

/-- Duplicate-free subtree ids give at most one child slot per id. -/
theorem slot_count_le_one {cs : List STree} {n : Nat}
    (hnd : (STree.idsL cs).Nodup) :
    (cs.map STree.slotId).count (some n) ≤ 1 := by
  induction cs with
  | nil => simp
  | cons c cr ih =>
    rw [STree.idsL_cons, List.nodup_append] at hnd
    obtain ⟨hnd1, hnd2, hdisj⟩ := hnd
    rw [List.map_cons, List.count_cons]
    have hcr := ih hnd2
    by_cases hc : STree.slotId c = some n
    · have hn1 : n ∈ STree.ids c := slot_mem_ids hc
      have hz : (cr.map STree.slotId).count (some n) = 0 := by
        by_contra hz
        have hpos : some n ∈ cr.map STree.slotId :=
          List.count_pos_iff.mp (Nat.pos_of_ne_zero hz)
        obtain ⟨csn, hcsn⟩ := slot_child_mem hpos
        exact (hdisj hn1) (STree.mem_idsL.mpr ⟨_, hcsn, by simp⟩)
      simp [hz, hc]
    · simpa [hc] using hcr

/-- With at most one occurrence, replacing the first match is replacing
every match. -/
theorem replaceFirst_eq_map {l : List (Option Nat)} {a b : Option Nat}
    (h : l.count a ≤ 1) :
    Parser1.replaceFirst l a b = l.map (fun c => if c = a then b else c) := by
  induction l with
  | nil => rfl
  | cons x r ih =>
    rw [Parser1.replaceFirst, List.map_cons]
    by_cases hx : x = a
    · rw [if_pos hx, if_pos hx]
      have hcnt : r.count a = 0 := by
        rw [List.count_cons] at h
        simp [hx] at h
        omega
      have hnot : a ∉ r := by
        intro hc
        have := List.count_pos_iff.mpr hc
        omega
      have hmap : r.map (fun c => if c = a then b else c) = r := by
        refine (List.map_congr_left ?_).trans (List.map_id _)
        intro c hc
        have hca : c ≠ a := fun hca => hnot (hca ▸ hc)
        simp [hca]
      rw [hmap]
    · rw [if_neg hx, if_neg hx]
      have h2 : r.count a ≤ 1 := by
        rw [List.count_cons] at h
        omega
      rw [ih h2]

/-- Running `reParentAll`: every node named by a child slot gets its parent
field set to `newPar`, everything else is untouched. -/
theorem reParentAll_spec {α : Type} {h h' : List (NodeData α)}
    {cs : List (Option Nat)} {m : Nat}
    (hrun : Parser1.reParentAll h cs m = some h') :
    (∀ x, some x ∉ cs → h'[x]? = h[x]?) ∧
    (∀ x, some x ∈ cs → ∃ dx, h[x]? = some dx ∧
      h'[x]? = some ⟨some m, dx.children, dx.payload⟩) := by
  induction cs generalizing h with
  | nil =>
    rw [Parser1.reParentAll] at hrun
    injection hrun with he
    subst he
    exact ⟨fun x _ => rfl, fun x hc => absurd hc (by simp)⟩
  | cons c rest ih =>
    rcases c with _ | j
    · rw [Parser1.reParentAll] at hrun
      exact Option.noConfusion hrun
    · rw [Parser1.reParentAll] at hrun
      rcases hdc : h[j]? with _ | dc
      · rw [hdc] at hrun
        exact Option.noConfusion hrun
      · rw [hdc] at hrun
        simp only [Option.bind_eq_bind, Option.some_bind] at hrun
        obtain ⟨ihA, ihB⟩ := ih hrun
        constructor
        · intro x hx
          have hx1 : x ≠ j := by
            intro hc
            exact hx (by simp [hc])
          have hx2 : some x ∉ rest := fun hc => hx (by simp [hc])
          rw [ihA x hx2, List.getElem?_set_ne (Ne.symm hx1)]
        · intro x hx
          by_cases hxr : some x ∈ rest
          · obtain ⟨dx, hdx, hdx'⟩ := ihB x hxr
            by_cases hxj : x = j
            · subst hxj
              rw [List.getElem?_set_eq (by simpa using getElem?_some_lt hdc)] at hdx
              injection hdx with he2
              subst he2
              exact ⟨dc, hdc, hdx'⟩
            · rw [List.getElem?_set_ne (Ne.symm hxj)] at hdx
              exact ⟨dx, hdx, hdx'⟩
          · have hxj : x = j := by
              rcases List.mem_cons.mp hx with h6 | h6
              · exact (Option.some.inj h6.symm).symm
              · exact absurd h6 hxr
            subst hxj
            refine ⟨dc, hdc, ?_⟩
            rw [ihA x hxr, List.getElem?_set_eq (by simpa using getElem?_some_lt hdc)]

/-- Re-rooting a child list: if the same children are laid out under a new
parent id — each child root's entry got its parent field set to the new id,
every deeper node untouched — the layout relation holds for the new id. -/
theorem rep_rename_root {α : Type} {h h' : List (NodeData α)} {cs : List STree}
    {oldId newId : Nat}
    (hrl : STree.repL h oldId cs = true)
    (hnd : (STree.idsL cs).Nodup)
    (hroots : ∀ j csj, STree.mk j csj ∈ cs → ∃ dj, h[j]? = some dj ∧
      h'[j]? = some ⟨some newId, dj.children, dj.payload⟩)
    (hdeep : ∀ j ∈ STree.idsL cs, (∀ csj, STree.mk j csj ∉ cs) →
      h'[j]? = h[j]?) :
    STree.repL h' newId cs = true := by
  induction cs with
  | nil => rfl
  | cons c cr ih =>
    rw [STree.idsL_cons, List.nodup_append] at hnd
    obtain ⟨hnd1, hnd2, hdisj⟩ := hnd
    rw [STree.repL, Bool.and_eq_true] at hrl ⊢
    constructor
    · rcases c with _ | ⟨j, csj⟩
      · rfl
      · obtain ⟨dj, hdj, hdj'⟩ := hroots j csj (by simp)
        obtain ⟨dj0, hdj0, _, hdj0c, hrlj⟩ := STree.rep_mk_iff.mp hrl.1
        rw [hdj] at hdj0
        injection hdj0 with he
        subst he
        refine STree.rep_mk_iff.mpr ⟨_, hdj', rfl, hdj0c, ?_⟩
        refine STree.repL_agree hrlj ?_
        intro j' hj'
        have hj'c : j' ∈ STree.ids (STree.mk j csj) := by
          rw [STree.ids_mk]
          exact List.mem_cons_of_mem _ hj'
        have hjnot : j ∉ STree.idsL csj := by
          have h5 := hnd1
          rw [STree.ids_mk, List.nodup_cons] at h5
          exact h5.1
        refine hdeep j' (by rw [STree.idsL_cons]; exact List.mem_append.mpr (Or.inl hj'c)) ?_
        intro csj' hcon
        rcases List.mem_cons.mp hcon with h6 | h6
        · have : j' = j := by
            have h7 := congrArg STree.slotId h6
            simpa [STree.slotId] using h7
          subst this
          exact hjnot hj'
        · have hj'cr : j' ∈ STree.idsL cr := STree.mem_idsL.mpr ⟨_, h6, by simp⟩
          exact (hdisj hj'c) hj'cr
    · refine ih hrl.2 hnd2 (fun j csj hj => hroots j csj (by simp [hj])) ?_
      intro j hj hnotin
      refine hdeep j (by rw [STree.idsL_cons]; exact List.mem_append.mpr (Or.inr hj)) ?_
      intro csj hcon
      rcases List.mem_cons.mp hcon with h6 | h6
      · have hroot : j ∈ STree.ids c := by
          rw [← h6]
          simp
        exact (hdisj hroot) hj
      · exact hnotin csj h6

/-- `Parser.Replace` preserves the invariant: the fresh node takes over the
cursor's position, parent link and children (each child re-parented onto
it), the cursor moves to it, and the root reference is updated when the
cursor was the root. -/
theorem Replace1_spec {V : Type} {p : Parser1 V} {t : STree} {val : V}
    {p' : Parser1 V} (v : V)
    (hI : InvT p.heap p.root p.node t)
    (hrun : p.Replace v = some (val, p')) :
    ∃ t', InvT p'.heap p'.root p'.node t' := by
  obtain ⟨pp, csn, dCur, hfN, hrepN, hd, hdp, hdc, hrlN⟩ := locate hI hI.2.2.2
  have hlN : p.node < p.heap.length := getElem?_some_lt hd
  have hfresh : ∀ j ∈ STree.ids t, j < p.heap.length := InvT_lt hI
  have hmnot : p.heap.length ∉ STree.ids t :=
    fun hc => lt_irrefl _ (hfresh _ hc)
  have hsub : ∀ j ∈ STree.ids (STree.mk p.node csn), j ∈ STree.ids t :=
    (STree.findSub_shape hfN).2.1
  obtain ⟨preN, postN, heqN, hreplN, _⟩ := STree.findSub_split hI.2.2.1 hfN
  have hndN : (STree.ids (STree.mk p.node csn)).Nodup := by
    have h5 := hI.2.2.1
    rw [heqN] at h5
    exact h5.of_append_left.of_append_right
  have hndcsn : (STree.idsL csn).Nodup := by
    have h5 := hndN
    rw [STree.ids_mk, List.nodup_cons] at h5
    exact h5.2
  have hcnot : p.node ∉ STree.idsL csn := by
    have h5 := hndN
    rw [STree.ids_mk, List.nodup_cons] at h5
    exact h5.1
  have hchildmem : ∀ j, some j ∈ dCur.children →
      j ∈ STree.idsL csn ∧ j ∈ STree.ids t := by
    intro j hj
    rw [hdc] at hj
    obtain ⟨csj, hcsj⟩ := slot_child_mem hj
    have hj2 : j ∈ STree.idsL csn := STree.mem_idsL.mpr ⟨_, hcsj, by simp⟩
    exact ⟨hj2, hsub j (by rw [STree.ids_mk]; exact List.mem_cons_of_mem _ hj2)⟩
  have hndnew : (STree.ids (STree.mk p.heap.length csn)).Nodup := by
    rw [STree.ids_mk, List.nodup_cons]
    refine ⟨?_, hndcsn⟩
    intro hc
    exact hmnot (hsub _ (by rw [STree.ids_mk]; exact List.mem_cons_of_mem _ hc))
  rcases pp with _ | par
  · -- the cursor is the root
    have hdpn : dCur.parent = none := hdp
    have ht := locate_root hfN
    have hroot : p.root = p.node := by
      have h5 := hI.1
      rw [ht] at h5
      exact (Option.some.inj h5).symm
    have e0 : (p.heap ++ [(⟨none, [], p.newNodeData v⟩ : NodeData (P1Data V))])[p.heap.length]?
        = some (⟨none, [], p.newNodeData v⟩ : NodeData (P1Data V)) :=
      List.getElem?_concat_length _ _
    rcases hrp : Parser1.reParentAll
        ((p.heap ++ [(⟨none, [], p.newNodeData v⟩ : NodeData (P1Data V))]).set p.heap.length
          ⟨none, dCur.children, p.newNodeData v⟩) dCur.children p.heap.length
        with _ | h3
    · have hnone : p.Replace v = none := by
        simp only [Parser1.Replace, hd, hdpn, e0, hrp,
          Option.bind_eq_bind, Option.some_bind, Option.none_bind]
      rw [hnone] at hrun
      exact Option.noConfusion hrun
    · have hrun2 : p.Replace v = some (dCur.payload.value,
          { p with heap := h3, node := p.heap.length,
                   root := if p.node = p.root then p.heap.length else p.root }) := by
        simp only [Parser1.Replace, hd, hdpn, e0, hrp,
          Option.bind_eq_bind, Option.some_bind, Option.none_bind]
      rw [hrun2] at hrun
      injection hrun with h1x
      injection h1x with hval hp'
      subst hp'
      obtain ⟨hA, hB⟩ := reParentAll_spec hrp
      have hMnot : some p.heap.length ∉ dCur.children := by
        intro hc
        exact hmnot (hchildmem _ hc).2
      have km : h3[p.heap.length]? = some ⟨none, dCur.children, p.newNodeData v⟩ := by
        rw [hA _ hMnot, List.getElem?_set_eq (by simp)]
      have hroots : ∀ j csj, STree.mk j csj ∈ csn → ∃ dj, p.heap[j]? = some dj ∧
          h3[j]? = some ⟨some p.heap.length, dj.children, dj.payload⟩ := by
        intro j csj hcsj
        have hjslot : some j ∈ dCur.children := by
          rw [hdc]
          exact List.mem_map.mpr ⟨_, hcsj, rfl⟩
        obtain ⟨dx, hdx, hdx'⟩ := hB j hjslot
        have hjlt : j < p.heap.length := hfresh j (hchildmem j hjslot).2
        rw [List.getElem?_set_ne (by omega), List.getElem?_append_left hjlt] at hdx
        exact ⟨dx, hdx, hdx'⟩
      have hdeep : ∀ j ∈ STree.idsL csn, (∀ csj, STree.mk j csj ∉ csn) →
          h3[j]? = p.heap[j]? := by
        intro j hj hnotroot
        have hjnot : some j ∉ dCur.children := by
          intro hc
          rw [hdc] at hc
          obtain ⟨csj, hcsj⟩ := slot_child_mem hc
          exact hnotroot csj hcsj
        have hjlt : j < p.heap.length :=
          hfresh j (hsub j (by rw [STree.ids_mk]; exact List.mem_cons_of_mem _ hj))
        rw [hA j hjnot, List.getElem?_set_ne (by omega),
          List.getElem?_append_left hjlt]
      have hrepnew : STree.rep h3 none (STree.mk p.heap.length csn) = true :=
        STree.rep_mk_iff.mpr ⟨_, km, rfl, hdc,
          rep_rename_root hrlN hndcsn hroots hdeep⟩
      refine ⟨STree.mk p.heap.length csn, ?_, hrepnew, hndnew, by simp⟩
      simp [STree.slotId, if_pos hroot.symm]
  · -- the cursor has a parent
    have hdps : dCur.parent = some par := hdp
    have hparmem := locate_parent_mem hI.2.2.1 hfN
    obtain ⟨ppPar, csPar, dPar, hfPar, _, hdPar, _, hdParc, _⟩ :=
      locate hI hparmem.1
    have hndPar : (STree.idsL csPar).Nodup := by
      obtain ⟨preQ, postQ, heqQ, _, _⟩ := STree.findSub_split hI.2.2.1 hfPar
      have h5 := hI.2.2.1
      rw [heqQ] at h5
      have h6 := h5.of_append_left.of_append_right
      rw [STree.ids_mk, List.nodup_cons] at h6
      exact h6.2
    have hcount : dPar.children.count (some p.node) ≤ 1 := by
      rw [hdParc]
      exact slot_count_le_one hndPar
    have hparlt : par < p.heap.length := hfresh par hparmem.1
    have hnr : p.node ≠ p.root := by
      intro hc
      have h5 : (some par : Option Nat) = none :=
        (located_root_iff hI.1 hfN).mpr hc
      exact Option.noConfusion h5
    have e1 : (p.heap ++ [(⟨some par, [], p.newNodeData v⟩ : NodeData (P1Data V))])[par]?
        = some dPar := by
      rw [List.getElem?_append_left hparlt]
      exact hdPar
    have e0 : ((p.heap ++ [(⟨some par, [], p.newNodeData v⟩ : NodeData (P1Data V))]).set par
        ⟨dPar.parent, Parser1.replaceFirst dPar.children (some p.node) (some p.heap.length),
          dPar.payload⟩)[p.heap.length]?
        = some (⟨some par, [], p.newNodeData v⟩ : NodeData (P1Data V)) := by
      rw [List.getElem?_set_ne (by omega), List.getElem?_concat_length]
    rcases hrp : Parser1.reParentAll
        (((p.heap ++ [(⟨some par, [], p.newNodeData v⟩ : NodeData (P1Data V))]).set par
          ⟨dPar.parent, Parser1.replaceFirst dPar.children (some p.node) (some p.heap.length),
            dPar.payload⟩).set p.heap.length
          ⟨some par, dCur.children, p.newNodeData v⟩) dCur.children p.heap.length
        with _ | h3
    · have hnone : p.Replace v = none := by
        simp only [Parser1.Replace, hd, hdps, e1, e0, hrp,
          Option.bind_eq_bind, Option.some_bind, Option.none_bind]
      rw [hnone] at hrun
      exact Option.noConfusion hrun
    · have hrun2 : p.Replace v = some (dCur.payload.value,
          { p with heap := h3, node := p.heap.length,
                   root := if p.node = p.root then p.heap.length else p.root }) := by
        simp only [Parser1.Replace, hd, hdps, e1, e0, hrp,
          Option.bind_eq_bind, Option.some_bind, Option.none_bind]
      rw [hrun2] at hrun
      injection hrun with h1x
      injection h1x with hval hp'
      subst hp'
      obtain ⟨hA, hB⟩ := reParentAll_spec hrp
      have hMnot : some p.heap.length ∉ dCur.children := by
        intro hc
        exact hmnot (hchildmem _ hc).2
      have hparnot : some par ∉ dCur.children := by
        intro hc
        exact hparmem.2 (by
          rw [STree.ids_mk]
          exact List.mem_cons_of_mem _ (hchildmem _ hc).1)
      have km : h3[p.heap.length]? = some ⟨some par, dCur.children, p.newNodeData v⟩ := by
        rw [hA _ hMnot, List.getElem?_set_eq (by simp)]
      have hroots : ∀ j csj, STree.mk j csj ∈ csn → ∃ dj, p.heap[j]? = some dj ∧
          h3[j]? = some ⟨some p.heap.length, dj.children, dj.payload⟩ := by
        intro j csj hcsj
        have hjslot : some j ∈ dCur.children := by
          rw [hdc]
          exact List.mem_map.mpr ⟨_, hcsj, rfl⟩
        obtain ⟨dx, hdx, hdx'⟩ := hB j hjslot
        have hjpar : j ≠ par := by
          intro hc
          exact hparmem.2 (by
            rw [STree.ids_mk]
            exact List.mem_cons_of_mem _ (hc ▸ (hchildmem j hjslot).1))
        have hjlt : j < p.heap.length := hfresh j (hchildmem j hjslot).2
        rw [List.getElem?_set_ne (by omega), List.getElem?_set_ne (Ne.symm hjpar),
          List.getElem?_append_left hjlt] at hdx
        exact ⟨dx, hdx, hdx'⟩
      have hdeep : ∀ j ∈ STree.idsL csn, (∀ csj, STree.mk j csj ∉ csn) →
          h3[j]? = p.heap[j]? := by
        intro j hj hnotroot
        have hjnot : some j ∉ dCur.children := by
          intro hc
          rw [hdc] at hc
          obtain ⟨csj, hcsj⟩ := slot_child_mem hc
          exact hnotroot csj hcsj
        have hjpar : j ≠ par := by
          intro hc
          exact hparmem.2 (by
            rw [STree.ids_mk]
            exact List.mem_cons_of_mem _ (hc ▸ hj))
        have hjlt : j < p.heap.length :=
          hfresh j (hsub j (by rw [STree.ids_mk]; exact List.mem_cons_of_mem _ hj))
        rw [hA j hjnot, List.getElem?_set_ne (by omega),
          List.getElem?_set_ne (Ne.symm hjpar), List.getElem?_append_left hjlt]
      have hrepnew : STree.rep h3 (some par) (STree.mk p.heap.length csn) = true :=
        STree.rep_mk_iff.mpr ⟨_, km, rfl, hdc,
          rep_rename_root hrlN hndcsn hroots hdeep⟩
      have hpairs := InvT_replace_nonroot hI hfN
        (rfl : STree.slotId (STree.mk p.heap.length csn) = some p.heap.length)
        hrepnew hndnew
        (fun j hj => by
          rw [STree.ids_mk] at hj
          rcases List.mem_cons.mp hj with hj | hj
          · subst hj
            exact Or.inr hmnot
          · exact Or.inl (by rw [STree.ids_mk]; exact List.mem_cons_of_mem _ hj))
        (show p.heap.length ∈ STree.ids (STree.mk p.heap.length csn) by simp)
        (fun j hj hjtx hjg => by
          have hjnot : some j ∉ dCur.children := by
            intro hc
            exact hjtx (by
              rw [STree.ids_mk]
              exact List.mem_cons_of_mem _ (hchildmem _ hc).1)
          have hjlt : j < p.heap.length := hfresh j hj
          rw [hA j hjnot, List.getElem?_set_ne (by omega),
            List.getElem?_set_ne (Ne.symm hjg), List.getElem?_append_left hjlt])
        (fun dp hdp2 => by
          rw [hdPar] at hdp2
          injection hdp2 with he5
          subst he5
          rw [hA par hparnot, List.getElem?_set_ne (by omega),
            List.getElem?_set_eq (by simp; omega),
            replaceFirst_eq_map hcount])
      obtain ⟨hInv', _, _, _, _⟩ := hpairs
      refine ⟨STree.replaceAt p.node (STree.mk p.heap.length csn) t, ?_⟩
      have hite : (if p.node = p.root then p.heap.length else p.root) = p.root :=
        if_neg hnr
      show InvT h3 (if p.node = p.root then p.heap.length else p.root) p.heap.length
        (STree.replaceAt p.node (STree.mk p.heap.length csn) t)
      rw [hite]
      exact hInv'

/-- A `some` value of `Children[1]` (Go's `Right()`) splits the child list
at index 1. -/
theorem children_split_at1 {cs : List STree} {q : Nat}
    (h : (cs.map STree.slotId).getD 1 none = some q) :
    ∃ c0 c1 csR, cs = c0 :: c1 :: csR ∧ STree.slotId c1 = some q := by
  match cs with
  | [] => exact absurd h (by simp)
  | [c0] => exact absurd h (by simp [List.getD])
  | c0 :: c1 :: csR =>
    refine ⟨c0, c1, csR, rfl, ?_⟩
    simpa [List.getD] using h

/-- A `some` value of `Children[0]` (Go's `Left()`) splits the child list
at index 0. -/
theorem children_split_at0 {cs : List STree} {q : Nat}
    (h : (cs.map STree.slotId).getD 0 none = some q) :
    ∃ c0 csR, cs = c0 :: csR ∧ STree.slotId c0 = some q := by
  match cs with
  | [] => exact absurd h (by simp)
  | c0 :: csR =>
    refine ⟨c0, csR, rfl, ?_⟩
    simpa [List.getD] using h

/-- The binary `Parser.RotateLeft` on an invariant tree when the cursor
has a right child `q` that itself has a left child `b`: success with the
cursor moved to `q`, invariant preserved, node count unchanged. -/
theorem RotateLeft1_spec {V : Type} {p : Parser1 V} {t : STree}
    {dP dQ : NodeData (P1Data V)} {q b : Nat}
    (hI : InvT p.heap p.root p.node t)
    (hdP : p.heap[p.node]? = some dP)
    (hq : dP.right = some q)
    (hdQ : p.heap[q]? = some dQ)
    (hb : dQ.left = some b) :
    ∃ p', p.RotateLeft = some (q, p') ∧ p'.node = q ∧
      ∃ t', InvT p'.heap p'.root p'.node t' ∧
        (STree.ids t').length = (STree.ids t).length := by
  obtain ⟨pp, csP, dP', hfN, _, hdP', hdp, hdc, hrlP⟩ := locate hI hI.2.2.2
  rw [hdP] at hdP'
  injection hdP' with he
  subst he
  have hqD := hq
  rw [NodeData.right, hdc] at hqD
  obtain ⟨c0, cQ, csR, hsplitP, hslotQ⟩ := children_split_at1 hqD
  obtain ⟨csq, rfl⟩ : ∃ csq, cQ = STree.mk q csq := by
    rcases cQ with _ | ⟨i, l⟩
    · exact Option.noConfusion hslotQ
    · exact ⟨l, by rw [Option.some.inj hslotQ]⟩
  have hrepQ : STree.rep p.heap (some p.node) (STree.mk q csq) = true :=
    STree.repL_iff.mp hrlP _ (by rw [hsplitP]; simp)
  obtain ⟨dQ0, hdQ0, hdQp, hdQc, hrlq⟩ := STree.rep_mk_iff.mp hrepQ
  rw [hdQ] at hdQ0
  injection hdQ0 with he2
  subst he2
  have hbD := hb
  rw [NodeData.left, hdQc] at hbD
  obtain ⟨cB, csqR, hsplitq, hslotB⟩ := children_split_at0 hbD
  obtain ⟨csbb, rfl⟩ : ∃ csbb, cB = STree.mk b csbb := by
    rcases cB with _ | ⟨i, l⟩
    · exact Option.noConfusion hslotB
    · exact ⟨l, by rw [Option.some.inj hslotB]⟩
  have hrepB : STree.rep p.heap (some q) (STree.mk b csbb) = true :=
    STree.repL_iff.mp hrlq _ (by rw [hsplitq]; simp)
  obtain ⟨db, hdb, hdbp, hdbc, hrlb⟩ := STree.rep_mk_iff.mp hrepB
  obtain ⟨preN, postN, heqN, hreplN, _⟩ := STree.findSub_split hI.2.2.1 hfN
  have hndtx : (STree.ids (STree.mk p.node csP)).Nodup := by
    have h5 := hI.2.2.1
    rw [heqN] at h5
    exact h5.of_append_left.of_append_right
  have hpnot : p.node ∉ STree.idsL csP := by
    have h5 := hndtx
    rw [STree.ids_mk, List.nodup_cons] at h5
    exact h5.1
  have hndcsP : (STree.idsL csP).Nodup := by
    have h5 := hndtx
    rw [STree.ids_mk, List.nodup_cons] at h5
    exact h5.2
  have hndcsP2 : (STree.idsL ([c0] ++ STree.mk q csq :: csR)).Nodup := by
    have h5 : [c0] ++ STree.mk q csq :: csR = csP := by
      rw [List.singleton_append, hsplitP]
    rw [h5]
    exact hndcsP
  have hndQ : (STree.ids (STree.mk q csq)).Nodup := by
    have h5 := hndcsP
    rw [hsplitP, STree.idsL_cons, STree.idsL_cons] at h5
    exact h5.of_append_right.of_append_left
  have hqnot : q ∉ STree.idsL csq := by
    have h5 := hndQ
    rw [STree.ids_mk, List.nodup_cons] at h5
    exact h5.1
  have hndcsq : (STree.idsL csq).Nodup := by
    have h5 := hndQ
    rw [STree.ids_mk, List.nodup_cons] at h5
    exact h5.2
  have hndq2 : (STree.idsL (([] : List STree) ++ STree.mk b csbb :: csqR)).Nodup := by
    have h5 : ([] : List STree) ++ STree.mk b csbb :: csqR = csq := by
      rw [List.nil_append, hsplitq]
    rw [h5]
    exact hndcsq
  have hndB : (STree.ids (STree.mk b csbb)).Nodup := by
    have h5 := hndcsq
    rw [hsplitq, STree.idsL_cons] at h5
    exact h5.of_append_left
  have hbnot : b ∉ STree.idsL csbb := by
    have h5 := hndB
    rw [STree.ids_mk, List.nodup_cons] at h5
    exact h5.1
  have hqmem : q ∈ STree.idsL csP := by
    rw [hsplitP, STree.idsL_cons, STree.idsL_cons]
    exact List.mem_append.mpr (Or.inr (List.mem_append.mpr (Or.inl (by simp))))
  have hbinq : b ∈ STree.idsL csq := by
    rw [hsplitq, STree.idsL_cons]
    exact List.mem_append.mpr (Or.inl (by simp))
  have hbmemq : b ∈ STree.ids (STree.mk q csq) := by
    rw [STree.ids_mk]
    exact List.mem_cons_of_mem _ hbinq
  have hbmem : b ∈ STree.idsL csP := by
    rw [hsplitP, STree.idsL_cons, STree.idsL_cons]
    exact List.mem_append.mpr (Or.inr (List.mem_append.mpr (Or.inl hbmemq)))
  have hpq : p.node ≠ q := fun hc => hpnot (hc ▸ hqmem)
  have hpb : p.node ≠ b := fun hc => hpnot (hc ▸ hbmem)
  have hqb : q ≠ b := fun hc => hqnot (hc ▸ hbinq)
  have hqsib : ∀ n ∈ STree.ids (STree.mk q csq), n ∉ STree.idsL ([c0] ++ csR) :=
    fun n hn => sib_not_mem hndcsP2 hn
  have hbsib : ∀ n ∈ STree.ids (STree.mk b csbb),
      n ∉ STree.idsL (([] : List STree) ++ csqR) :=
    fun n hn => sib_not_mem hndq2 hn
  have hlN : p.node < p.heap.length := getElem?_some_lt hdP
  have hlQ : q < p.heap.length := getElem?_some_lt hdQ
  have hlB : b < p.heap.length := getElem?_some_lt hdb
  have hlen2 : 2 ≤ dP.children.length := by
    rw [hdc, hsplitP]
    simp
  have hpad2 : dP.children ++ List.replicate (2 - dP.children.length)
      (none : Option Nat) = dP.children := by
    have h5 : 2 - dP.children.length = 0 := by omega
    simp [h5]
  have hlen1 : 1 ≤ dQ.children.length := by
    rw [hdQc, hsplitq]
    simp
  have hpad1 : dQ.children ++ List.replicate (1 - dQ.children.length)
      (none : Option Nat) = dQ.children := by
    have h5 : 1 - dQ.children.length = 0 := by omega
    simp [h5]
  have hperm : (STree.ids (STree.mk q
      (STree.mk p.node (c0 :: STree.mk b csbb :: csR) :: csqR))).Perm
      (STree.ids (STree.mk p.node csP)) := by
    rw [hsplitP, hsplitq]
    simp only [STree.ids_mk, STree.idsL_cons, idsL_append, STree.idsL_nil,
      List.append_nil]
    rw [List.perm_iff_count]
    intro a
    simp only [List.count_append, List.count_cons]
    omega
  have hndnew := hperm.nodup_iff.mpr hndtx
  have hrepgen : ∀ (h5 : List (NodeData (P1Data V))) (pp2 : Option Nat),
      h5[q]? = some ⟨pp2, dQ.children.set 0 (some p.node), dQ.payload⟩ →
      h5[p.node]? = some ⟨some q, dP.children.set 1 (some b), dP.payload⟩ →
      h5[b]? = some ⟨some p.node, db.children, db.payload⟩ →
      (∀ j ∈ STree.idsL csP, j ≠ p.node → j ≠ q → j ≠ b → h5[j]? = p.heap[j]?) →
      STree.rep h5 pp2 (STree.mk q
        (STree.mk p.node (c0 :: STree.mk b csbb :: csR) :: csqR)) = true := by
    intro h5 pp2 kq kp kb k4
    refine STree.rep_mk_iff.mpr ⟨_, kq, rfl, ?_, ?_⟩
    · rw [hdQc, hsplitq]
      simp [STree.slotId]
    · rw [STree.repL_iff]
      intro c hc
      rcases List.mem_cons.mp hc with hc | hc
      · subst hc
        refine STree.rep_mk_iff.mpr ⟨_, kp, rfl, ?_, ?_⟩
        · rw [hdc, hsplitP]
          simp [STree.slotId]
        · rw [STree.repL_iff]
          intro c' hc'
          rcases List.mem_cons.mp hc' with hc' | hc'
          · subst hc'
            refine STree.rep_agree
              (STree.repL_iff.mp hrlP c' (by rw [hsplitP]; simp)) ?_
            intro j hj
            have hjP : j ∈ STree.idsL csP := by
              rw [hsplitP, STree.idsL_cons]
              exact List.mem_append.mpr (Or.inl hj)
            have hj0 : j ∈ STree.idsL ([c'] ++ csR) := by
              rw [idsL_append]
              exact List.mem_append.mpr (Or.inl (by simpa using hj))
            refine k4 j hjP (fun hcon => hpnot (hcon ▸ hjP)) ?_ ?_
            · intro hcon
              exact (hqsib q (by simp)) (hcon ▸ hj0)
            · intro hcon
              exact (hqsib b hbmemq) (hcon ▸ hj0)
          · rcases List.mem_cons.mp hc' with hc' | hc'
            · subst hc'
              refine STree.rep_mk_iff.mpr ⟨_, kb, rfl, hdbc, ?_⟩
              refine STree.repL_agree hrlb ?_
              intro j hj
              have hjB : j ∈ STree.ids (STree.mk b csbb) := by
                rw [STree.ids_mk]
                exact List.mem_cons_of_mem _ hj
              have hjq : j ∈ STree.idsL csq := by
                rw [hsplitq, STree.idsL_cons]
                exact List.mem_append.mpr (Or.inl hjB)
              have hjP : j ∈ STree.idsL csP := by
                rw [hsplitP, STree.idsL_cons, STree.idsL_cons]
                refine List.mem_append.mpr (Or.inr (List.mem_append.mpr (Or.inl ?_)))
                rw [STree.ids_mk]
                exact List.mem_cons_of_mem _ hjq
              refine k4 j hjP (fun hcon => hpnot (hcon ▸ hjP))
                (fun hcon => hqnot (hcon ▸ hjq)) ?_
              intro hcon
              exact hbnot (hcon ▸ hj)
            · refine STree.rep_agree
                (STree.repL_iff.mp hrlP c' (by rw [hsplitP]; simp [hc'])) ?_
              intro j hj
              have hjR : j ∈ STree.idsL ([c0] ++ csR) := by
                rw [idsL_append]
                exact List.mem_append.mpr (Or.inr (STree.mem_idsL.mpr ⟨c', hc', hj⟩))
              have hjP : j ∈ STree.idsL csP := by
                rw [hsplitP, STree.idsL_cons, STree.idsL_cons]
                exact List.mem_append.mpr (Or.inr (List.mem_append.mpr
                  (Or.inr (STree.mem_idsL.mpr ⟨c', hc', hj⟩))))
              refine k4 j hjP (fun hcon => hpnot (hcon ▸ hjP)) ?_ ?_
              · intro hcon
                exact (hqsib q (by simp)) (hcon ▸ hjR)
              · intro hcon
                exact (hqsib b hbmemq) (hcon ▸ hjR)
      · refine STree.rep_agree
          (STree.repL_iff.mp hrlq c (by rw [hsplitq]; simp [hc])) ?_
        intro j hj
        have hjq : j ∈ STree.idsL csq := by
          rw [hsplitq, STree.idsL_cons]
          exact List.mem_append.mpr (Or.inr (STree.mem_idsL.mpr ⟨c, hc, hj⟩))
        have hjP : j ∈ STree.idsL csP := by
          rw [hsplitP, STree.idsL_cons, STree.idsL_cons]
          refine List.mem_append.mpr (Or.inr (List.mem_append.mpr (Or.inl ?_)))
          rw [STree.ids_mk]
          exact List.mem_cons_of_mem _ hjq
        refine k4 j hjP (fun hcon => hpnot (hcon ▸ hjP))
          (fun hcon => hqnot (hcon ▸ hjq)) ?_
        intro hcon
        refine (hbsib b (by simp)) ?_
        rw [List.nil_append]
        exact hcon ▸ (STree.mem_idsL.mpr ⟨c, hc, hj⟩)
  rcases pp with _ | par
  · -- the cursor is the root: q becomes the new root
    have hdpn : dP.parent = none := hdp
    have ht := locate_root hfN
    have hroot : p.root = p.node := by
      have h5 := hI.1
      rw [ht] at h5
      exact (Option.some.inj h5).symm
    have ex1 : (p.heap.set p.node
        ⟨none, dP.children.set 1 (some b), dP.payload⟩)[b]? = some db := by
      rw [List.getElem?_set_ne hpb]
      exact hdb
    have ex2 : ((p.heap.set p.node
        ⟨none, dP.children.set 1 (some b), dP.payload⟩).set b
        ⟨some p.node, db.children, db.payload⟩)[q]? = some dQ := by
      rw [List.getElem?_set_ne (Ne.symm hqb), List.getElem?_set_ne hpq]
      exact hdQ
    have ex3 : (((p.heap.set p.node
        ⟨none, dP.children.set 1 (some b), dP.payload⟩).set b
        ⟨some p.node, db.children, db.payload⟩).set q
        ⟨dQ.parent, dQ.children.set 0 (some p.node), dQ.payload⟩)[p.node]?
        = some ⟨none, dP.children.set 1 (some b), dP.payload⟩ := by
      rw [List.getElem?_set_ne (Ne.symm hpq), List.getElem?_set_ne (Ne.symm hpb),
        List.getElem?_set_eq (by simpa using hlN)]
    have ex4 : ((((p.heap.set p.node
        ⟨none, dP.children.set 1 (some b), dP.payload⟩).set b
        ⟨some p.node, db.children, db.payload⟩).set q
        ⟨dQ.parent, dQ.children.set 0 (some p.node), dQ.payload⟩).set p.node
        ⟨some q, dP.children.set 1 (some b), dP.payload⟩)[q]?
        = some ⟨dQ.parent, dQ.children.set 0 (some p.node), dQ.payload⟩ := by
      rw [List.getElem?_set_ne hpq, List.getElem?_set_eq (by simpa using hlQ)]
    have hrun : p.RotateLeft = some (q,
        { p with
          heap := (((((p.heap.set p.node
            ⟨none, dP.children.set 1 (some b), dP.payload⟩).set b
            ⟨some p.node, db.children, db.payload⟩).set q
            ⟨dQ.parent, dQ.children.set 0 (some p.node), dQ.payload⟩).set p.node
            ⟨some q, dP.children.set 1 (some b), dP.payload⟩).set q
            ⟨none, dQ.children.set 0 (some p.node), dQ.payload⟩),
          node := q,
          root := if p.node = p.root then q else p.root }) := by
      simp only [Parser1.RotateLeft, setRight, setLeft,
        hdP, hq, hdQ, hb, hdpn, hpad2, hpad1, ex1, ex2, ex3, ex4,
        Option.bind_eq_bind, Option.some_bind]
    have kq : ((((((p.heap.set p.node
        ⟨none, dP.children.set 1 (some b), dP.payload⟩).set b
        ⟨some p.node, db.children, db.payload⟩).set q
        ⟨dQ.parent, dQ.children.set 0 (some p.node), dQ.payload⟩).set p.node
        ⟨some q, dP.children.set 1 (some b), dP.payload⟩).set q
        ⟨none, dQ.children.set 0 (some p.node), dQ.payload⟩))[q]?
        = some ⟨none, dQ.children.set 0 (some p.node), dQ.payload⟩ := by
      rw [List.getElem?_set_eq (by simpa using hlQ)]
    have kp : ((((((p.heap.set p.node
        ⟨none, dP.children.set 1 (some b), dP.payload⟩).set b
        ⟨some p.node, db.children, db.payload⟩).set q
        ⟨dQ.parent, dQ.children.set 0 (some p.node), dQ.payload⟩).set p.node
        ⟨some q, dP.children.set 1 (some b), dP.payload⟩).set q
        ⟨none, dQ.children.set 0 (some p.node), dQ.payload⟩))[p.node]?
        = some ⟨some q, dP.children.set 1 (some b), dP.payload⟩ := by
      rw [List.getElem?_set_ne (Ne.symm hpq), List.getElem?_set_eq (by simpa using hlN)]
    have kb : ((((((p.heap.set p.node
        ⟨none, dP.children.set 1 (some b), dP.payload⟩).set b
        ⟨some p.node, db.children, db.payload⟩).set q
        ⟨dQ.parent, dQ.children.set 0 (some p.node), dQ.payload⟩).set p.node
        ⟨some q, dP.children.set 1 (some b), dP.payload⟩).set q
        ⟨none, dQ.children.set 0 (some p.node), dQ.payload⟩))[b]?
        = some ⟨some p.node, db.children, db.payload⟩ := by
      rw [List.getElem?_set_ne hqb, List.getElem?_set_ne hpb,
        List.getElem?_set_ne hqb, List.getElem?_set_eq (by simpa using hlB)]
    have k4 : ∀ j, j ≠ p.node → j ≠ q → j ≠ b →
        ((((((p.heap.set p.node
        ⟨none, dP.children.set 1 (some b), dP.payload⟩).set b
        ⟨some p.node, db.children, db.payload⟩).set q
        ⟨dQ.parent, dQ.children.set 0 (some p.node), dQ.payload⟩).set p.node
        ⟨some q, dP.children.set 1 (some b), dP.payload⟩).set q
        ⟨none, dQ.children.set 0 (some p.node), dQ.payload⟩))[j]?
        = p.heap[j]? := by
      intro j hj1 hj2 hj3
      rw [List.getElem?_set_ne (Ne.symm hj2), List.getElem?_set_ne (Ne.symm hj1),
        List.getElem?_set_ne (Ne.symm hj2), List.getElem?_set_ne (Ne.symm hj3),
        List.getElem?_set_ne (Ne.symm hj1)]
    refine ⟨_, hrun, rfl, STree.mk q
      (STree.mk p.node (c0 :: STree.mk b csbb :: csR) :: csqR),
      ⟨?_, hrepgen _ none kq kp kb (fun j _ => k4 j), hndnew, by simp⟩, ?_⟩
    · simp [STree.slotId, if_pos hroot.symm]
    · rw [ht]
      exact hperm.length_eq
  · -- the cursor has a parent
    have hdps : dP.parent = some par := hdp
    have hparmem := locate_parent_mem hI.2.2.1 hfN
    have hparp : par ≠ p.node := by
      intro hc
      exact hparmem.2 (by rw [hc]; simp)
    have hparq : par ≠ q := by
      intro hc
      exact hparmem.2 (by
        rw [STree.ids_mk]
        exact List.mem_cons_of_mem _ (hc ▸ hqmem))
    have hparb : par ≠ b := by
      intro hc
      exact hparmem.2 (by
        rw [STree.ids_mk]
        exact List.mem_cons_of_mem _ (hc ▸ hbmem))
    obtain ⟨ppPar, csPar, dPar, hfPar, _, hdPar, _, hdParc, _⟩ :=
      locate hI hparmem.1
    have hndPar : (STree.idsL csPar).Nodup := by
      obtain ⟨preQ, postQ, heqQ, _, _⟩ := STree.findSub_split hI.2.2.1 hfPar
      have h5 := hI.2.2.1
      rw [heqQ] at h5
      have h6 := h5.of_append_left.of_append_right
      rw [STree.ids_mk, List.nodup_cons] at h6
      exact h6.2
    have hcurslot : some p.node ∈ dPar.children := by
      rcases findSub_parent_slot hI.2.1 hfN with ⟨hpp, _⟩ |
        ⟨pid, dpid, hpid, hdpid, hsl⟩
      · exact Option.noConfusion hpp
      · have hpid2 : pid = par := by
          injection hpid with h2
          exact h2.symm
        subst hpid2
        rw [hdPar] at hdpid
        injection hdpid with he3
        rw [he3]
        exact hsl
    have hcont : dPar.children.contains (some p.node) = true :=
      List.elem_eq_true_of_mem hcurslot
    have hlPar : par < p.heap.length := getElem?_some_lt hdPar
    have hnr : p.node ≠ p.root := by
      intro hc
      have h5 : (some par : Option Nat) = none :=
        (located_root_iff hI.1 hfN).mpr hc
      exact Option.noConfusion h5
    have ex1 : (p.heap.set p.node
        ⟨some par, dP.children.set 1 (some b), dP.payload⟩)[b]? = some db := by
      rw [List.getElem?_set_ne hpb]
      exact hdb
    have ex2 : ((p.heap.set p.node
        ⟨some par, dP.children.set 1 (some b), dP.payload⟩).set b
        ⟨some p.node, db.children, db.payload⟩)[q]? = some dQ := by
      rw [List.getElem?_set_ne (Ne.symm hqb), List.getElem?_set_ne hpq]
      exact hdQ
    have ex3 : (((p.heap.set p.node
        ⟨some par, dP.children.set 1 (some b), dP.payload⟩).set b
        ⟨some p.node, db.children, db.payload⟩).set q
        ⟨dQ.parent, dQ.children.set 0 (some p.node), dQ.payload⟩)[p.node]?
        = some ⟨some par, dP.children.set 1 (some b), dP.payload⟩ := by
      rw [List.getElem?_set_ne (Ne.symm hpq), List.getElem?_set_ne (Ne.symm hpb),
        List.getElem?_set_eq (by simpa using hlN)]
    have ex4p : ((((p.heap.set p.node
        ⟨some par, dP.children.set 1 (some b), dP.payload⟩).set b
        ⟨some p.node, db.children, db.payload⟩).set q
        ⟨dQ.parent, dQ.children.set 0 (some p.node), dQ.payload⟩).set p.node
        ⟨some q, dP.children.set 1 (some b), dP.payload⟩)[par]? = some dPar := by
      rw [List.getElem?_set_ne (Ne.symm hparp), List.getElem?_set_ne (Ne.symm hparq),
        List.getElem?_set_ne (Ne.symm hparb), List.getElem?_set_ne (Ne.symm hparp)]
      exact hdPar
    have ex5 : (((((p.heap.set p.node
        ⟨some par, dP.children.set 1 (some b), dP.payload⟩).set b
        ⟨some p.node, db.children, db.payload⟩).set q
        ⟨dQ.parent, dQ.children.set 0 (some p.node), dQ.payload⟩).set p.node
        ⟨some q, dP.children.set 1 (some b), dP.payload⟩).set par
        ⟨dPar.parent, dPar.children.map (fun c => if c = some p.node then some q else c),
          dPar.payload⟩)[q]?
        = some ⟨dQ.parent, dQ.children.set 0 (some p.node), dQ.payload⟩ := by
      rw [List.getElem?_set_ne hparq, List.getElem?_set_ne hpq,
        List.getElem?_set_eq (by simpa using hlQ)]
    have hrun : p.RotateLeft = some (q,
        { p with
          heap := ((((((p.heap.set p.node
            ⟨some par, dP.children.set 1 (some b), dP.payload⟩).set b
            ⟨some p.node, db.children, db.payload⟩).set q
            ⟨dQ.parent, dQ.children.set 0 (some p.node), dQ.payload⟩).set p.node
            ⟨some q, dP.children.set 1 (some b), dP.payload⟩).set par
            ⟨dPar.parent, dPar.children.map (fun c => if c = some p.node then some q else c),
              dPar.payload⟩).set q
            ⟨some par, dQ.children.set 0 (some p.node), dQ.payload⟩),
          node := q,
          root := if p.node = p.root then q else p.root }) := by
      simp only [Parser1.RotateLeft, setRight, setLeft, replaceChild, hdP, hq, hdQ, hb, hdps, hpad2, hpad1,
        ex1, ex2, ex3, ex4p, ex5, hcont,
        Option.bind_eq_bind, Option.some_bind, if_true]
    have kq : (((((((p.heap.set p.node
        ⟨some par, dP.children.set 1 (some b), dP.payload⟩).set b
        ⟨some p.node, db.children, db.payload⟩).set q
        ⟨dQ.parent, dQ.children.set 0 (some p.node), dQ.payload⟩).set p.node
        ⟨some q, dP.children.set 1 (some b), dP.payload⟩).set par
        ⟨dPar.parent, dPar.children.map (fun c => if c = some p.node then some q else c),
          dPar.payload⟩).set q
        ⟨some par, dQ.children.set 0 (some p.node), dQ.payload⟩))[q]?
        = some ⟨some par, dQ.children.set 0 (some p.node), dQ.payload⟩ := by
      rw [List.getElem?_set_eq (by simpa using hlQ)]
    have kp : (((((((p.heap.set p.node
        ⟨some par, dP.children.set 1 (some b), dP.payload⟩).set b
        ⟨some p.node, db.children, db.payload⟩).set q
        ⟨dQ.parent, dQ.children.set 0 (some p.node), dQ.payload⟩).set p.node
        ⟨some q, dP.children.set 1 (some b), dP.payload⟩).set par
        ⟨dPar.parent, dPar.children.map (fun c => if c = some p.node then some q else c),
          dPar.payload⟩).set q
        ⟨some par, dQ.children.set 0 (some p.node), dQ.payload⟩))[p.node]?
        = some ⟨some q, dP.children.set 1 (some b), dP.payload⟩ := by
      rw [List.getElem?_set_ne (Ne.symm hpq), List.getElem?_set_ne hparp,
        List.getElem?_set_eq (by simpa using hlN)]
    have kb : (((((((p.heap.set p.node
        ⟨some par, dP.children.set 1 (some b), dP.payload⟩).set b
        ⟨some p.node, db.children, db.payload⟩).set q
        ⟨dQ.parent, dQ.children.set 0 (some p.node), dQ.payload⟩).set p.node
        ⟨some q, dP.children.set 1 (some b), dP.payload⟩).set par
        ⟨dPar.parent, dPar.children.map (fun c => if c = some p.node then some q else c),
          dPar.payload⟩).set q
        ⟨some par, dQ.children.set 0 (some p.node), dQ.payload⟩))[b]?
        = some ⟨some p.node, db.children, db.payload⟩ := by
      rw [List.getElem?_set_ne hqb, List.getElem?_set_ne hparb,
        List.getElem?_set_ne hpb, List.getElem?_set_ne hqb,
        List.getElem?_set_eq (by simpa using hlB)]
    have kpar : (((((((p.heap.set p.node
        ⟨some par, dP.children.set 1 (some b), dP.payload⟩).set b
        ⟨some p.node, db.children, db.payload⟩).set q
        ⟨dQ.parent, dQ.children.set 0 (some p.node), dQ.payload⟩).set p.node
        ⟨some q, dP.children.set 1 (some b), dP.payload⟩).set par
        ⟨dPar.parent, dPar.children.map (fun c => if c = some p.node then some q else c),
          dPar.payload⟩).set q
        ⟨some par, dQ.children.set 0 (some p.node), dQ.payload⟩))[par]?
        = some ⟨dPar.parent,
            dPar.children.map (fun c => if c = some p.node then some q else c),
            dPar.payload⟩ := by
      rw [List.getElem?_set_ne (Ne.symm hparq), List.getElem?_set_eq (by simpa using hlPar)]
    have k4 : ∀ j, j ≠ p.node → j ≠ q → j ≠ b → j ≠ par →
        (((((((p.heap.set p.node
        ⟨some par, dP.children.set 1 (some b), dP.payload⟩).set b
        ⟨some p.node, db.children, db.payload⟩).set q
        ⟨dQ.parent, dQ.children.set 0 (some p.node), dQ.payload⟩).set p.node
        ⟨some q, dP.children.set 1 (some b), dP.payload⟩).set par
        ⟨dPar.parent, dPar.children.map (fun c => if c = some p.node then some q else c),
          dPar.payload⟩).set q
        ⟨some par, dQ.children.set 0 (some p.node), dQ.payload⟩))[j]?
        = p.heap[j]? := by
      intro j hj1 hj2 hj3 hj4
      rw [List.getElem?_set_ne (Ne.symm hj2), List.getElem?_set_ne (Ne.symm hj4),
        List.getElem?_set_ne (Ne.symm hj1), List.getElem?_set_ne (Ne.symm hj2),
        List.getElem?_set_ne (Ne.symm hj3), List.getElem?_set_ne (Ne.symm hj1)]
    have hrep' := hrepgen _ (some par) kq kp kb
      (fun j hjP hj1 hj2 hj3 => k4 j hj1 hj2 hj3
        (fun hcon => hparmem.2 (by
          rw [STree.ids_mk]
          exact List.mem_cons_of_mem _ (hcon ▸ hjP))))
    have hpairs := InvT_replace_nonroot hI hfN
      (rfl : STree.slotId (STree.mk q
        (STree.mk p.node (c0 :: STree.mk b csbb :: csR) :: csqR)) = some q)
      hrep' hndnew
      (fun j hj => Or.inl (hperm.subset hj))
      (show q ∈ STree.ids (STree.mk q
        (STree.mk p.node (c0 :: STree.mk b csbb :: csR) :: csqR)) by simp)
      (fun j hj hjtx hjg => k4 j
        (fun hcon => hjtx (by rw [hcon]; simp))
        (fun hcon => hjtx (by
          rw [STree.ids_mk]
          exact List.mem_cons_of_mem _ (hcon ▸ hqmem)))
        (fun hcon => hjtx (by
          rw [STree.ids_mk]
          exact List.mem_cons_of_mem _ (hcon ▸ hbmem))) hjg)
      (fun dp hdp2 => by
        rw [hdPar] at hdp2
        injection hdp2 with he5
        subst he5
        exact kpar)
    obtain ⟨hInv', pre2, post2, heq2, hrepl2⟩ := hpairs
    refine ⟨_, hrun, rfl, STree.replaceAt p.node (STree.mk q
      (STree.mk p.node (c0 :: STree.mk b csbb :: csR) :: csqR)) t, ?_, ?_⟩
    · have hite : (if p.node = p.root then q else p.root) = p.root := if_neg hnr
      show InvT _ (if p.node = p.root then q else p.root) q
        (STree.replaceAt p.node (STree.mk q
          (STree.mk p.node (c0 :: STree.mk b csbb :: csR) :: csqR)) t)
      rw [hite]
      exact hInv'
    · rw [heq2, hrepl2]
      have hlen := hperm.length_eq
      simp only [STree.ids_mk, List.length_cons] at hlen
      simp only [STree.ids_mk, List.length_append, List.length_cons]
      omega

/-- The binary `Parser.RotateRight` on an invariant tree when the cursor
has a left child `q` that itself has a right child `b`: success with the
cursor moved to `q`, invariant preserved, node count unchanged. -/
theorem RotateRight1_spec {V : Type} {p : Parser1 V} {t : STree}
    {dP dQ : NodeData (P1Data V)} {q b : Nat}
    (hI : InvT p.heap p.root p.node t)
    (hdP : p.heap[p.node]? = some dP)
    (hq : dP.left = some q)
    (hdQ : p.heap[q]? = some dQ)
    (hb : dQ.right = some b) :
    ∃ p', p.RotateRight = some (q, p') ∧ p'.node = q ∧
      ∃ t', InvT p'.heap p'.root p'.node t' ∧
        (STree.ids t').length = (STree.ids t).length := by
  obtain ⟨pp, csP, dP', hfN, _, hdP', hdp, hdc, hrlP⟩ := locate hI hI.2.2.2
  rw [hdP] at hdP'
  injection hdP' with he
  subst he
  have hqD := hq
  rw [NodeData.left, hdc] at hqD
  obtain ⟨cQ, csRest, hsplitP, hslotQ⟩ := children_split_at0 hqD
  obtain ⟨csq, rfl⟩ : ∃ csq, cQ = STree.mk q csq := by
    rcases cQ with _ | ⟨i, l⟩
    · exact Option.noConfusion hslotQ
    · exact ⟨l, by rw [Option.some.inj hslotQ]⟩
  have hrepQ : STree.rep p.heap (some p.node) (STree.mk q csq) = true :=
    STree.repL_iff.mp hrlP _ (by rw [hsplitP]; simp)
  obtain ⟨dQ0, hdQ0, hdQp, hdQc, hrlq⟩ := STree.rep_mk_iff.mp hrepQ
  rw [hdQ] at hdQ0
  injection hdQ0 with he2
  subst he2
  have hbD := hb
  rw [NodeData.right, hdQc] at hbD
  obtain ⟨d0, cB, csqR, hsplitq, hslotB⟩ := children_split_at1 hbD
  obtain ⟨csbb, rfl⟩ : ∃ csbb, cB = STree.mk b csbb := by
    rcases cB with _ | ⟨i, l⟩
    · exact Option.noConfusion hslotB
    · exact ⟨l, by rw [Option.some.inj hslotB]⟩
  have hrepB : STree.rep p.heap (some q) (STree.mk b csbb) = true :=
    STree.repL_iff.mp hrlq _ (by rw [hsplitq]; simp)
  obtain ⟨db, hdb, hdbp, hdbc, hrlb⟩ := STree.rep_mk_iff.mp hrepB
  obtain ⟨preN, postN, heqN, hreplN, _⟩ := STree.findSub_split hI.2.2.1 hfN
  have hndtx : (STree.ids (STree.mk p.node csP)).Nodup := by
    have h5 := hI.2.2.1
    rw [heqN] at h5
    exact h5.of_append_left.of_append_right
  have hpnot : p.node ∉ STree.idsL csP := by
    have h5 := hndtx
    rw [STree.ids_mk, List.nodup_cons] at h5
    exact h5.1
  have hndcsP : (STree.idsL csP).Nodup := by
    have h5 := hndtx
    rw [STree.ids_mk, List.nodup_cons] at h5
    exact h5.2
  have hndcsP2 : (STree.idsL (([] : List STree) ++ STree.mk q csq :: csRest)).Nodup := by
    have h5 : ([] : List STree) ++ STree.mk q csq :: csRest = csP := by
      rw [List.nil_append, hsplitP]
    rw [h5]
    exact hndcsP
  have hndQ : (STree.ids (STree.mk q csq)).Nodup := by
    have h5 := hndcsP
    rw [hsplitP, STree.idsL_cons] at h5
    exact h5.of_append_left
  have hqnot : q ∉ STree.idsL csq := by
    have h5 := hndQ
    rw [STree.ids_mk, List.nodup_cons] at h5
    exact h5.1
  have hndcsq : (STree.idsL csq).Nodup := by
    have h5 := hndQ
    rw [STree.ids_mk, List.nodup_cons] at h5
    exact h5.2
  have hndq2 : (STree.idsL ([d0] ++ STree.mk b csbb :: csqR)).Nodup := by
    have h5 : [d0] ++ STree.mk b csbb :: csqR = csq := by
      rw [List.singleton_append, hsplitq]
    rw [h5]
    exact hndcsq
  have hndB : (STree.ids (STree.mk b csbb)).Nodup := by
    have h5 := hndcsq
    rw [hsplitq, STree.idsL_cons, STree.idsL_cons] at h5
    exact h5.of_append_right.of_append_left
  have hbnot : b ∉ STree.idsL csbb := by
    have h5 := hndB
    rw [STree.ids_mk, List.nodup_cons] at h5
    exact h5.1
  have hqmem : q ∈ STree.idsL csP := by
    rw [hsplitP, STree.idsL_cons]
    exact List.mem_append.mpr (Or.inl (by simp))
  have hbinq : b ∈ STree.idsL csq := by
    rw [hsplitq, STree.idsL_cons, STree.idsL_cons]
    exact List.mem_append.mpr (Or.inr (List.mem_append.mpr (Or.inl (by simp))))
  have hbmemq : b ∈ STree.ids (STree.mk q csq) := by
    rw [STree.ids_mk]
    exact List.mem_cons_of_mem _ hbinq
  have hbmem : b ∈ STree.idsL csP := by
    rw [hsplitP, STree.idsL_cons]
    exact List.mem_append.mpr (Or.inl hbmemq)
  have hpq : p.node ≠ q := fun hc => hpnot (hc ▸ hqmem)
  have hpb : p.node ≠ b := fun hc => hpnot (hc ▸ hbmem)
  have hqb : q ≠ b := fun hc => hqnot (hc ▸ hbinq)
  have hqsib : ∀ n ∈ STree.ids (STree.mk q csq),
      n ∉ STree.idsL (([] : List STree) ++ csRest) :=
    fun n hn => sib_not_mem hndcsP2 hn
  have hbsib : ∀ n ∈ STree.ids (STree.mk b csbb),
      n ∉ STree.idsL ([d0] ++ csqR) :=
    fun n hn => sib_not_mem hndq2 hn
  have hlN : p.node < p.heap.length := getElem?_some_lt hdP
  have hlQ : q < p.heap.length := getElem?_some_lt hdQ
  have hlB : b < p.heap.length := getElem?_some_lt hdb
  have hlen1 : 1 ≤ dP.children.length := by
    rw [hdc, hsplitP]
    simp
  have hpad1 : dP.children ++ List.replicate (1 - dP.children.length)
      (none : Option Nat) = dP.children := by
    have h5 : 1 - dP.children.length = 0 := by omega
    simp [h5]
  have hlen2 : 2 ≤ dQ.children.length := by
    rw [hdQc, hsplitq]
    simp
  have hpad2 : dQ.children ++ List.replicate (2 - dQ.children.length)
      (none : Option Nat) = dQ.children := by
    have h5 : 2 - dQ.children.length = 0 := by omega
    simp [h5]
  have hperm : (STree.ids (STree.mk q
      (d0 :: STree.mk p.node (STree.mk b csbb :: csRest) :: csqR))).Perm
      (STree.ids (STree.mk p.node csP)) := by
    rw [hsplitP, hsplitq]
    simp only [STree.ids_mk, STree.idsL_cons, idsL_append, STree.idsL_nil,
      List.append_nil]
    rw [List.perm_iff_count]
    intro a
    simp only [List.count_append, List.count_cons]
    omega
  have hndnew := hperm.nodup_iff.mpr hndtx
  have hrepgen : ∀ (h5 : List (NodeData (P1Data V))) (pp2 : Option Nat),
      h5[q]? = some ⟨pp2, dQ.children.set 1 (some p.node), dQ.payload⟩ →
      h5[p.node]? = some ⟨some q, dP.children.set 0 (some b), dP.payload⟩ →
      h5[b]? = some ⟨some p.node, db.children, db.payload⟩ →
      (∀ j ∈ STree.idsL csP, j ≠ p.node → j ≠ q → j ≠ b → h5[j]? = p.heap[j]?) →
      STree.rep h5 pp2 (STree.mk q
        (d0 :: STree.mk p.node (STree.mk b csbb :: csRest) :: csqR)) = true := by
    intro h5 pp2 kq kp kb k4
    have hqother : ∀ c ∈ [d0] ++ csqR, STree.rep h5 (some q) c = true := by
      intro c hc
      have hcq : c ∈ csq := by
        rw [hsplitq]
        rcases List.mem_append.mp hc with h6 | h6
        · have h7 : c = d0 := by simpa using h6
          subst h7
          exact List.mem_cons_self _ _
        · exact List.mem_cons_of_mem _ (List.mem_cons_of_mem _ h6)
      refine STree.rep_agree (STree.repL_iff.mp hrlq c hcq) ?_
      intro j hj
      have hjq : j ∈ STree.idsL csq := STree.mem_idsL.mpr ⟨c, hcq, hj⟩
      have hjP : j ∈ STree.idsL csP := by
        rw [hsplitP, STree.idsL_cons]
        refine List.mem_append.mpr (Or.inl ?_)
        rw [STree.ids_mk]
        exact List.mem_cons_of_mem _ hjq
      have hjd : j ∈ STree.idsL ([d0] ++ csqR) := STree.mem_idsL.mpr ⟨c, hc, hj⟩
      refine k4 j hjP (fun hcon => hpnot (hcon ▸ hjP))
        (fun hcon => hqnot (hcon ▸ hjq)) ?_
      intro hcon
      exact (hbsib b (by simp)) (hcon ▸ hjd)
    refine STree.rep_mk_iff.mpr ⟨_, kq, rfl, ?_, ?_⟩
    · rw [hdQc, hsplitq]
      simp [STree.slotId]
    · rw [STree.repL_iff]
      intro c hc
      rcases List.mem_cons.mp hc with hc | hc
      · subst hc
        exact hqother _ (by simp)
      · rcases List.mem_cons.mp hc with hc | hc
        · subst hc
          refine STree.rep_mk_iff.mpr ⟨_, kp, rfl, ?_, ?_⟩
          · rw [hdc, hsplitP]
            simp [STree.slotId]
          · rw [STree.repL_iff]
            intro c' hc'
            rcases List.mem_cons.mp hc' with hc' | hc'
            · subst hc'
              refine STree.rep_mk_iff.mpr ⟨_, kb, rfl, hdbc, ?_⟩
              refine STree.repL_agree hrlb ?_
              intro j hj
              have hjB : j ∈ STree.ids (STree.mk b csbb) := by
                rw [STree.ids_mk]
                exact List.mem_cons_of_mem _ hj
              have hjq : j ∈ STree.idsL csq := by
                rw [hsplitq, STree.idsL_cons, STree.idsL_cons]
                exact List.mem_append.mpr (Or.inr (List.mem_append.mpr (Or.inl hjB)))
              have hjP : j ∈ STree.idsL csP := by
                rw [hsplitP, STree.idsL_cons]
                refine List.mem_append.mpr (Or.inl ?_)
                rw [STree.ids_mk]
                exact List.mem_cons_of_mem _ hjq
              refine k4 j hjP (fun hcon => hpnot (hcon ▸ hjP))
                (fun hcon => hqnot (hcon ▸ hjq)) ?_
              intro hcon
              exact hbnot (hcon ▸ hj)
            · refine STree.rep_agree
                (STree.repL_iff.mp hrlP c' (by rw [hsplitP]; simp [hc'])) ?_
              intro j hj
              have hjR : j ∈ STree.idsL (([] : List STree) ++ csRest) := by
                rw [List.nil_append]
                exact STree.mem_idsL.mpr ⟨c', hc', hj⟩
              have hjP : j ∈ STree.idsL csP := by
                rw [hsplitP, STree.idsL_cons]
                exact List.mem_append.mpr (Or.inr (STree.mem_idsL.mpr ⟨c', hc', hj⟩))
              refine k4 j hjP (fun hcon => hpnot (hcon ▸ hjP)) ?_ ?_
              · intro hcon
                exact (hqsib q (by simp)) (hcon ▸ hjR)
              · intro hcon
                exact (hqsib b hbmemq) (hcon ▸ hjR)
        · exact hqother _ (by simp [hc])
  rcases pp with _ | par
  · -- the cursor is the root: q becomes the new root
    have hdpn : dP.parent = none := hdp
    have ht := locate_root hfN
    have hroot : p.root = p.node := by
      have h5 := hI.1
      rw [ht] at h5
      exact (Option.some.inj h5).symm
    have ex1 : (p.heap.set p.node
        ⟨none, dP.children.set 0 (some b), dP.payload⟩)[b]? = some db := by
      rw [List.getElem?_set_ne hpb]
      exact hdb
    have ex2 : ((p.heap.set p.node
        ⟨none, dP.children.set 0 (some b), dP.payload⟩).set b
        ⟨some p.node, db.children, db.payload⟩)[q]? = some dQ := by
      rw [List.getElem?_set_ne (Ne.symm hqb), List.getElem?_set_ne hpq]
      exact hdQ
    have ex3 : (((p.heap.set p.node
        ⟨none, dP.children.set 0 (some b), dP.payload⟩).set b
        ⟨some p.node, db.children, db.payload⟩).set q
        ⟨dQ.parent, dQ.children.set 1 (some p.node), dQ.payload⟩)[p.node]?
        = some ⟨none, dP.children.set 0 (some b), dP.payload⟩ := by
      rw [List.getElem?_set_ne (Ne.symm hpq), List.getElem?_set_ne (Ne.symm hpb),
        List.getElem?_set_eq (by simpa using hlN)]
    have ex4 : ((((p.heap.set p.node
        ⟨none, dP.children.set 0 (some b), dP.payload⟩).set b
        ⟨some p.node, db.children, db.payload⟩).set q
        ⟨dQ.parent, dQ.children.set 1 (some p.node), dQ.payload⟩).set p.node
        ⟨some q, dP.children.set 0 (some b), dP.payload⟩)[q]?
        = some ⟨dQ.parent, dQ.children.set 1 (some p.node), dQ.payload⟩ := by
      rw [List.getElem?_set_ne hpq, List.getElem?_set_eq (by simpa using hlQ)]
    have hrun : p.RotateRight = some (q,
        { p with
          heap := (((((p.heap.set p.node
            ⟨none, dP.children.set 0 (some b), dP.payload⟩).set b
            ⟨some p.node, db.children, db.payload⟩).set q
            ⟨dQ.parent, dQ.children.set 1 (some p.node), dQ.payload⟩).set p.node
            ⟨some q, dP.children.set 0 (some b), dP.payload⟩).set q
            ⟨none, dQ.children.set 1 (some p.node), dQ.payload⟩),
          node := q,
          root := if p.node = p.root then q else p.root }) := by
      simp only [Parser1.RotateRight, setRight, setLeft,
        hdP, hq, hdQ, hb, hdpn, hpad2, hpad1, ex1, ex2, ex3, ex4,
        Option.bind_eq_bind, Option.some_bind]
    have kq : ((((((p.heap.set p.node
        ⟨none, dP.children.set 0 (some b), dP.payload⟩).set b
        ⟨some p.node, db.children, db.payload⟩).set q
        ⟨dQ.parent, dQ.children.set 1 (some p.node), dQ.payload⟩).set p.node
        ⟨some q, dP.children.set 0 (some b), dP.payload⟩).set q
        ⟨none, dQ.children.set 1 (some p.node), dQ.payload⟩))[q]?
        = some ⟨none, dQ.children.set 1 (some p.node), dQ.payload⟩ := by
      rw [List.getElem?_set_eq (by simpa using hlQ)]
    have kp : ((((((p.heap.set p.node
        ⟨none, dP.children.set 0 (some b), dP.payload⟩).set b
        ⟨some p.node, db.children, db.payload⟩).set q
        ⟨dQ.parent, dQ.children.set 1 (some p.node), dQ.payload⟩).set p.node
        ⟨some q, dP.children.set 0 (some b), dP.payload⟩).set q
        ⟨none, dQ.children.set 1 (some p.node), dQ.payload⟩))[p.node]?
        = some ⟨some q, dP.children.set 0 (some b), dP.payload⟩ := by
      rw [List.getElem?_set_ne (Ne.symm hpq), List.getElem?_set_eq (by simpa using hlN)]
    have kb : ((((((p.heap.set p.node
        ⟨none, dP.children.set 0 (some b), dP.payload⟩).set b
        ⟨some p.node, db.children, db.payload⟩).set q
        ⟨dQ.parent, dQ.children.set 1 (some p.node), dQ.payload⟩).set p.node
        ⟨some q, dP.children.set 0 (some b), dP.payload⟩).set q
        ⟨none, dQ.children.set 1 (some p.node), dQ.payload⟩))[b]?
        = some ⟨some p.node, db.children, db.payload⟩ := by
      rw [List.getElem?_set_ne hqb, List.getElem?_set_ne hpb,
        List.getElem?_set_ne hqb, List.getElem?_set_eq (by simpa using hlB)]
    have k4 : ∀ j, j ≠ p.node → j ≠ q → j ≠ b →
        ((((((p.heap.set p.node
        ⟨none, dP.children.set 0 (some b), dP.payload⟩).set b
        ⟨some p.node, db.children, db.payload⟩).set q
        ⟨dQ.parent, dQ.children.set 1 (some p.node), dQ.payload⟩).set p.node
        ⟨some q, dP.children.set 0 (some b), dP.payload⟩).set q
        ⟨none, dQ.children.set 1 (some p.node), dQ.payload⟩))[j]?
        = p.heap[j]? := by
      intro j hj1 hj2 hj3
      rw [List.getElem?_set_ne (Ne.symm hj2), List.getElem?_set_ne (Ne.symm hj1),
        List.getElem?_set_ne (Ne.symm hj2), List.getElem?_set_ne (Ne.symm hj3),
        List.getElem?_set_ne (Ne.symm hj1)]
    refine ⟨_, hrun, rfl, STree.mk q
      (d0 :: STree.mk p.node (STree.mk b csbb :: csRest) :: csqR),
      ⟨?_, hrepgen _ none kq kp kb (fun j _ => k4 j), hndnew, by simp⟩, ?_⟩
    · simp [STree.slotId, if_pos hroot.symm]
    · rw [ht]
      exact hperm.length_eq
  · -- the cursor has a parent
    have hdps : dP.parent = some par := hdp
    have hparmem := locate_parent_mem hI.2.2.1 hfN
    have hparp : par ≠ p.node := by
      intro hc
      exact hparmem.2 (by rw [hc]; simp)
    have hparq : par ≠ q := by
      intro hc
      exact hparmem.2 (by
        rw [STree.ids_mk]
        exact List.mem_cons_of_mem _ (hc ▸ hqmem))
    have hparb : par ≠ b := by
      intro hc
      exact hparmem.2 (by
        rw [STree.ids_mk]
        exact List.mem_cons_of_mem _ (hc ▸ hbmem))
    obtain ⟨ppPar, csPar, dPar, hfPar, _, hdPar, _, hdParc, _⟩ :=
      locate hI hparmem.1
    have hcurslot : some p.node ∈ dPar.children := by
      rcases findSub_parent_slot hI.2.1 hfN with ⟨hpp, _⟩ |
        ⟨pid, dpid, hpid, hdpid, hsl⟩
      · exact Option.noConfusion hpp
      · have hpid2 : pid = par := by
          injection hpid with h2
          exact h2.symm
        subst hpid2
        rw [hdPar] at hdpid
        injection hdpid with he3
        rw [he3]
        exact hsl
    have hcont : dPar.children.contains (some p.node) = true :=
      List.elem_eq_true_of_mem hcurslot
    have hlPar : par < p.heap.length := getElem?_some_lt hdPar
    have hnr : p.node ≠ p.root := by
      intro hc
      have h5 : (some par : Option Nat) = none :=
        (located_root_iff hI.1 hfN).mpr hc
      exact Option.noConfusion h5
    have ex1 : (p.heap.set p.node
        ⟨some par, dP.children.set 0 (some b), dP.payload⟩)[b]? = some db := by
      rw [List.getElem?_set_ne hpb]
      exact hdb
    have ex2 : ((p.heap.set p.node
        ⟨some par, dP.children.set 0 (some b), dP.payload⟩).set b
        ⟨some p.node, db.children, db.payload⟩)[q]? = some dQ := by
      rw [List.getElem?_set_ne (Ne.symm hqb), List.getElem?_set_ne hpq]
      exact hdQ
    have ex3 : (((p.heap.set p.node
        ⟨some par, dP.children.set 0 (some b), dP.payload⟩).set b
        ⟨some p.node, db.children, db.payload⟩).set q
        ⟨dQ.parent, dQ.children.set 1 (some p.node), dQ.payload⟩)[p.node]?
        = some ⟨some par, dP.children.set 0 (some b), dP.payload⟩ := by
      rw [List.getElem?_set_ne (Ne.symm hpq), List.getElem?_set_ne (Ne.symm hpb),
        List.getElem?_set_eq (by simpa using hlN)]
    have ex4p : ((((p.heap.set p.node
        ⟨some par, dP.children.set 0 (some b), dP.payload⟩).set b
        ⟨some p.node, db.children, db.payload⟩).set q
        ⟨dQ.parent, dQ.children.set 1 (some p.node), dQ.payload⟩).set p.node
        ⟨some q, dP.children.set 0 (some b), dP.payload⟩)[par]? = some dPar := by
      rw [List.getElem?_set_ne (Ne.symm hparp), List.getElem?_set_ne (Ne.symm hparq),
        List.getElem?_set_ne (Ne.symm hparb), List.getElem?_set_ne (Ne.symm hparp)]
      exact hdPar
    have ex5 : (((((p.heap.set p.node
        ⟨some par, dP.children.set 0 (some b), dP.payload⟩).set b
        ⟨some p.node, db.children, db.payload⟩).set q
        ⟨dQ.parent, dQ.children.set 1 (some p.node), dQ.payload⟩).set p.node
        ⟨some q, dP.children.set 0 (some b), dP.payload⟩).set par
        ⟨dPar.parent, dPar.children.map (fun c => if c = some p.node then some q else c),
          dPar.payload⟩)[q]?
        = some ⟨dQ.parent, dQ.children.set 1 (some p.node), dQ.payload⟩ := by
      rw [List.getElem?_set_ne hparq, List.getElem?_set_ne hpq,
        List.getElem?_set_eq (by simpa using hlQ)]
    have hrun : p.RotateRight = some (q,
        { p with
          heap := ((((((p.heap.set p.node
            ⟨some par, dP.children.set 0 (some b), dP.payload⟩).set b
            ⟨some p.node, db.children, db.payload⟩).set q
            ⟨dQ.parent, dQ.children.set 1 (some p.node), dQ.payload⟩).set p.node
            ⟨some q, dP.children.set 0 (some b), dP.payload⟩).set par
            ⟨dPar.parent, dPar.children.map (fun c => if c = some p.node then some q else c),
              dPar.payload⟩).set q
            ⟨some par, dQ.children.set 1 (some p.node), dQ.payload⟩),
          node := q,
          root := if p.node = p.root then q else p.root }) := by
      simp only [Parser1.RotateRight, setRight, setLeft, replaceChild,
        hdP, hq, hdQ, hb, hdps, hpad2, hpad1,
        ex1, ex2, ex3, ex4p, ex5, hcont,
        Option.bind_eq_bind, Option.some_bind, if_true]
    have kq : (((((((p.heap.set p.node
        ⟨some par, dP.children.set 0 (some b), dP.payload⟩).set b
        ⟨some p.node, db.children, db.payload⟩).set q
        ⟨dQ.parent, dQ.children.set 1 (some p.node), dQ.payload⟩).set p.node
        ⟨some q, dP.children.set 0 (some b), dP.payload⟩).set par
        ⟨dPar.parent, dPar.children.map (fun c => if c = some p.node then some q else c),
          dPar.payload⟩).set q
        ⟨some par, dQ.children.set 1 (some p.node), dQ.payload⟩))[q]?
        = some ⟨some par, dQ.children.set 1 (some p.node), dQ.payload⟩ := by
      rw [List.getElem?_set_eq (by simpa using hlQ)]
    have kp : (((((((p.heap.set p.node
        ⟨some par, dP.children.set 0 (some b), dP.payload⟩).set b
        ⟨some p.node, db.children, db.payload⟩).set q
        ⟨dQ.parent, dQ.children.set 1 (some p.node), dQ.payload⟩).set p.node
        ⟨some q, dP.children.set 0 (some b), dP.payload⟩).set par
        ⟨dPar.parent, dPar.children.map (fun c => if c = some p.node then some q else c),
          dPar.payload⟩).set q
        ⟨some par, dQ.children.set 1 (some p.node), dQ.payload⟩))[p.node]?
        = some ⟨some q, dP.children.set 0 (some b), dP.payload⟩ := by
      rw [List.getElem?_set_ne (Ne.symm hpq), List.getElem?_set_ne hparp,
        List.getElem?_set_eq (by simpa using hlN)]
    have kb : (((((((p.heap.set p.node
        ⟨some par, dP.children.set 0 (some b), dP.payload⟩).set b
        ⟨some p.node, db.children, db.payload⟩).set q
        ⟨dQ.parent, dQ.children.set 1 (some p.node), dQ.payload⟩).set p.node
        ⟨some q, dP.children.set 0 (some b), dP.payload⟩).set par
        ⟨dPar.parent, dPar.children.map (fun c => if c = some p.node then some q else c),
          dPar.payload⟩).set q
        ⟨some par, dQ.children.set 1 (some p.node), dQ.payload⟩))[b]?
        = some ⟨some p.node, db.children, db.payload⟩ := by
      rw [List.getElem?_set_ne hqb, List.getElem?_set_ne hparb,
        List.getElem?_set_ne hpb, List.getElem?_set_ne hqb,
        List.getElem?_set_eq (by simpa using hlB)]
    have kpar : (((((((p.heap.set p.node
        ⟨some par, dP.children.set 0 (some b), dP.payload⟩).set b
        ⟨some p.node, db.children, db.payload⟩).set q
        ⟨dQ.parent, dQ.children.set 1 (some p.node), dQ.payload⟩).set p.node
        ⟨some q, dP.children.set 0 (some b), dP.payload⟩).set par
        ⟨dPar.parent, dPar.children.map (fun c => if c = some p.node then some q else c),
          dPar.payload⟩).set q
        ⟨some par, dQ.children.set 1 (some p.node), dQ.payload⟩))[par]?
        = some ⟨dPar.parent,
            dPar.children.map (fun c => if c = some p.node then some q else c),
            dPar.payload⟩ := by
      rw [List.getElem?_set_ne (Ne.symm hparq), List.getElem?_set_eq (by simpa using hlPar)]
    have k4 : ∀ j, j ≠ p.node → j ≠ q → j ≠ b → j ≠ par →
        (((((((p.heap.set p.node
        ⟨some par, dP.children.set 0 (some b), dP.payload⟩).set b
        ⟨some p.node, db.children, db.payload⟩).set q
        ⟨dQ.parent, dQ.children.set 1 (some p.node), dQ.payload⟩).set p.node
        ⟨some q, dP.children.set 0 (some b), dP.payload⟩).set par
        ⟨dPar.parent, dPar.children.map (fun c => if c = some p.node then some q else c),
          dPar.payload⟩).set q
        ⟨some par, dQ.children.set 1 (some p.node), dQ.payload⟩))[j]?
        = p.heap[j]? := by
      intro j hj1 hj2 hj3 hj4
      rw [List.getElem?_set_ne (Ne.symm hj2), List.getElem?_set_ne (Ne.symm hj4),
        List.getElem?_set_ne (Ne.symm hj1), List.getElem?_set_ne (Ne.symm hj2),
        List.getElem?_set_ne (Ne.symm hj3), List.getElem?_set_ne (Ne.symm hj1)]
    have hrep' := hrepgen _ (some par) kq kp kb
      (fun j hjP hj1 hj2 hj3 => k4 j hj1 hj2 hj3
        (fun hcon => hparmem.2 (by
          rw [STree.ids_mk]
          exact List.mem_cons_of_mem _ (hcon ▸ hjP))))
    have hpairs := InvT_replace_nonroot hI hfN
      (rfl : STree.slotId (STree.mk q
        (d0 :: STree.mk p.node (STree.mk b csbb :: csRest) :: csqR)) = some q)
      hrep' hndnew
      (fun j hj => Or.inl (hperm.subset hj))
      (show q ∈ STree.ids (STree.mk q
        (d0 :: STree.mk p.node (STree.mk b csbb :: csRest) :: csqR)) by simp)
      (fun j hj hjtx hjg => k4 j
        (fun hcon => hjtx (by rw [hcon]; simp))
        (fun hcon => hjtx (by
          rw [STree.ids_mk]
          exact List.mem_cons_of_mem _ (hcon ▸ hqmem)))
        (fun hcon => hjtx (by
          rw [STree.ids_mk]
          exact List.mem_cons_of_mem _ (hcon ▸ hbmem))) hjg)
      (fun dp hdp2 => by
        rw [hdPar] at hdp2
        injection hdp2 with he5
        subst he5
        exact kpar)
    obtain ⟨hInv', pre2, post2, heq2, hrepl2⟩ := hpairs
    refine ⟨_, hrun, rfl, STree.replaceAt p.node (STree.mk q
      (d0 :: STree.mk p.node (STree.mk b csbb :: csRest) :: csqR)) t, ?_, ?_⟩
    · have hite : (if p.node = p.root then q else p.root) = p.root := if_neg hnr
      show InvT _ (if p.node = p.root then q else p.root) q
        (STree.replaceAt p.node (STree.mk q
          (d0 :: STree.mk p.node (STree.mk b csbb :: csRest) :: csqR)) t)
      rw [hite]
      exact hInv'
    · rw [heq2, hrepl2]
      have hlen := hperm.length_eq
      simp only [STree.ids_mk, List.length_cons] at hlen
      simp only [STree.ids_mk, List.length_append, List.length_cons]
      omega

/-! ## Claim C4: every tree operation preserves the structural invariant -/

/-- C4: on a tree satisfying the structural invariant (consistent parent
pointers, null root parent, single ownership — `Inv` via a duplicate-free
decode tree), every tree-editing operation that returns preserves the
invariant: `Node`, `Push`, `Climb`, `Replace` and the binary
`RotateLeft`/`RotateRight` of parser.go, and the parent-promotion
`RotateLeft` and `AdoptSibling` of the tree-based variant; moreover the
four rotation/adoption operations do not change the number of nodes in
the tree. -/
theorem claim_C4 (V : Type) :
    (∀ (p : Parser1 V) (v : V) (m : Nat) (p' : Parser1 V) (t : STree),
      InvT p.heap p.root p.node t → p.Node v = some (m, p') →
      ∃ t', InvT p'.heap p'.root p'.node t') ∧
    (∀ (p : Parser1 V) (v : V) (m : Nat) (p' : Parser1 V) (t : STree),
      InvT p.heap p.root p.node t → p.Push v = some (m, p') →
      ∃ t', InvT p'.heap p'.root p'.node t') ∧
    (∀ (p : Parser1 V) (m : Nat) (p' : Parser1 V) (t : STree),
      InvT p.heap p.root p.node t → p.Climb = some (m, p') →
      ∃ t', InvT p'.heap p'.root p'.node t') ∧
    (∀ (p : Parser1 V) (v : V) (val : V) (p' : Parser1 V) (t : STree),
      InvT p.heap p.root p.node t → p.Replace v = some (val, p') →
      ∃ t', InvT p'.heap p'.root p'.node t') ∧
    (∀ (p : Parser1 V) (m : Nat) (p' : Parser1 V) (t : STree),
      InvT p.heap p.root p.node t → p.RotateLeft = some (m, p') →
      ∃ t', InvT p'.heap p'.root p'.node t' ∧
        (STree.ids t').length = (STree.ids t).length) ∧
    (∀ (p : Parser1 V) (m : Nat) (p' : Parser1 V) (t : STree),
      InvT p.heap p.root p.node t → p.RotateRight = some (m, p') →
      ∃ t', InvT p'.heap p'.root p'.node t' ∧
        (STree.ids t').length = (STree.ids t).length) ∧
    (∀ (p : Parser2 V) (r : Option Nat × Option TreeErr) (p' : Parser2 V)
        (t : STree),
      InvT p.heap p.treeRoot p.node t → p.RotateLeft = some (r, p') →
      ∃ t', InvT p'.heap p'.treeRoot p'.node t' ∧
        (STree.ids t').length = (STree.ids t).length) ∧
    (∀ (p : Parser2 V) (r : Option Nat × Option TreeErr) (p' : Parser2 V)
        (t : STree),
      InvT p.heap p.treeRoot p.node t → p.AdoptSibling = some (r, p') →
      ∃ t', InvT p'.heap p'.treeRoot p'.node t' ∧
        (STree.ids t').length = (STree.ids t).length) := by
  refine ⟨?_, ?_, ?_, ?_, ?_, ?_, ?_, ?_⟩
  · -- Node
    intro p v m p' t hI hrun
    obtain ⟨d, hd⟩ := STree.rep_valid hI.2.1 p.node hI.2.2.2
    obtain ⟨hrunN, t', hInv, _⟩ := Node1_spec hI hd v
    rw [hrunN] at hrun
    injection hrun with h1
    injection h1 with hm hp'
    subst hp'
    exact ⟨t', hInv⟩
  · -- Push
    intro p v m p' t hI hrun
    obtain ⟨d, hd⟩ := STree.rep_valid hI.2.1 p.node hI.2.2.2
    obtain ⟨hrunN, t', hInv, hmem⟩ := Node1_spec hI hd v
    have hrunP : p.Push v = some (p.heap.length,
        { p with
          heap := ((p.heap ++ [(⟨some p.node, [], p.newNodeData v⟩ : NodeData (P1Data V))]).set p.node
            ⟨d.parent, d.children ++ [some p.heap.length], d.payload⟩),
          node := p.heap.length }) := by
      simp only [Parser1.Push, hrunN, Option.bind_eq_bind, Option.some_bind]
    rw [hrunP] at hrun
    injection hrun with h1
    injection h1 with hm hp'
    subst hp'
    exact ⟨t', hInv.1, hInv.2.1, hInv.2.2.1, hmem⟩
  · -- Climb
    intro p m p' t hI hrun
    obtain ⟨pp, csn, d, hfN, _, hd, hdp, _, _⟩ := locate hI hI.2.2.2
    rcases pp with _ | g
    · have hrunC : p.Climb = some (p.node, p) := by
        simp only [Parser1.Climb, hd, hdp, Option.bind_eq_bind, Option.some_bind]
      rw [hrunC] at hrun
      injection hrun with h1
      injection h1 with hm hp'
      subst hp'
      exact ⟨t, hI⟩
    · have hgmem := (locate_parent_mem hI.2.2.1 hfN).1
      have hrunC : p.Climb = some (p.node, { p with node := g }) := by
        simp only [Parser1.Climb, hd, hdp, Option.bind_eq_bind, Option.some_bind]
      rw [hrunC] at hrun
      injection hrun with h1
      injection h1 with hm hp'
      subst hp'
      exact ⟨t, hI.1, hI.2.1, hI.2.2.1, hgmem⟩
  · -- Replace
    intro p v val p' t hI hrun
    exact Replace1_spec v hI hrun
  · -- binary RotateLeft
    intro p m p' t hI hrun
    obtain ⟨dP, hdP⟩ := STree.rep_valid hI.2.1 p.node hI.2.2.2
    rcases hqv : dP.right with _ | q
    · have hrunC : p.RotateLeft = some (p.node, p) := by
        simp only [Parser1.RotateLeft, hdP, hqv, Option.bind_eq_bind,
          Option.some_bind]
      rw [hrunC] at hrun
      injection hrun with h1
      injection h1 with hm hp'
      subst hp'
      exact ⟨t, hI, rfl⟩
    · rcases hdQv : p.heap[q]? with _ | dQ
      · have hnone : p.RotateLeft = none := by
          simp only [Parser1.RotateLeft, hdP, hqv, hdQv, Option.bind_eq_bind,
            Option.some_bind, Option.none_bind]
        rw [hnone] at hrun
        exact Option.noConfusion hrun
      · rcases hbv : dQ.left with _ | b
        · have hnone : p.RotateLeft = none := by
            simp only [Parser1.RotateLeft, hdP, hqv, hdQv, hbv,
              Option.bind_eq_bind, Option.some_bind, Option.none_bind]
          rw [hnone] at hrun
          exact Option.noConfusion hrun
        · obtain ⟨p2, hrun2, _, t', hInv, hlen⟩ :=
            RotateLeft1_spec hI hdP hqv hdQv hbv
          rw [hrun2] at hrun
          injection hrun with h1
          injection h1 with hm hp'
          subst hp'
          exact ⟨t', hInv, hlen⟩
  · -- binary RotateRight
    intro p m p' t hI hrun
    obtain ⟨dP, hdP⟩ := STree.rep_valid hI.2.1 p.node hI.2.2.2
    rcases hqv : dP.left with _ | q
    · have hrunC : p.RotateRight = some (p.node, p) := by
        simp only [Parser1.RotateRight, hdP, hqv, Option.bind_eq_bind,
          Option.some_bind]
      rw [hrunC] at hrun
      injection hrun with h1
      injection h1 with hm hp'
      subst hp'
      exact ⟨t, hI, rfl⟩
    · rcases hdQv : p.heap[q]? with _ | dQ
      · have hnone : p.RotateRight = none := by
          simp only [Parser1.RotateRight, hdP, hqv, hdQv, Option.bind_eq_bind,
            Option.some_bind, Option.none_bind]
        rw [hnone] at hrun
        exact Option.noConfusion hrun
      · rcases hbv : dQ.right with _ | b
        · have hnone : p.RotateRight = none := by
            simp only [Parser1.RotateRight, hdP, hqv, hdQv, hbv,
              Option.bind_eq_bind, Option.some_bind, Option.none_bind]
          rw [hnone] at hrun
          exact Option.noConfusion hrun
        · obtain ⟨p2, hrun2, _, t', hInv, hlen⟩ :=
            RotateRight1_spec hI hdP hqv hdQv hbv
          rw [hrun2] at hrun
          injection hrun with h1
          injection h1 with hm hp'
          subst hp'
          exact ⟨t', hInv, hlen⟩
  · -- parent-promotion RotateLeft
    intro p r p' t hI hrun
    obtain ⟨dn, hdn⟩ := STree.rep_valid hI.2.1 p.node hI.2.2.2
    rcases hpar : dn.parent with _ | op
    · have herr := RotateLeft2_err hdn hpar
      rw [herr] at hrun
      injection hrun with h1
      injection h1 with hr hp'
      subst hp'
      exact ⟨t, hI, rfl⟩
    · obtain ⟨dop, hdop⟩ := parent_live hI hdn hpar
      obtain ⟨p2, t2, hrun2, hI2, hlen2, _⟩ := RotateLeft2_spec hI hdn hpar hdop
      rw [hrun2] at hrun
      injection hrun with h1
      injection h1 with hr hp'
      subst hp'
      exact ⟨t2, hI2, hlen2⟩
  · -- AdoptSibling
    intro p r p' t hI hrun
    obtain ⟨dn, hdn⟩ := STree.rep_valid hI.2.1 p.node hI.2.2.2
    rcases hpar : dn.parent with _ | op
    · have herr := AdoptSibling2_err1 hdn hpar
      rw [herr] at hrun
      injection hrun with h1
      injection h1 with hr hp'
      subst hp'
      exact ⟨t, hI, rfl⟩
    · obtain ⟨dop, hdop⟩ := parent_live hI hdn hpar
      rcases hsib : Parser2.prevSibGo dop.children p.node none with _ | sId
      · have herr := AdoptSibling2_err2 hdn hpar hdop hsib
        rw [herr] at hrun
        injection hrun with h1
        injection h1 with hr hp'
        subst hp'
        exact ⟨t, hI, rfl⟩
      · obtain ⟨p2, t2, hrun2, hI2, hlen2, _⟩ :=
          AdoptSibling2_spec hI hdn hpar hdop hsib
        rw [hrun2] at hrun
        injection hrun with h1
        injection h1 with hr hp'
        subst hp'
        exact ⟨t2, hI2, hlen2⟩

/-- A concrete four-node binary tree for the C4 witness: root `0` with
children `1` and `2`, and `2` with the single child `3` — so the binary
`RotateLeft` at the root succeeds. -/
def c4P1 : Parser1 Nat :=
  ⟨[⟨none, [some 1, some 2], ⟨0, 0, 0, 0⟩⟩, ⟨some 0, [], ⟨1, 0, 0, 0⟩⟩,
    ⟨some 0, [some 3], ⟨2, 0, 0, 0⟩⟩, ⟨some 2, [], ⟨3, 0, 0, 0⟩⟩],
   0, 0, none, []⟩

/-- Its decode tree. -/
def c4T1 : STree := .mk 0 [.mk 1 [], .mk 2 [.mk 3 []]]

/-- The result of the binary `RotateLeft` on `c4P1`. -/
def c4P1' : Parser1 Nat :=
  ⟨[⟨some 2, [some 1, some 3], ⟨0, 0, 0, 0⟩⟩, ⟨some 0, [], ⟨1, 0, 0, 0⟩⟩,
    ⟨none, [some 0], ⟨2, 0, 0, 0⟩⟩, ⟨some 0, [], ⟨3, 0, 0, 0⟩⟩],
   2, 2, none, []⟩

/-- A concrete three-node parser of the tree-based variant for the C4
witness: root `0` with children `1` and `2`, cursor at `2`, so
`AdoptSibling` succeeds. -/
def c4P3 : Parser2 Nat :=
  ⟨[⟨none, [some 1, some 2], 0⟩, ⟨some 0, [], 1⟩, ⟨some 0, [], 2⟩],
   0, 2, none, []⟩

/-- Its decode tree. -/
def c4T3 : STree := .mk 0 [.mk 1 [], .mk 2 []]

/-- The result of `AdoptSibling` on `c4P3`. -/
def c4P3' : Parser2 Nat :=
  ⟨[⟨none, [some 2], 0⟩, ⟨some 2, [], 1⟩, ⟨some 0, [some 1], 2⟩],
   0, 2, none, []⟩

theorem claim_C4_witness :
    (InvT c4P1.heap c4P1.root c4P1.node c4T1 ∧
      c4P1.RotateLeft = some (2, c4P1') ∧
      InvT c4P3.heap c4P3.treeRoot c4P3.node c4T3 ∧
      c4P3.AdoptSibling = some ((some 2, none), c4P3')) ∧
    (∃ t', InvT c4P1'.heap c4P1'.root c4P1'.node t' ∧
      (STree.ids t').length = (STree.ids c4T1).length) ∧
    (∃ t', InvT c4P3'.heap c4P3'.treeRoot c4P3'.node t' ∧
      (STree.ids t').length = (STree.ids c4T3).length) :=
  ⟨⟨⟨rfl, rfl, by decide, by decide⟩, by decide, ⟨rfl, rfl, by decide, by decide⟩, by decide⟩,
    (claim_C4 Nat).2.2.2.2.1 c4P1 2 c4P1' c4T1
      ⟨rfl, rfl, by decide, by decide⟩ (by decide),
    (claim_C4 Nat).2.2.2.2.2.2.2 c4P3 (some 2, none) c4P3' c4T3
      ⟨rfl, rfl, by decide, by decide⟩ (by decide)⟩

end Lexparse
